import Mathlib

/-!
# Real-time voice/background separation engine

A shallow embedding of the render path (`src/worklet/audio-processor.js`), the
session store of `src/background.js` and the overlap-add worker
(`src/workers/sep_worker.js`).

Conventions of the embedding:

* Numbers are elements of an arbitrary linearly ordered field `α` (exact
  arithmetic; instantiate with `ℚ` to compute, with `ℝ` for the cosine
  window).  IEEE rounding, `NaN` and the infinities are outside the model.
* The functions of the JavaScript `Math` object that are not field operations
  (`sqrt`, `pow`, `cos`, the constant `PI`) are a parameter `JsMath`.
* A typed array is a `List`; a store `a[i] = x` is `List.set` (ignored outside
  the array, as in JavaScript) and a load `a[i]` is `List.getD a i 0`; with
  the array lengths the source works with, every load is inside its array.
* Methods that update an object return the updated object; a `for` loop over
  `0 .. N-1` is a left fold over `List.range N`, a `while` loop a function
  defined by well-founded recursion.
* A message handler is one function from state to state, except the PROCESS
  handler of the worker, which is `async` and waits for the model inside its
  loop: `windowLoop`, `SepWorker.onProcess` and `SepWorker.runChunks` describe
  it when no other handler runs during that wait, `AsyncWorker` describes it
  with the handlers of later messages running in between.
-/

namespace AudioEngine

/-! ## JavaScript values and plain objects -/

/-- A JavaScript value as it travels in a control record. -/
inductive JsVal (α : Type) where
  | undefined : JsVal α
  | null : JsVal α
  | bool (b : Bool) : JsVal α
  | num (x : α) : JsVal α
  | str (s : String) : JsVal α
  deriving DecidableEq

/-- A plain object, seen through property lookup: `o k = none` means that the
key `k` is not in `o` (`!(k in o)`). -/
abbrev Obj (α : Type) := String → Option (JsVal α)

/-- The empty object `{}`. -/
def Obj.empty {α : Type} : Obj α := fun _ => none

/-- The assignment `o[k] = v`. -/
def Obj.set {α : Type} (o : Obj α) (k : String) (v : JsVal α) : Obj α :=
  fun j => if j = k then some v else o j

/-- The object spread `{ ...a, ...b }`: the properties of `b` win. -/
def Obj.spread {α : Type} (a b : Obj α) : Obj α :=
  fun k => match b k with
    | some v => some v
    | none => a k

/-- Build an object from a list of properties (later entries win, as in an
object literal). -/
def Obj.ofList {α : Type} (l : List (String × JsVal α)) : Obj α :=
  l.foldl (fun o kv => o.set kv.1 kv.2) Obj.empty

section Control

variable {α : Type} [LinearOrderedField α]

/-! ## Control plane (`HybridProcessor.port.onmessage`, `sep_worker` CONTROL) -/

/-- The arrow function `norm` of `audio-processor.js` line 113:
`typeof x === "number" ? (x > 4 ? max(0, min(2, x / 100)) : max(0, min(2, x))) : 1`. -/
def norm (x : JsVal α) : α :=
  match x with
  | JsVal.num x => if x > 4 then max 0 (min 2 (x / 100)) else max 0 (min 2 x)
  | _ => 1

/-- The arrow function `norm` of `sep_worker.js` line 37 (same text as the
worklet's). -/
def sepWorkerNorm (x : JsVal α) : α :=
  match x with
  | JsVal.num x => if x > 4 then max 0 (min 2 (x / 100)) else max 0 (min 2 x)
  | _ => 1

/-- One line `if (k in control) control[k] = norm(control[k]);`. -/
def normField (control : Obj α) (k : String) : Obj α :=
  match control k with
  | some v => control.set k (JsVal.num (norm v))
  | none => control

/-- The three normalising assignments of lines 114-116, in order. -/
def normGains (control : Obj α) : Obj α :=
  normField (normField (normField control "masterGain") "voiceGain") "bgGain"

/-- The CONTROL branch of `HybridProcessor.port.onmessage` (lines 112-118) as a
function of `this.ctrl` and the message's `control` property; `none` is a
missing (falsy) `control`, for which the branch is not taken. -/
def onControl (ctrl : Obj α) (control : Option (Obj α)) : Obj α :=
  match control with
  | some c => Obj.spread ctrl (normGains c)
  | none => ctrl

/-- The CONTROL_UPDATE branch of `handlePopupMessage` (`background.js` lines
115-118): `entry.control = { ...entry.control, ...control }` with
`control = msg.control || {}` and `entry = sessions.get(tabId) || { control: {} }`. -/
def handlePopupControlUpdate (entry : Option (Obj α)) (msgControl : Option (Obj α)) : Obj α :=
  let control := msgControl.getD Obj.empty
  let entryControl := entry.getD Obj.empty
  Obj.spread entryControl control

end Control

/-! ## Stem fragment queue (`InterleavedQueue`) -/

section Queue

variable {α : Type} [Zero α]

/-- The number of stereo frames of an interleaved buffer, `buf.length >> 1`. -/
def frames (buf : List α) : Nat := buf.length >>> 1

/-- The class `InterleavedQueue`: the pending buffers, oldest first, and the
read offset (in frames) into the oldest one. -/
structure InterleavedQueue (α : Type) where
  buffers : List (List α)
  offset : Nat

/-- The constructor `new InterleavedQueue()`. -/
def InterleavedQueue.new : InterleavedQueue α := { buffers := [], offset := 0 }

/-- The method `push(buf) { if (buf && buf.length) this.buffers.push(buf); }`. -/
def InterleavedQueue.push (q : InterleavedQueue α) (buf : List α) : InterleavedQueue α :=
  if buf.length ≠ 0 then { q with buffers := q.buffers ++ [buf] } else q

/-- The local state of one `consumeStereo` call: the queue fields, the two
output arrays and the counter `filled`. -/
structure ConsumeState (α : Type) where
  buffers : List (List α)
  offset : Nat
  outputL : List α
  outputR : List α
  filled : Nat

/-- The body of the inner loop of `consumeStereo` (lines 84-87): copy frame
`offset` of `buf` to position `filled` of the outputs.  A typed-array store
outside the array is ignored, as `List.set` does; the reads `buf[2 * idx]` and
`buf[2 * idx + 1]` are inside `buf` whenever `idx < frames buf`. -/
def consumeFrame (buf : List α) (s : ConsumeState α) : ConsumeState α :=
  { s with
    outputL := s.outputL.set s.filled (buf.getD (2 * s.offset) 0)
    outputR := s.outputR.set s.filled (buf.getD (2 * s.offset + 1) 0)
    offset := s.offset + 1
    filled := s.filled + 1 }

/-- The inner loop of `consumeStereo` (line 83) on the head buffer `buf`. -/
def consumeInner (buf : List α) (needed : Nat) (s : ConsumeState α) : ConsumeState α :=
  if s.filled < needed ∧ s.offset < frames buf then
    consumeInner buf needed (consumeFrame buf s)
  else s
termination_by frames buf - s.offset
decreasing_by
  simp_wf
  simp only [consumeFrame]
  omega

set_option linter.unusedVariables false in
/-- The outer loop of `consumeStereo` (lines 80-90); the empty case of the
`match` is unreachable under the loop guard. -/
def consumeOuter (needed : Nat) (s : ConsumeState α) : ConsumeState α :=
  if s.filled < needed ∧ s.buffers.length ≠ 0 then
    match hb : s.buffers with
    | [] => s
    | buf :: rest =>
      let s1 := consumeInner buf needed s
      if s1.offset ≥ frames buf then
        consumeOuter needed { s1 with buffers := rest, offset := 0 }
      else
        consumeOuter needed s1
  else s
termination_by (needed - s.filled) + s.buffers.length
decreasing_by
  all_goals simp_wf
  all_goals
    have hexit : ∀ t : ConsumeState α,
        ¬ ((consumeInner buf needed t).filled < needed ∧
            (consumeInner buf needed t).offset < frames buf) := by
      intro t
      induction t using consumeInner.induct buf needed with
      | case1 t h ih => rw [consumeInner, if_pos h]; exact ih
      | case2 t h => rw [consumeInner, if_neg h]; exact h
    have hmono : ∀ t : ConsumeState α,
        t.filled ≤ (consumeInner buf needed t).filled ∧
        (consumeInner buf needed t).buffers = t.buffers := by
      intro t
      induction t using consumeInner.induct buf needed with
      | case1 t h ih =>
        rw [consumeInner, if_pos h]
        have h3 : (consumeFrame buf t).filled = t.filled + 1 := rfl
        exact ⟨by have := ih.1; omega, ih.2⟩
      | case2 t h => rw [consumeInner, if_neg h]; exact ⟨le_refl _, rfl⟩
    have h1 := hmono s
    have h2 := hexit s
  · simp only [hb, List.length_cons]
    omega
  · rename_i hlt
    have hlt2 : ¬ (consumeInner buf needed s).offset ≥ frames buf := hlt
    rw [h1.2, hb]
    simp only [List.length_cons]
    omega

/-- The method `consumeStereo(outputL, outputR)`: the queue after the call, the
two output arrays after the call, and the returned count `filled`. -/
def InterleavedQueue.consumeStereo (q : InterleavedQueue α) (outputL outputR : List α) :
    ConsumeState α :=
  consumeOuter outputL.length
    { buffers := q.buffers, offset := q.offset, outputL := outputL, outputR := outputR,
      filled := 0 }

/-- The queue fields left by a `consumeStereo` call. -/
def ConsumeState.queue (s : ConsumeState α) : InterleavedQueue α :=
  { buffers := s.buffers, offset := s.offset }

/-- The frames of an interleaved buffer in order: frame `k` is
`(buf[2k], buf[2k+1])`, for `k < frames buf`. -/
def deinterleave (buf : List α) : List (α × α) :=
  (List.range (frames buf)).map (fun k => (buf.getD (2 * k) 0, buf.getD (2 * k + 1) 0))

/-- The number of frames buffered and not yet consumed. -/
def framesBuffered (q : InterleavedQueue α) : Nat :=
  match q.buffers with
  | [] => 0
  | buf :: rest => (frames buf - q.offset) + (rest.map frames).sum

/-- The number of samples buffered and not yet consumed: all samples held,
less the two per frame already read from the oldest buffer. -/
def samplesBuffered (q : InterleavedQueue α) : Nat :=
  (q.buffers.map List.length).sum - 2 * q.offset

/-- The frames buffered and not yet consumed, oldest first. -/
def pendingFrames (q : InterleavedQueue α) : List (α × α) :=
  match q.buffers with
  | [] => []
  | buf :: rest => (deinterleave buf).drop q.offset ++ (rest.map deinterleave).flatten

/-- The frames a `consumeStereo` call has written: positions `0 .. filled-1` of
the two output arrays, paired. -/
def ConsumeState.written (s : ConsumeState α) : List (α × α) :=
  List.zip (s.outputL.take s.filled) (s.outputR.take s.filled)

/-- A call on an `InterleavedQueue`. -/
inductive QueueOp (α : Type) where
  | push (buf : List α) : QueueOp α
  | consume (outputL outputR : List α) : QueueOp α

/-- A queue together with the history of the calls made on it: the buffers
passed to `push`, the sum of the counts returned by `consumeStereo`, and the
frames written by the successive `consumeStereo` calls, concatenated. -/
structure QueueTrace (α : Type) where
  queue : InterleavedQueue α
  pushed : List (List α)
  returned : Nat
  written : List (α × α)

/-- Perform one call and record it. -/
def QueueTrace.step (t : QueueTrace α) (op : QueueOp α) : QueueTrace α :=
  match op with
  | QueueOp.push buf => { t with queue := t.queue.push buf, pushed := t.pushed ++ [buf] }
  | QueueOp.consume outputL outputR =>
    let s := t.queue.consumeStereo outputL outputR
    { queue := s.queue, pushed := t.pushed, returned := t.returned + s.filled,
      written := t.written ++ s.written }

/-- Run a sequence of calls on a new queue. -/
def runQueue (ops : List (QueueOp α)) : QueueTrace α :=
  ops.foldl QueueTrace.step
    { queue := InterleavedQueue.new, pushed := [], returned := 0, written := [] }

/-- The buffers passed to `push` by a sequence of calls, in order. -/
def pushedBuffers (ops : List (QueueOp α)) : List (List α) :=
  ops.filterMap (fun op => match op with
    | QueueOp.push buf => some buf
    | QueueOp.consume _ _ => none)

/-- The queue states the class maintains: the read offset stays inside the
oldest buffer and is zero when no buffer is pending. -/
def InterleavedQueue.WF (q : InterleavedQueue α) : Prop :=
  (q.buffers = [] → q.offset = 0) ∧
  ∀ buf rest, q.buffers = buf :: rest → q.offset ≤ frames buf

end Queue

/-! ## Filters and the heuristic separator (`InlineSeparator`) -/

/-- The functions of the JavaScript `Math` object that are not field
operations, and the constant `Math.PI`. -/
structure JsMath (α : Type) where
  sqrt : α → α
  pow : α → α → α
  cos : α → α
  pi : α

/-- An instance of `JsMath` over the rationals, used only to evaluate the model
on concrete inputs; every theorem below holds for every instance. -/
def JsMath.sample : JsMath ℚ :=
  { sqrt := fun x => x, pow := fun x _ => x, cos := fun _ => 1, pi := 3 }

section Dsp

variable {α : Type} [LinearOrderedField α]

/-- The class `OnePoleLP`: coefficient `a` and state `z`. -/
structure OnePoleLP (α : Type) where
  a : α
  z : α

/-- The constructor `new OnePoleLP(a)`. -/
def OnePoleLP.new (a : α) : OnePoleLP α := { a := a, z := 0 }

/-- The method `step(x) { this.z += this.a * (x - this.z); return this.z; }`:
the filter after the call and the returned value. -/
def OnePoleLP.step (f : OnePoleLP α) (x : α) : OnePoleLP α × α :=
  let z := f.z + f.a * (x - f.z)
  ({ f with z := z }, z)

/-- The class `OnePoleHP`, a wrapper around a low-pass. -/
structure OnePoleHP (α : Type) where
  lp : OnePoleLP α

/-- The constructor `new OnePoleHP(a)`. -/
def OnePoleHP.new (a : α) : OnePoleHP α := { lp := OnePoleLP.new a }

/-- The method `step(x) { return x - this.lp.step(x); }`. -/
def OnePoleHP.step (f : OnePoleHP α) (x : α) : OnePoleHP α × α :=
  let r := f.lp.step x
  ({ lp := r.1 }, x - r.2)

/-- The class `Envelope`: attack `a`, release `r`, state `y`. -/
structure Envelope (α : Type) where
  a : α
  r : α
  y : α

/-- The constructor `new Envelope(a, r)`. -/
def Envelope.new (a r : α) : Envelope α := { a := a, r := r, y := 0 }

/-- The method `step(x)`: `c = x > y ? a : r; y += c * (x - y); return y`. -/
def Envelope.step (e : Envelope α) (x : α) : Envelope α × α :=
  let c := if x > e.y then e.a else e.r
  let y := e.y + c * (x - e.y)
  ({ e with y := y }, y)

/-- The fields of `InlineSeparator`. -/
structure InlineSeparator (α : Type) where
  vHp : OnePoleHP α
  vLp : OnePoleLP α
  bgHpL : OnePoleHP α
  bgHpR : OnePoleHP α
  bgLpL : OnePoleLP α
  bgLpR : OnePoleLP α
  vadSmooth : α
  vadEnv : Envelope α
  lastW : α
  presHP : OnePoleHP α

/-- The constructor of `InlineSeparator` (lines 9-18). -/
def InlineSeparator.new : InlineSeparator α :=
  { vHp := OnePoleHP.new 0.005
    vLp := OnePoleLP.new 0.15
    bgHpL := OnePoleHP.new 0.02
    bgHpR := OnePoleHP.new 0.02
    bgLpL := OnePoleLP.new 0.10
    bgLpR := OnePoleLP.new 0.10
    vadSmooth := 0
    vadEnv := Envelope.new 0.25 0.03
    lastW := 0
    presHP := OnePoleHP.new 0.02 }

/-- The method `_presence(v) { return v + 0.15 * this.presHP.step(v); }`. -/
def InlineSeparator.presence (s : InlineSeparator α) (v : α) : InlineSeparator α × α :=
  let r := s.presHP.step v
  ({ s with presHP := r.1 }, v + 0.15 * r.2)

/-- The method `_clamp(x) { return x < -1 ? -1 : (x > 1 ? 1 : x); }`. -/
def clamp (x : α) : α := if x < -1 then -1 else if x > 1 then 1 else x

/-- The control record as the render path reads it.  The three gains are
numbers (the constructor sets them and the CONTROL handler stores `norm(..)`,
a number, for each); the mute flags are read for truthiness; `musicCut` and
`sfxCut` are only compared with `0` and used in arithmetic (an absent value
behaves as `0`); the four tuning fields may be absent (`none`), in which case
`??` supplies the default. -/
structure ControlState (α : Type) where
  masterGain : α
  voiceGain : α
  bgGain : α
  muteVoice : Bool
  muteBg : Bool
  musicCut : α
  sfxCut : α
  aiMode : String
  duckDepth : Option α
  duckPower : Option α
  presenceDb : Option α
  leakKill : Option α

/-- The initial `this.ctrl` of `HybridProcessor` (lines 98-103). -/
def ControlState.default : ControlState α :=
  { masterGain := 1, voiceGain := 1, bgGain := 1, muteVoice := false, muteBg := false,
    musicCut := 0, sfxCut := 0, aiMode := "proxy",
    duckDepth := none, duckPower := none, presenceDb := none, leakKill := none }

/-- The channel arrays of one `process` call, which `processBlock` works on in
place: the input channels `input[0]`, `input[1]` and the output channels
`output[0]`, `output[1]`.  `Ri = none` is a mono input: `input[1]` is
`undefined` and `R = input[1] || input[0]` is the array `L` itself.  The
output is stereo (`outputChannelCount: [2]`), so `Lo` and `Ro` are distinct
arrays. -/
structure Bufs (α : Type) where
  Li : List α
  Ri : Option (List α)
  Lo : List α
  Ro : List α

/-- The array `R = input[1] || input[0]` as a value. -/
def Bufs.R (b : Bufs α) : List α := b.Ri.getD b.Li

/-- The two stores `Li[i] = bL; Ri[i] = bR;` in this order; on a mono input
both go to the one input array. -/
def Bufs.setIn (b : Bufs α) (i : Nat) (bL bR : α) : Bufs α :=
  match b.Ri with
  | some r => { b with Li := b.Li.set i bL, Ri := some (r.set i bR) }
  | none => { b with Li := (b.Li.set i bL).set i bR }

/-- The arrays of one render quantum have the same length. -/
def Bufs.Quantum (b : Bufs α) : Prop :=
  b.Lo.length = b.Li.length ∧ b.Ro.length = b.Li.length ∧ b.R.length = b.Li.length

/-- The state of the first loop of `processBlock` (lines 30-44). -/
structure Pass1 (α : Type) where
  sep : InlineSeparator α
  eSum : α
  zc : Nat
  prev : α
  bufs : Bufs α

/-- Tonal trimming of one background frame (lines 40-41): the filters after
the call and the trimmed `(bL, bR)`. -/
def tonalTrim (ctrl : ControlState α) (sep : InlineSeparator α) (bL bR : α) :
    InlineSeparator α × α × α :=
  let m :=
    if ctrl.musicCut > 0 then
      let hpL := sep.bgHpL.step bL
      let hpR := sep.bgHpR.step bR
      ({ sep with bgHpL := hpL.1, bgHpR := hpR.1 },
        (1 - ctrl.musicCut) * bL + ctrl.musicCut * hpL.2,
        (1 - ctrl.musicCut) * bR + ctrl.musicCut * hpR.2)
    else (sep, bL, bR)
  if ctrl.sfxCut > 0 then
    let lpL := m.1.bgLpL.step m.2.1
    let lpR := m.1.bgLpR.step m.2.2
    ({ m.1 with bgLpL := lpL.1, bgLpR := lpR.1 },
      (1 - ctrl.sfxCut) * m.2.1 + ctrl.sfxCut * lpL.2,
      (1 - ctrl.sfxCut) * m.2.2 + ctrl.sfxCut * lpR.2)
  else m

/-- One iteration of the first loop of `processBlock` (lines 32-43). -/
def pass1Step (ctrl : ControlState α) (s : Pass1 α) (i : Nat) : Pass1 α :=
  let l := s.bufs.Li.getD i 0
  let r := s.bufs.R.getD i 0
  let mid := 0.5 * (l + r)
  let hp := s.sep.vHp.step mid
  let lp := s.sep.vLp.step hp.2
  let v := lp.2
  let sep1 := { s.sep with vHp := hp.1, vLp := lp.1 }
  let zc := if (v ≥ 0 ∧ s.prev < 0) ∨ (v < 0 ∧ s.prev ≥ 0) then s.zc + 1 else s.zc
  let t := tonalTrim ctrl sep1 (l - v) (r - v)
  { sep := t.1
    eSum := s.eSum + v * v
    zc := zc
    prev := v
    bufs :=
      ({ s.bufs with Lo := s.bufs.Lo.set i v, Ro := s.bufs.Ro.set i v } : Bufs α).setIn i
        t.2.1 t.2.2 }

/-- The value `vGain` of line 55. -/
def vGainOf (ctrl : ControlState α) : α := if ctrl.muteVoice then 0 else ctrl.voiceGain

/-- The value `bGain` of line 56. -/
def bGainOf (ctrl : ControlState α) : α := if ctrl.muteBg then 0 else ctrl.bgGain

/-- The value `duckAtten` of line 58. -/
def duckAtten (M : JsMath α) (ctrl : ControlState α) (wSmooth : α) : α :=
  ctrl.duckDepth.getD 0.75 * M.pow wSmooth (ctrl.duckPower.getD 1.6)

/-- The value `effBg` of line 59. -/
def effBgOf (M : JsMath α) (ctrl : ControlState α) (wSmooth : α) : α :=
  bGainOf ctrl * (1 - duckAtten M ctrl wSmooth)

/-- The output sample of lines 66-67:
`_clamp(vGain * (wSmooth * v) + effBg * b)`. -/
def proxyMix (vGain wSmooth effBg v b : α) : α := clamp (vGain * (wSmooth * v) + effBg * b)

/-- The state of the second loop of `processBlock` (lines 61-69). -/
structure Pass2 (α : Type) where
  sep : InlineSeparator α
  bufs : Bufs α

/-- One iteration of the second loop of `processBlock` (lines 62-68). -/
def pass2Step (M : JsMath α) (ctrl : ControlState α) (wSmooth : α) (s : Pass2 α) (i : Nat) :
    Pass2 α :=
  let vGain := vGainOf ctrl
  let hardMute : Bool := decide (vGain = 0) || ctrl.muteVoice
  let presenceGain := M.pow 10 (ctrl.presenceDb.getD 2.5 / 20)
  let vL0 := s.bufs.Lo.getD i 0
  let vR0 := s.bufs.Ro.getD i 0
  let boosted : InlineSeparator α × α × α :=
    if ctrl.muteVoice = false ∧ vGain > 0 then
      let pL := s.sep.presence vL0
      let pR := pL.1.presence vR0
      (pR.1, pL.2 * presenceGain, pR.2 * presenceGain)
    else (s.sep, vL0, vR0)
  let bL0 := s.bufs.Li.getD i 0
  let bR0 := s.bufs.R.getD i 0
  let bL := if hardMute then bL0 - ctrl.leakKill.getD 0.85 * s.bufs.Lo.getD i 0 else bL0
  let bR := if hardMute then bR0 - ctrl.leakKill.getD 0.85 * s.bufs.Ro.getD i 0 else bR0
  let oL := proxyMix vGain wSmooth (effBgOf M ctrl wSmooth) boosted.2.1 bL
  let oR := proxyMix vGain wSmooth (effBgOf M ctrl wSmooth) boosted.2.2 bR
  { sep := boosted.1
    bufs := { s.bufs with Lo := s.bufs.Lo.set i oL, Ro := s.bufs.Ro.set i oR } }

/-- The voice-activity update between the two loops (lines 46-53): the
separator after it (new `vadSmooth`, `vadEnv`, `lastW`) and `wSmooth`. -/
def vadUpdate (M : JsMath α) (sep : InlineSeparator α) (eSum : α) (zc N : Nat) :
    InlineSeparator α × α :=
  let rms := M.sqrt (eSum / max 1 (N : α))
  let vadSmooth := 0.9 * sep.vadSmooth + 0.1 * rms
  let thr := max 0.015 (0.45 * vadSmooth)
  let zRate := (zc : α) / (N : α)
  let zWeight := 1 - min 1 (|zRate - 0.08| / 0.1)
  let w := if rms > thr then max 0 (min 1 zWeight) else 0
  let env := sep.vadEnv.step (0.85 * (0.85 * sep.lastW + 0.15 * w))
  ({ sep with vadSmooth := vadSmooth, vadEnv := env.1, lastW := env.2 }, env.2)

/-- The method `InlineSeparator.processBlock(Li, Ri, Lo, Ro, ctrl)`: the
separator and the channel arrays after the call. -/
def InlineSeparator.processBlock (M : JsMath α) (sep : InlineSeparator α) (b : Bufs α)
    (ctrl : ControlState α) : Pass2 α :=
  let N := b.Li.length
  let p1 := (List.range N).foldl (pass1Step ctrl)
    { sep := sep, eSum := 0, zc := 0, prev := 0, bufs := b }
  let vad := vadUpdate M p1.sep p1.eSum p1.zc N
  (List.range N).foldl (pass2Step M ctrl vad.2) { sep := vad.1, bufs := p1.bufs }

/-! ## The render entry point (`HybridProcessor.process`) -/

/-- The fields of `HybridProcessor` the render path uses.  `workerPort` says
whether a worker port is attached; `tmpBg` is the pair `(tmpBgL, tmpBgR)`, or
`none` while both are `null`. -/
structure HybridProcessor (α : Type) where
  ctrl : ControlState α
  inline : InlineSeparator α
  workerPort : Bool
  voiceQueue : InterleavedQueue α
  bgQueue : InterleavedQueue α
  tmpBg : Option (List α × List α)

/-- The constructor of `HybridProcessor` (lines 98-108). -/
def HybridProcessor.new : HybridProcessor α :=
  { ctrl := ControlState.default, inline := InlineSeparator.new, workerPort := false,
    voiceQueue := InterleavedQueue.new, bgQueue := InterleavedQueue.new, tmpBg := none }

/-- The arrays `(tmpBgL, tmpBgR)` after line 149: reallocated (zero-filled)
when absent or when `tmpBgL.length !== N`, else kept with their contents. -/
def HybridProcessor.tmpArrays (p : HybridProcessor α) (N : Nat) : List α × List α :=
  match p.tmpBg with
  | some t => if t.1.length ≠ N then (List.replicate N 0, List.replicate N 0) else t
  | none => (List.replicate N 0, List.replicate N 0)

/-- The buffer `inter` of lines 145-146: `inter[2i] = L[i]`, `inter[2i+1] = R[i]`. -/
def interleave (L R : List α) : List α :=
  (List.range L.length).flatMap (fun i => [L.getD i 0, R.getD i 0])

/-- The NEURAL mix of one sample (lines 157-158). -/
def neuralMix (ctrl : ControlState α) (v b : α) : α :=
  (if ctrl.muteVoice then 0 else ctrl.voiceGain * v) +
  (if ctrl.muteBg then 0 else ctrl.bgGain * b)

/-- One iteration of the NEURAL mix loop (lines 155-159) on `(Lo, Ro)`. -/
def neuralMixStep (ctrl : ControlState α) (tmpBgL tmpBgR : List α) (o : List α × List α)
    (i : Nat) : List α × List α :=
  let vL := o.1.getD i 0
  let vR := o.2.getD i 0
  let bL := tmpBgL.getD i 0
  let bR := tmpBgR.getD i 0
  (o.1.set i (neuralMix ctrl vL bL), o.2.set i (neuralMix ctrl vR bR))

/-- What one `process` call leaves: the processor, the channel arrays, and the
PROCESS message posted to the worker, if any. -/
structure ProcessResult (α : Type) where
  proc : HybridProcessor α
  bufs : Bufs α
  posted : Option (List α)

/-- The method `HybridProcessor.process` (lines 133-171) past the guard of line
135, with `L = b.Li`, `R = b.R`, `Lo = b.Lo`, `Ro = b.Ro`. -/
def HybridProcessor.process (M : JsMath α) (p : HybridProcessor α) (b : Bufs α) :
    ProcessResult α :=
  let N := b.Li.length
  if p.workerPort = true ∧ p.ctrl.aiMode = "onnx" then
    let inter := interleave b.Li b.R
    let tmp := p.tmpArrays N
    let cv := p.voiceQueue.consumeStereo b.Lo b.Ro
    let cb := p.bgQueue.consumeStereo tmp.1 tmp.2
    let p1 : HybridProcessor α :=
      { p with voiceQueue := cv.queue, bgQueue := cb.queue, tmpBg := some (cb.outputL, cb.outputR) }
    if cv.filled = N ∧ cb.filled = N then
      let o := (List.range N).foldl (neuralMixStep p.ctrl cb.outputL cb.outputR)
        (cv.outputL, cv.outputR)
      { proc := p1, bufs := { b with Lo := o.1, Ro := o.2 }, posted := some inter }
    else
      let r := p.inline.processBlock M
        { b with Lo := cv.outputL.map (fun _ => 0), Ro := cv.outputR.map (fun _ => 0) } p.ctrl
      { proc := { p1 with inline := r.sep }, bufs := r.bufs, posted := some inter }
  else
    let r := p.inline.processBlock M b p.ctrl
    { proc := { p with inline := r.sep }, bufs := r.bufs, posted := none }

end Dsp

/-! ## The overlap-add worker (`sep_worker.js`) -/

/-- The constant `BLOCK`, the model window. -/
def BLOCK : Nat := 4096

/-- The constant `HOP = BLOCK >> 1`. -/
def HOP : Nat := BLOCK >>> 1

section SepWorker

variable {α : Type} [LinearOrderedField α] {σ : Type}

/-- The window table: `WIN[i] = 0.5 * (1 - Math.cos(2 * Math.PI * i / (BLOCK - 1)))`
(line 19). -/
def WIN (M : JsMath α) (i : Nat) : α :=
  0.5 * (1 - M.cos (2 * M.pi * (i : α) / ((BLOCK : α) - 1)))

/-- The four overlap-add accumulators. -/
structure OlaState (α : Type) where
  olaVoiceL : List α
  olaVoiceR : List α
  olaBgL : List α
  olaBgR : List α

/-- The array `L` of lines 59-64: `L[i] = inBuf[2 * i] * WIN[i]`. -/
def windowL (M : JsMath α) (inBuf : List α) : List α :=
  (List.range BLOCK).map (fun i => inBuf.getD (2 * i) 0 * WIN M i)

/-- The array `R` of lines 59-64: `R[i] = inBuf[2 * i + 1] * WIN[i]`. -/
def windowR (M : JsMath α) (inBuf : List α) : List α :=
  (List.range BLOCK).map (fun i => inBuf.getD (2 * i + 1) 0 * WIN M i)

/-- The function `passthroughStereo(L, R)` (lines 163-170). -/
def passthroughStereo (L R : List α) : List α :=
  (List.range BLOCK).flatMap (fun i => [L.getD i 0, R.getD i 0])

/-- The object a successful `session.run` resolves to: output names with the
`data` of their tensors, in key order. -/
abbrev Outputs (α : Type) := List (String × List α)

/-- An inference session: `run st name data` is one call
`session.run({ [name]: tensor })` in session state `st`; it gives the outputs,
or `none` when the promise rejects, and the next session state. -/
structure Session (α σ : Type) where
  run : σ → String → List α → Option (Outputs α) × σ

/-- The cached tensor names `ioNames = { in, out }`; `out` is
`Object.keys(..)[0]`, which is `undefined` (`none`) for an empty object. -/
structure IoNames where
  inName : String
  outName : Option String
  deriving DecidableEq

/-- The expression `Object.keys(outputs)[0]`. -/
def firstKey (outputs : Outputs α) : Option String := outputs.head?.map Prod.fst

/-- The expression `outputs[ioNames.out]?.data`; an `undefined` key reads the
property named `"undefined"`. -/
def outputData (outputs : Outputs α) (out : Option String) : Option (List α) :=
  outputs.lookup (out.getD "undefined")

/-- What a call of `runModelStereo` leaves: the session state, `ioNames`, and
the returned array, or `none` when the call throws. -/
structure RunModel (α σ : Type) where
  state : σ
  ioNames : Option IoNames
  out : Option (List α)

/-- Lines 192-200 of `runModelStereo`: read the output tensor and apply the
synthesis window, or pass the input through. -/
def runModelFinish (M : JsMath α) (st : σ) (names : IoNames) (outputs : Outputs α)
    (L R : List α) : RunModel α σ :=
  match outputData outputs names.outName with
  | none => { state := st, ioNames := some names, out := some (passthroughStereo L R) }
  | some y =>
    if y.length < 2 * BLOCK then
      { state := st, ioNames := some names, out := some (passthroughStereo L R) }
    else
      { state := st, ioNames := some names,
        out := some ((List.range BLOCK).flatMap
          (fun i => [y.getD i 0 * WIN M i, y.getD (i + BLOCK) 0 * WIN M i])) }

/-- Lines 183-200 of `runModelStereo`, with `ioNames` set. -/
def runModelCached (M : JsMath α) (S : Session α σ) (st : σ) (names : IoNames)
    (L R : List α) : RunModel α σ :=
  match S.run st names.inName (L ++ R) with
  | (some outputs, st1) => runModelFinish M st1 names outputs L R
  | (none, st1) =>
    match S.run st1 "input_1" (L ++ R) with
    | (none, st2) => { state := st2, ioNames := some names, out := some (passthroughStereo L R) }
    | (some outputs, st2) =>
      runModelFinish M st2 { inName := "input_1", outName := firstKey outputs } outputs L R

/-- The function `runModelStereo(L, R)` (lines 172-201); `inputData` is `L`
followed by `R`. -/
def runModelStereo (M : JsMath α) (S : Session α σ) (st : σ) (ioNames : Option IoNames)
    (L R : List α) : RunModel α σ :=
  match ioNames with
  | some names => runModelCached M S st names L R
  | none =>
    match S.run st "input" (L ++ R) with
    | (none, st1) => { state := st1, ioNames := none, out := none }
    | (some probe, st1) =>
      runModelCached M S st1 { inName := "input", outName := firstKey probe } L R

/-- One iteration of the accumulation loop (lines 69-76). -/
def accumulateStep (L R voice : List α) (o : OlaState α) (i : Nat) : OlaState α :=
  let vL := voice.getD (2 * i) 0
  let vR := voice.getD (2 * i + 1) 0
  let bL := L.getD i 0 - vL
  let bR := R.getD i 0 - vR
  { olaVoiceL := o.olaVoiceL.set i (o.olaVoiceL.getD i 0 + vL)
    olaVoiceR := o.olaVoiceR.set i (o.olaVoiceR.getD i 0 + vR)
    olaBgL := o.olaBgL.set i (o.olaBgL.getD i 0 + bL)
    olaBgR := o.olaBgR.set i (o.olaBgR.getD i 0 + bR) }

/-- The accumulation loop (lines 68-77). -/
def accumulate (L R voice : List α) (o : OlaState α) : OlaState α :=
  (List.range BLOCK).foldl (accumulateStep L R voice) o

/-- Lines 59-77 of the PROCESS loop for one window: analysis window, model
call, accumulation.  The accumulators are `none` when `runModelStereo`
throws. -/
def processWindow (M : JsMath α) (S : Session α σ) (st : σ) (ioNames : Option IoNames)
    (inBuf : List α) (o : OlaState α) : RunModel α σ × Option (OlaState α) :=
  let L := windowL M inBuf
  let R := windowR M inBuf
  let r := runModelStereo M S st ioNames L R
  (r, r.out.map (fun voice => accumulate L R voice o))

end SepWorker

/-! ## Control messages at the worklet, the worker, the offscreen page and the popup -/

section ControlPlane

variable {α : Type} [LinearOrderedField α] {σ : Type}

/-- Truthiness of a JavaScript value (`!!v`). -/
def JsVal.truthy (v : JsVal α) : Bool :=
  match v with
  | JsVal.undefined => false
  | JsVal.null => false
  | JsVal.bool b => b
  | JsVal.num x => decide (x ≠ 0)
  | JsVal.str s => decide (s ≠ "")

/-- A numeric property as arithmetic reads it; `d` stands for a property that
is absent.  A property holding a value that is not a number is outside the
numeric model and is read as `d` too. -/
def Obj.numOr (o : Obj α) (k : String) (d : α) : α :=
  match o k with
  | some (JsVal.num x) => x
  | _ => d

/-- A numeric property under `??`: `none` when the property is absent,
`undefined` or `null` (a value that is not a number is outside the numeric
model and is read as `none` too). -/
def Obj.numOpt (o : Obj α) (k : String) : Option α :=
  match o k with
  | some (JsVal.num x) => some x
  | _ => none

/-- A property read for truthiness. -/
def Obj.truthy (o : Obj α) (k : String) : Bool :=
  match o k with
  | some v => v.truthy
  | none => false

/-- A property compared with a string by `===`: its string value, or `""`
(equal to no mode name) when it is not a string. -/
def Obj.strOr (o : Obj α) (k : String) : String :=
  match o k with
  | some (JsVal.str s) => s
  | _ => ""

/-- The object `this.ctrl` as `process` and `processBlock` read it. -/
def ControlState.ofObj (o : Obj α) : ControlState α :=
  { masterGain := o.numOr "masterGain" 1
    voiceGain := o.numOr "voiceGain" 1
    bgGain := o.numOr "bgGain" 1
    muteVoice := o.truthy "muteVoice"
    muteBg := o.truthy "muteBg"
    musicCut := o.numOr "musicCut" 0
    sfxCut := o.numOr "sfxCut" 0
    aiMode := o.strOr "aiMode"
    duckDepth := o.numOpt "duckDepth"
    duckPower := o.numOpt "duckPower"
    presenceDb := o.numOpt "presenceDb"
    leakKill := o.numOpt "leakKill" }

/-- The object literal assigned to `this.ctrl` by the constructor of
`HybridProcessor` (lines 98-103). -/
def initialCtrl : Obj α :=
  Obj.ofList
    [("masterGain", JsVal.num 1), ("voiceGain", JsVal.num 1), ("bgGain", JsVal.num 1),
     ("muteVoice", JsVal.bool false), ("muteBg", JsVal.bool false),
     ("musicCut", JsVal.num 0), ("sfxCut", JsVal.num 0), ("aiMode", JsVal.str "proxy")]

/-- The worklet: the object `this.ctrl` and the rest of the processor, whose
typed field `proc.ctrl` is the reading of `this.ctrl`. -/
structure Worklet (α : Type) where
  ctrlObj : Obj α
  proc : HybridProcessor α

/-- The worklet after construction. -/
def Worklet.new : Worklet α := { ctrlObj := initialCtrl, proc := HybridProcessor.new }

/-- The CONTROL branch of `this.port.onmessage` (lines 112-118): the worklet
after the message and the CONTROL message forwarded to the worker, if any.
A missing `control` takes no branch. -/
def Worklet.onControl (w : Worklet α) (control : Option (Obj α)) :
    Worklet α × Option (Obj α) :=
  match control with
  | none => (w, none)
  | some c =>
    let o := AudioEngine.onControl w.ctrlObj (some c)
    ({ ctrlObj := o, proc := { w.proc with ctrl := ControlState.ofObj o } },
      if w.proc.workerPort then some o else none)

/-- The ATTACH_WORKER branch (lines 119-129): the port is stored and the
current control record is posted to the worker. -/
def Worklet.onAttachWorker (w : Worklet α) : Worklet α × Obj α :=
  ({ w with proc := { w.proc with workerPort := true } }, w.ctrlObj)

/-- The handler `this.workerPort.onmessage` for an OUT message (lines 121-127):
each stem present in the message is pushed on its queue. -/
def HybridProcessor.onWorkerOut (p : HybridProcessor α) (voice bg : Option (List α)) :
    HybridProcessor α :=
  let p1 := match voice with
    | some v => { p with voiceQueue := p.voiceQueue.push v }
    | none => p
  match bg with
  | some g => { p1 with bgQueue := p1.bgQueue.push g }
  | none => p1

/-- The variable `ctrl` of `sep_worker.js` (lines 9-14). -/
structure WorkerCtrl (α : Type) where
  voiceGain : α
  bgGain : α
  muteVoice : Bool
  muteBg : Bool

/-- The CONTROL branch of the worker's `onmessage` (lines 36-43) on `ctrl`. -/
def WorkerCtrl.onControl (c : WorkerCtrl α) (control : Obj α) : WorkerCtrl α :=
  { voiceGain := match control "voiceGain" with
      | some v => sepWorkerNorm v
      | none => c.voiceGain
    bgGain := match control "bgGain" with
      | some v => sepWorkerNorm v
      | none => c.bgGain
    muteVoice := match control "muteVoice" with
      | some v => v.truthy
      | none => c.muteVoice
    muteBg := match control "muteBg" with
      | some v => v.truthy
      | none => c.muteBg }

/-- The CONTROL_UPDATE branch of the offscreen page (`offscreen.js` lines
32-40): the merged record `c = { ...(g.control || {}), ...(msg.control || {}) }`
stored in `g.control`, and `g.postGain.gain.value` after the message, set to
`Math.max(0, Math.min(2, c.masterGain))` when `c.masterGain` is a number. -/
def offscreenControlUpdate (gControl msgControl : Option (Obj α)) (postGain : α) :
    Obj α × α :=
  let c := Obj.spread (gControl.getD Obj.empty) (msgControl.getD Obj.empty)
  (c, match c "masterGain" with
    | some (JsVal.num m) => max 0 (min 2 m)
    | _ => postGain)

/-- The values `music` and `sfx` of `collectControl` (`popup.js` lines 56-57)
for a slider reading `x`: `Math.max(0, Math.min(100, x)) / 100`. -/
def popupCut (x : α) : α := max 0 (min 100 x) / 100

/-- The values `master`, `voice` and `bg` of `collectControl` (`popup.js` lines
53-55) for a slider reading `x`: `Math.max(0, Math.min(200, x)) / 100`. -/
def popupGain (x : α) : α := max 0 (min 200 x) / 100

end ControlPlane

/-! ## The worker's message handler and the pipeline -/

section WorkerHandler

variable {α : Type} [LinearOrderedField α] {σ : Type}

/-- The typed-array method `a.copyWithin(0, start)`: the elements from `start`
on move to the front, the last `start` positions keep their values. -/
def copyWithin0 (l : List α) (start : Nat) : List α :=
  l.drop start ++ l.drop (l.length - start)

/-- The typed-array method `a.fill(0, start)`. -/
def fillFrom (l : List α) (start : Nat) : List α :=
  l.take start ++ List.replicate (l.length - start) 0

/-- The function `slideOla` (lines 148-153). -/
def slideOla (o : OlaState α) : OlaState α :=
  { olaVoiceL := fillFrom (copyWithin0 o.olaVoiceL HOP) (BLOCK - HOP)
    olaVoiceR := fillFrom (copyWithin0 o.olaVoiceR HOP) (BLOCK - HOP)
    olaBgL := fillFrom (copyWithin0 o.olaBgL HOP) (BLOCK - HOP)
    olaBgR := fillFrom (copyWithin0 o.olaBgR HOP) (BLOCK - HOP) }

/-- The function `dropInputHop` (lines 155-161) on `inBuf`. -/
def dropInputHop (inBuf : List α) : List α := inBuf.drop (2 * HOP)

/-- A hop fragment (lines 79-86): `hop[2i] = olaL[i]`, `hop[2i+1] = olaR[i]`
for `i < HOP`. -/
def hopFragment (olaL olaR : List α) : List α :=
  (List.range HOP).flatMap (fun i => [olaL.getD i 0, olaR.getD i 0])

/-- The accumulators as allocated (lines 22-25): four zero arrays of length
`BLOCK`. -/
def OlaState.zero : OlaState α :=
  { olaVoiceL := List.replicate BLOCK 0, olaVoiceR := List.replicate BLOCK 0,
    olaBgL := List.replicate BLOCK 0, olaBgR := List.replicate BLOCK 0 }

/-- The module state of `sep_worker.js`: `session` (`none` is `null`), `ready`,
`ioNames`, `ctrl`, `inBuf` and the accumulators. -/
structure SepWorker (α σ : Type) where
  session : Option σ
  ready : Bool
  ioNames : Option IoNames
  ctrl : WorkerCtrl α
  inBuf : List α
  ola : OlaState α

/-- The module state after the script is evaluated (lines 4-26). -/
def SepWorker.new : SepWorker α σ :=
  { session := none, ready := false, ioNames := none,
    ctrl := { voiceGain := 1, bgGain := 1, muteVoice := false, muteBg := false },
    inBuf := [], ola := OlaState.zero }

/-- The CONTROL branch of the worker's `onmessage` (lines 36-43); a missing
`control` takes no branch. -/
def SepWorker.onControl (w : SepWorker α σ) (control : Option (Obj α)) : SepWorker α σ :=
  match control with
  | none => w
  | some c => { w with ctrl := w.ctrl.onControl c }

/-- The state of the `while` loop of the PROCESS branch (lines 55-92): the
session state, `ioNames`, `inBuf`, the accumulators, the fragments collected
so far, and whether `runModelStereo` has thrown, which ends the handler. -/
structure WindowLoop (α σ : Type) where
  state : σ
  ioNames : Option IoNames
  inBuf : List α
  ola : OlaState α
  outVoice : List (List α)
  outBg : List (List α)
  threw : Bool

/-- The rest of one loop iteration after the accumulation (lines 79-91): the
hop fragments are collected, the accumulators slide, the input drops a hop. -/
def WindowLoop.next (s : WindowLoop α σ) (r : RunModel α σ) (acc : OlaState α) :
    WindowLoop α σ :=
  { state := r.state
    ioNames := r.ioNames
    inBuf := dropInputHop s.inBuf
    ola := slideOla acc
    outVoice := s.outVoice ++ [hopFragment acc.olaVoiceL acc.olaVoiceR]
    outBg := s.outBg ++ [hopFragment acc.olaBgL acc.olaBgR]
    threw := false }

/-- The loop `while (inBuf.length >= 2 * BLOCK)` (lines 58-92), when no other
handler runs while it waits for the model (see `AsyncWorker` otherwise). -/
def windowLoop (M : JsMath α) (S : Session α σ) (s : WindowLoop α σ) : WindowLoop α σ :=
  if 2 * BLOCK ≤ s.inBuf.length then
    match processWindow M S s.state s.ioNames s.inBuf s.ola with
    | (r, none) => { s with state := r.state, ioNames := r.ioNames, threw := true }
    | (r, some acc) => windowLoop M S (s.next r acc)
  else s
termination_by s.inBuf.length
decreasing_by
  simp_wf
  have h1 : HOP = 2048 := by decide
  have h2 : BLOCK = 4096 := rfl
  simp only [WindowLoop.next, dropInputHop, List.length_drop]
  omega

/-- The PROCESS branch of the worker's `onmessage` (lines 45-107), when no
other handler runs while it waits for the model: the module state after the
handler and the OUT message `(voice, bg)` it posts, if any. -/
def SepWorker.onProcess (M : JsMath α) (S : Session α σ) (w : SepWorker α σ)
    (chunk : List α) : SepWorker α σ × Option (List α × List α) :=
  match w.session with
  | none => (w, none)
  | some st =>
    if w.ready = false then (w, none)
    else
      let l := windowLoop M S
        { state := st, ioNames := w.ioNames, inBuf := w.inBuf ++ chunk, ola := w.ola,
          outVoice := [], outBg := [], threw := false }
      let w1 : SepWorker α σ :=
        { w with session := some l.state, ioNames := l.ioNames, inBuf := l.inBuf, ola := l.ola }
      if l.threw then (w1, none)
      else if l.outVoice.length ≠ 0 then (w1, some (l.outVoice.flatten, l.outBg.flatten))
      else (w1, none)

/-- The outcome of `loadModel` (lines 110-146) on the module state: `created`
is the session that `InferenceSession.create` delivered, `none` when the load
failed. -/
def SepWorker.onLoad (w : SepWorker α σ) (created : Option σ) : SepWorker α σ :=
  match created with
  | some st => { w with session := some st, ready := true }
  | none => { w with ready := false }

/-- A history of PROCESS messages, each handled to its end before the next
is taken up: the module state and the OUT messages posted, oldest first. -/
def SepWorker.runChunks (M : JsMath α) (S : Session α σ) (w : SepWorker α σ)
    (chunks : List (List α)) : SepWorker α σ × List (List α × List α) :=
  chunks.foldl
    (fun acc chunk =>
      let r := acc.1.onProcess M S chunk
      (r.1, acc.2 ++ r.2.toList))
    (w, [])

/-- The worklet and the worker of one pipeline. -/
structure Pipeline (α σ : Type) where
  worklet : Worklet α
  worker : SepWorker α σ

/-- What happens to a pipeline: a CONTROL message reaches the worklet, or a
quantum is rendered. -/
inductive PipelineEvent (α : Type) where
  | control (patch : Option (Obj α)) : PipelineEvent α
  | quantum (b : Bufs α) : PipelineEvent α

/-- One event, with every message it causes delivered at once and handled to
completion: the pipeline after it and the channel arrays a quantum leaves. -/
def Pipeline.step (M : JsMath α) (S : Session α σ) (sys : Pipeline α σ)
    (ev : PipelineEvent α) : Pipeline α σ × Option (Bufs α) :=
  match ev with
  | PipelineEvent.control patch =>
    let r := sys.worklet.onControl patch
    ({ worklet := r.1,
       worker := match r.2 with
         | some c => sys.worker.onControl (some c)
         | none => sys.worker }, none)
  | PipelineEvent.quantum b =>
    let r := sys.worklet.proc.process M b
    match r.posted with
    | none => ({ sys with worklet := { sys.worklet with proc := r.proc } }, some r.bufs)
    | some inter =>
      let wk := sys.worker.onProcess M S inter
      let proc := match wk.2 with
        | some out => r.proc.onWorkerOut (some out.1) (some out.2)
        | none => r.proc
      ({ worklet := { sys.worklet with proc := proc }, worker := wk.1 }, some r.bufs)

/-- A history of events. -/
def Pipeline.run (M : JsMath α) (S : Session α σ) (sys : Pipeline α σ)
    (evs : List (PipelineEvent α)) : Pipeline α σ :=
  evs.foldl (fun s ev => (s.step M S ev).1) sys

end WorkerHandler

/-! ## The terms of the PROXY output sample -/

section MixTerms

variable {α : Type} [LinearOrderedField α]

/-- The pair `(vL, vR)` that lines 66-67 multiply: `Lo[i]`, `Ro[i]` after the
presence boost of line 63, in loop state `s`. -/
def pass2Voice (M : JsMath α) (ctrl : ControlState α) (s : Pass2 α) (i : Nat) : α × α :=
  let presenceGain := M.pow 10 (ctrl.presenceDb.getD 2.5 / 20)
  let vL0 := s.bufs.Lo.getD i 0
  let vR0 := s.bufs.Ro.getD i 0
  if ctrl.muteVoice = false ∧ vGainOf ctrl > 0 then
    let pL := s.sep.presence vL0
    let pR := pL.1.presence vR0
    (pL.2 * presenceGain, pR.2 * presenceGain)
  else (vL0, vR0)

/-- The pair `(bL, bR)` that lines 66-67 multiply: `Li[i]`, `Ri[i]` after the
leak removal of line 65, in loop state `s`. -/
def pass2Bg (ctrl : ControlState α) (s : Pass2 α) (i : Nat) : α × α :=
  let hardMute : Bool := decide (vGainOf ctrl = 0) || ctrl.muteVoice
  let bL0 := s.bufs.Li.getD i 0
  let bR0 := s.bufs.R.getD i 0
  (if hardMute then bL0 - ctrl.leakKill.getD 0.85 * s.bufs.Lo.getD i 0 else bL0,
   if hardMute then bR0 - ctrl.leakKill.getD 0.85 * s.bufs.Ro.getD i 0 else bR0)

/-- The state the first loop of `processBlock` leaves (lines 30-44). -/
def pass1Of (sep : InlineSeparator α) (b : Bufs α) (ctrl : ControlState α) : Pass1 α :=
  (List.range b.Li.length).foldl (pass1Step ctrl)
    { sep := sep, eSum := 0, zc := 0, prev := 0, bufs := b }

/-- The value `wSmooth` of the block (line 52). -/
def wSmoothOf (M : JsMath α) (sep : InlineSeparator α) (b : Bufs α) (ctrl : ControlState α) :
    α :=
  (vadUpdate M (pass1Of sep b ctrl).sep (pass1Of sep b ctrl).eSum (pass1Of sep b ctrl).zc
    b.Li.length).2

/-- The state of the second loop of `processBlock` when iteration `i` starts. -/
def pass2At (M : JsMath α) (sep : InlineSeparator α) (b : Bufs α) (ctrl : ControlState α)
    (i : Nat) : Pass2 α :=
  (List.range i).foldl (pass2Step M ctrl (wSmoothOf M sep b ctrl))
    { sep := (vadUpdate M (pass1Of sep b ctrl).sep (pass1Of sep b ctrl).eSum
        (pass1Of sep b ctrl).zc b.Li.length).1,
      bufs := (pass1Of sep b ctrl).bufs }

end MixTerms

/-! ## Sequences of blocks -/

section BlockSequences

variable {α : Type} [LinearOrderedField α]

/-- The separator after `processBlock` has been called on each block of a
list in turn, each with the control record in force for it. -/
def InlineSeparator.runBlocks (M : JsMath α) (sep : InlineSeparator α)
    (blocks : List (Bufs α × ControlState α)) : InlineSeparator α :=
  blocks.foldl (fun s bc => (s.processBlock M bc.1 bc.2).sep) sep

/-- The voice-activity state is bounded by `c`: `lastW` and the envelope state
lie in `[0, c]`, and the envelope coefficients lie in `[0, 1]`. -/
def VadBounded (c : α) (sep : InlineSeparator α) : Prop :=
  (0 ≤ sep.lastW ∧ sep.lastW ≤ c) ∧ (0 ≤ sep.vadEnv.y ∧ sep.vadEnv.y ≤ c) ∧
  (0 ≤ sep.vadEnv.a ∧ sep.vadEnv.a ≤ 1) ∧ (0 ≤ sep.vadEnv.r ∧ sep.vadEnv.r ≤ 1)

end BlockSequences

/-! ## The PROCESS handler with its suspension at the model call -/

section AsyncHandler

variable {α : Type} [LinearOrderedField α]

/-- A PROCESS handler suspended at `await runModelStereo(L, R)` (line 66),
with its locals: the windowed input `L`, `R` and the fragments collected so
far, `outVoice` and `outBg`. -/
structure Suspended (α : Type) where
  L : List α
  R : List α
  outVoice : List (List α)
  outBg : List (List α)

/-- A ready worker whose PROCESS handlers may overlap: the module variables
they share (`inBuf` and the accumulators), the handlers suspended at the
`await`, and the OUT messages `(voice, bg)` posted so far, oldest first. -/
structure AsyncWorker (α : Type) where
  inBuf : List α
  ola : OlaState α
  suspended : List (Suspended α)
  posted : List (List α × List α)

/-- A ready worker as allocated (lines 20-25), no handler running. -/
def AsyncWorker.new : AsyncWorker α :=
  { inBuf := [], ola := OlaState.zero, suspended := [], posted := [] }

/-- A handler holding `outVoice`, `outBg` reaches the loop test (line 58).
With a full window buffered it computes `L` and `R` (lines 59-64) and suspends
at the model call (line 66); otherwise it leaves the loop, posts its merged
fragments if it collected any (lines 94-105) and returns. -/
def AsyncWorker.loopTest (M : JsMath α) (w : AsyncWorker α) (outVoice outBg : List (List α)) :
    AsyncWorker α :=
  if 2 * BLOCK ≤ w.inBuf.length then
    { w with suspended := w.suspended ++
        [{ L := windowL M w.inBuf, R := windowR M w.inBuf, outVoice := outVoice,
           outBg := outBg }] }
  else if outVoice.length ≠ 0 then
    { w with posted := w.posted ++ [(outVoice.flatten, outBg.flatten)] }
  else w

/-- A PROCESS message with data `chunk` is handled up to its first suspension
(lines 49-66): the chunk is appended to `inBuf` and the loop is entered with
no fragments. -/
def AsyncWorker.arrive (M : JsMath α) (w : AsyncWorker α) (chunk : List α) : AsyncWorker α :=
  AsyncWorker.loopTest M { w with inBuf := w.inBuf ++ chunk } [] []

/-- The model call of the suspended handler number `k` resolves with `voice`
and the handler runs on to its next suspension or to its end (lines 66-92): it
accumulates with the `L`, `R` it computed before suspending, collects the hop
fragments, slides the accumulators and drops a hop from `inBuf`, then tests
the loop condition again.  When other handlers have left fewer than `2 * HOP`
samples in `inBuf`, `new Float32Array(remain)` in `dropInputHop` throws a
RangeError and the handler ends there, after `slideOla`. -/
def AsyncWorker.resolve (M : JsMath α) (w : AsyncWorker α) (k : Nat) (voice : List α) :
    AsyncWorker α :=
  match w.suspended[k]? with
  | none => w
  | some h =>
    let acc := accumulate h.L h.R voice w.ola
    let w1 : AsyncWorker α :=
      { w with ola := slideOla acc, suspended := w.suspended.eraseIdx k }
    if w.inBuf.length < 2 * HOP then w1
    else AsyncWorker.loopTest M { w1 with inBuf := dropInputHop w.inBuf }
      (h.outVoice ++ [hopFragment acc.olaVoiceL acc.olaVoiceR])
      (h.outBg ++ [hopFragment acc.olaBgL acc.olaBgR])

/-- The model call of the suspended handler number `k` throws: the handler
ends, the module variables stay as they are. -/
def AsyncWorker.reject (w : AsyncWorker α) (k : Nat) : AsyncWorker α :=
  { w with suspended := w.suspended.eraseIdx k }

/-- What happens next at a ready worker: a PROCESS message arrives, or the
model call of a suspended handler resolves with an array or throws. -/
inductive HandlerEvent (α : Type) where
  | arrive (chunk : List α) : HandlerEvent α
  | resolve (k : Nat) (voice : List α) : HandlerEvent α
  | reject (k : Nat) : HandlerEvent α

/-- One event at a ready worker. -/
def AsyncWorker.step (M : JsMath α) (w : AsyncWorker α) : HandlerEvent α → AsyncWorker α
  | HandlerEvent.arrive chunk => w.arrive M chunk
  | HandlerEvent.resolve k voice => w.resolve M k voice
  | HandlerEvent.reject k => w.reject k

/-- A schedule of events at a ready worker, in order. -/
def AsyncWorker.run (M : JsMath α) (w : AsyncWorker α) (events : List (HandlerEvent α)) :
    AsyncWorker α :=
  events.foldl (AsyncWorker.step M) w

/-- The accumulators have length `BLOCK`, and every suspended handler holds as
many voice fragments as background fragments, each of `2 * HOP` samples. -/
def AsyncWorker.WF (w : AsyncWorker α) : Prop :=
  (w.ola.olaVoiceL.length = BLOCK ∧ w.ola.olaVoiceR.length = BLOCK ∧
    w.ola.olaBgL.length = BLOCK ∧ w.ola.olaBgR.length = BLOCK) ∧
  ∀ h ∈ w.suspended, h.outVoice.length = h.outBg.length ∧
    (∀ f ∈ h.outVoice, f.length = 2 * HOP) ∧ (∀ f ∈ h.outBg, f.length = 2 * HOP)

end AsyncHandler

/-! ## The overlap-add of the windowed input alone -/

section InputOnlyOla

variable {α : Type} [LinearOrderedField α]

/-- Modelled from the spec: a pass of the overlap-add of the windowed input
alone that waits where the worker's handler waits for the model: the windowed
input `L`, `R` it took and the fragments it collected so far. -/
structure InputSuspended (α : Type) where
  L : List α
  R : List α
  out : List (List α)

/-- Modelled from the spec: the state of an overlap-add of the
analysis-windowed input alone, with no model anywhere: the input accumulation,
one accumulator per channel, the waiting passes, and the merged fragments
emitted so far. -/
structure InputOla (α : Type) where
  inBuf : List α
  olaL : List α
  olaR : List α
  suspended : List (InputSuspended α)
  posted : List (List α)

/-- Modelled from the spec: the loop test of the input-only overlap-add: with a
full window buffered the analysis-windowed input is taken and the pass waits;
otherwise the pass emits its merged fragments, if any. -/
def InputOla.loopTest (M : JsMath α) (s : InputOla α) (out : List (List α)) : InputOla α :=
  if 2 * BLOCK ≤ s.inBuf.length then
    { s with suspended := s.suspended ++
        [{ L := windowL M s.inBuf, R := windowR M s.inBuf, out := out }] }
  else if out.length ≠ 0 then
    { s with posted := s.posted ++ [out.flatten] }
  else s

/-- Modelled from the spec: a chunk arrives at the input-only overlap-add. -/
def InputOla.arrive (M : JsMath α) (s : InputOla α) (chunk : List α) : InputOla α :=
  InputOla.loopTest M { s with inBuf := s.inBuf ++ chunk } []

/-- Modelled from the spec: the waiting pass number `k` of the input-only
overlap-add goes on: the windowed input it took is added to the accumulators,
the first `HOP` samples are collected as an interleaved fragment, the
accumulators shift left by `HOP` with a zero tail, and the input drops a hop
(the pass ends when fewer than `2 * HOP` samples are left to drop). -/
def InputOla.resume (M : JsMath α) (s : InputOla α) (k : Nat) : InputOla α :=
  match s.suspended[k]? with
  | none => s
  | some h =>
    let aL := (List.range BLOCK).map (fun i => s.olaL.getD i 0 + h.L.getD i 0)
    let aR := (List.range BLOCK).map (fun i => s.olaR.getD i 0 + h.R.getD i 0)
    let s1 : InputOla α :=
      { s with olaL := aL.drop HOP ++ List.replicate HOP 0,
               olaR := aR.drop HOP ++ List.replicate HOP 0,
               suspended := s.suspended.eraseIdx k }
    if s.inBuf.length < 2 * HOP then s1
    else InputOla.loopTest M { s1 with inBuf := s.inBuf.drop (2 * HOP) }
      (h.out ++ [(List.range HOP).flatMap (fun i => [aL.getD i 0, aR.getD i 0])])

/-- Modelled from the spec: the waiting pass number `k` is abandoned. -/
def InputOla.abandon (s : InputOla α) (k : Nat) : InputOla α :=
  { s with suspended := s.suspended.eraseIdx k }

/-- Modelled from the spec: one event at the input-only overlap-add; the array
a model call resolved with is not looked at. -/
def InputOla.step (M : JsMath α) (s : InputOla α) : HandlerEvent α → InputOla α
  | HandlerEvent.arrive chunk => s.arrive M chunk
  | HandlerEvent.resolve k _ => s.resume M k
  | HandlerEvent.reject k => s.abandon k

/-- Modelled from the spec: a schedule of events at the input-only
overlap-add. -/
def InputOla.run (M : JsMath α) (s : InputOla α) (events : List (HandlerEvent α)) :
    InputOla α :=
  events.foldl (InputOla.step M) s

end InputOnlyOla

/-! ## Theorems -/

section ControlTheorems

variable {α : Type} [LinearOrderedField α]

theorem normField_other (control : Obj α) (k j : String) (h : j ≠ k) :
    normField control k j = control j := by
  unfold normField
  cases hk : control k with
  | none => rfl
  | some v => simp [Obj.set, h]

theorem normField_absent (control : Obj α) (k j : String) (h : control j = none) :
    normField control k j = none := by
  by_cases hjk : j = k
  · subst hjk
    unfold normField
    simp [h]
  · rw [normField_other control k j hjk, h]

theorem normGains_absent (control : Obj α) (j : String) (h : control j = none) :
    normGains control j = none := by
  unfold normGains
  exact normField_absent _ _ _ (normField_absent _ _ _ (normField_absent _ _ _ h))

/-- C1 (merge-patch law): a key that is absent from the CONTROL patch keeps its
value (or its absence) in `this.ctrl` after the patch is applied by
`HybridProcessor`, and likewise in the session record of `background.js`. -/
theorem merge_patch_absent_unchanged (c p : Obj α) (k : String) (h : p k = none) :
    onControl c (some p) k = c k ∧
    handlePopupControlUpdate (some c) (some p) k = c k := by
  constructor
  · simp [onControl, Obj.spread, normGains_absent p k h]
  · simp [handlePopupControlUpdate, Obj.spread, h]

theorem merge_patch_absent_unchanged_witness :
    (Obj.ofList [("voiceGain", JsVal.num (150 : ℚ))] : Obj ℚ) "muteBg" = none ∧
    (onControl (Obj.ofList [("muteBg", JsVal.bool true)])
        (some (Obj.ofList [("voiceGain", JsVal.num (150 : ℚ))])) "muteBg"
        = (Obj.ofList [("muteBg", JsVal.bool true)] : Obj ℚ) "muteBg" ∧
     handlePopupControlUpdate (some (Obj.ofList [("muteBg", JsVal.bool true)]))
        (some (Obj.ofList [("voiceGain", JsVal.num (150 : ℚ))])) "muteBg"
        = (Obj.ofList [("muteBg", JsVal.bool true)] : Obj ℚ) "muteBg") :=
  ⟨by simp [Obj.ofList, Obj.set, Obj.empty],
   merge_patch_absent_unchanged _ _ "muteBg" (by simp [Obj.ofList, Obj.set, Obj.empty])⟩

theorem norm_range (v : JsVal α) : 0 ≤ norm v ∧ norm v ≤ 2 := by
  cases v with
  | num x =>
    simp only [norm]
    split_ifs
    · exact ⟨le_max_left _ _, max_le (by norm_num) (min_le_left _ _)⟩
    · exact ⟨le_max_left _ _, max_le (by norm_num) (min_le_left _ _)⟩
  | undefined => simp only [norm]; norm_num
  | null => simp only [norm]; norm_num
  | bool b => simp only [norm]; norm_num
  | str s => simp only [norm]; norm_num

/-- C2 (gain normalisation): `norm(150) = 1.5`, `norm(0.8) = 0.8`,
`norm(5) = 0.05`; for every number `x` the result lies in `[0,2]` (and so does
the result `1` for a value that is not a number), a value above 4 being divided
by 100 before the clamp and a value up to 4 being only clamped.  The worker's
copy of `norm` is the same function. -/
theorem norm_gain_normalisation :
    norm (JsVal.num (150 : ℚ)) = 1.5 ∧
    norm (JsVal.num (0.8 : ℚ)) = 0.8 ∧
    norm (JsVal.num (5 : ℚ)) = 0.05 ∧
    (∀ x : α, 0 ≤ norm (JsVal.num x) ∧ norm (JsVal.num x) ≤ 2) ∧
    (∀ v : JsVal α, 0 ≤ norm v ∧ norm v ≤ 2) ∧
    (∀ x : α, 4 < x → norm (JsVal.num x) = max 0 (min 2 (x / 100))) ∧
    (∀ x : α, x ≤ 4 → norm (JsVal.num x) = max 0 (min 2 x)) ∧
    (∀ v : JsVal α, sepWorkerNorm v = norm v) := by
  refine ⟨?_, ?_, ?_, fun x => norm_range _, norm_range, ?_, ?_, ?_⟩
  · simp only [norm]; norm_num
  · simp only [norm]; norm_num
  · simp only [norm]; norm_num
  · intro x hx; simp [norm, hx]
  · intro x hx; simp [norm, not_lt.mpr hx]
  · intro v; cases v <;> rfl

end ControlTheorems

section QueueTheorems
variable {α : Type} [Zero α]

omit [Zero α] in
theorem frames_eq (buf : List α) : frames buf = buf.length / 2 := by
  simp [frames, Nat.shiftRight_eq_div_pow]

theorem consumeOuter_done (needed : Nat) (s : ConsumeState α)
    (h : ¬ (s.filled < needed ∧ s.buffers.length ≠ 0)) : consumeOuter needed s = s := by
  rw [consumeOuter, if_neg h]

theorem consumeOuter_cons (needed : Nat) (s : ConsumeState α) (buf : List α)
    (rest : List (List α)) (h : s.filled < needed) (hb : s.buffers = buf :: rest) :
    consumeOuter needed s =
      if (consumeInner buf needed s).offset ≥ frames buf then
        consumeOuter needed { consumeInner buf needed s with buffers := rest, offset := 0 }
      else consumeOuter needed (consumeInner buf needed s) := by
  rw [consumeOuter, if_pos ⟨h, by simp [hb]⟩]
  split
  · simp_all
  · rename_i b r hb2
    rw [hb] at hb2
    cases hb2
    rfl

/-- An invariant of the loop body is an invariant of the inner loop. -/
theorem consumeInner_inv (P : ConsumeState α → Prop) (buf : List α) (needed : Nat)
    (hstep : ∀ t, t.filled < needed → t.offset < frames buf → P t → P (consumeFrame buf t))
    (s : ConsumeState α) (h : P s) : P (consumeInner buf needed s) := by
  induction s using consumeInner.induct buf needed with
  | case1 t hg ih =>
    rw [consumeInner, if_pos hg]
    exact ih (hstep t hg.1 hg.2 h)
  | case2 t hg => rw [consumeInner, if_neg hg]; exact h

theorem consumeInner_exit (buf : List α) (needed : Nat) (s : ConsumeState α) :
    ¬ ((consumeInner buf needed s).filled < needed ∧
        (consumeInner buf needed s).offset < frames buf) := by
  induction s using consumeInner.induct buf needed with
  | case1 t hg ih => rw [consumeInner, if_pos hg]; exact ih
  | case2 t hg => rw [consumeInner, if_neg hg]; exact hg

/-- An invariant of the inner loop body (for the head buffer) and of the
removal of an exhausted head buffer is an invariant of `consumeOuter`. -/
theorem consumeOuter_inv (P : ConsumeState α → Prop) (needed : Nat)
    (hframe : ∀ t buf rest, t.buffers = buf :: rest → t.filled < needed →
      t.offset < frames buf → P t → P (consumeFrame buf t))
    (hshift : ∀ t buf rest, t.buffers = buf :: rest → frames buf ≤ t.offset →
      P t → P { t with buffers := rest, offset := 0 })
    (s : ConsumeState α) (h : P s) : P (consumeOuter needed s) := by
  have hin : ∀ (t : ConsumeState α) buf rest, t.buffers = buf :: rest → P t →
      P (consumeInner buf needed t) ∧ (consumeInner buf needed t).buffers = buf :: rest := by
    intro t buf rest hb ht
    exact consumeInner_inv (fun u => P u ∧ u.buffers = buf :: rest) buf needed
      (fun u hu1 hu2 hu => ⟨hframe u buf rest hu.2 hu1 hu2 hu.1, by simpa [consumeFrame] using hu.2⟩)
      t ⟨ht, hb⟩
  induction s using @consumeOuter.induct α _ needed with
  | case1 t hg hb => simp [hb] at hg
  | case2 t hg buf rest hb s1 hge ih =>
    have hge2 : (consumeInner buf needed t).offset ≥ frames buf := hge
    rw [consumeOuter_cons needed t buf rest hg.1 hb, if_pos hge2]
    have h1 := hin t buf rest hb h
    exact ih (hshift _ buf rest h1.2 hge h1.1)
  | case3 t hg buf rest hb s1 hlt ih =>
    have hlt2 : ¬ (consumeInner buf needed t).offset ≥ frames buf := hlt
    rw [consumeOuter_cons needed t buf rest hg.1 hb, if_neg hlt2]
    exact ih (hin t buf rest hb h).1
  | case4 t hg => rw [consumeOuter_done needed t hg]; exact h

theorem consumeOuter_exit (needed : Nat) (s : ConsumeState α) :
    ¬ ((consumeOuter needed s).filled < needed ∧ (consumeOuter needed s).buffers.length ≠ 0) := by
  induction s using @consumeOuter.induct α _ needed with
  | case1 t hg hb => simp [hb] at hg
  | case2 t hg buf rest hb s1 hge ih =>
    have hge2 : (consumeInner buf needed t).offset ≥ frames buf := hge
    rw [consumeOuter_cons needed t buf rest hg.1 hb, if_pos hge2]; exact ih
  | case3 t hg buf rest hb s1 hlt ih =>
    have hlt2 : ¬ (consumeInner buf needed t).offset ≥ frames buf := hlt
    rw [consumeOuter_cons needed t buf rest hg.1 hb, if_neg hlt2]; exact ih
  | case4 t hg => rw [consumeOuter_done needed t hg]; exact hg

omit [Zero α] in
/-- Frames buffered after the removal of an exhausted head buffer. -/
theorem framesBuffered_shift (buf : List α) (rest : List (List α)) (o : Nat)
    (h : frames buf ≤ o) :
    framesBuffered ({ buffers := rest, offset := 0 } : InterleavedQueue α) =
      framesBuffered ({ buffers := buf :: rest, offset := o } : InterleavedQueue α) := by
  cases rest with
  | nil => simp [framesBuffered]; omega
  | cons b r => simp [framesBuffered]; omega

/-- The conserved count of `consumeStereo`: frames delivered plus frames still
buffered. -/
theorem consumeOuter_count (needed : Nat) (s : ConsumeState α) :
    (consumeOuter needed s).filled + framesBuffered (consumeOuter needed s).queue =
      s.filled + framesBuffered s.queue := by
  refine consumeOuter_inv
    (fun t => t.filled + framesBuffered t.queue = s.filled + framesBuffered s.queue) needed
    ?_ ?_ s rfl
  · intro t buf rest hb _ ho ht
    rw [← ht]
    simp only [consumeFrame, ConsumeState.queue, framesBuffered, hb]
    omega
  · intro t buf rest hb ho ht
    rw [← ht]
    simp only [ConsumeState.queue, hb]
    rw [framesBuffered_shift buf rest t.offset ho]

theorem consumeOuter_filled_le (needed : Nat) (s : ConsumeState α) (h : s.filled ≤ needed) :
    (consumeOuter needed s).filled ≤ needed :=
  consumeOuter_inv (fun t => t.filled ≤ needed) needed
    (fun t _ _ _ hlt _ _ => by simp only [consumeFrame]; omega)
    (fun _ _ _ _ _ ht => ht) s h

omit [Zero α] in
theorem framesBuffered_nil (o : Nat) :
    framesBuffered ({ buffers := [], offset := o } : InterleavedQueue α) = 0 := rfl

/-- The count `consumeStereo` returns, and the queue after a short count. -/
theorem consumeStereo_filled_min (q : InterleavedQueue α) (outputL outputR : List α) :
    (q.consumeStereo outputL outputR).filled = min outputL.length (framesBuffered q) ∧
    (q.consumeStereo outputL outputR).filled ≤ outputL.length ∧
    ((q.consumeStereo outputL outputR).filled < outputL.length →
      (q.consumeStereo outputL outputR).queue.buffers = [] ∧
      framesBuffered (q.consumeStereo outputL outputR).queue = 0) := by
  have hc := consumeOuter_count outputL.length
    { buffers := q.buffers, offset := q.offset, outputL := outputL, outputR := outputR,
      filled := 0 }
  have hle := consumeOuter_filled_le outputL.length
    { buffers := q.buffers, offset := q.offset, outputL := outputL, outputR := outputR,
      filled := 0 } (Nat.zero_le _)
  have hex := consumeOuter_exit outputL.length
    { buffers := q.buffers, offset := q.offset, outputL := outputL, outputR := outputR,
      filled := 0 }
  simp only [InterleavedQueue.consumeStereo]
  have hq : framesBuffered (ConsumeState.queue
      { buffers := q.buffers, offset := q.offset, outputL := outputL, outputR := outputR,
        filled := 0 }) = framesBuffered q := rfl
  rw [hq] at hc
  simp only [Nat.zero_add] at hc
  have hempty : (consumeOuter outputL.length
      { buffers := q.buffers, offset := q.offset, outputL := outputL, outputR := outputR,
        filled := 0 }).filled < outputL.length →
      (consumeOuter outputL.length
      { buffers := q.buffers, offset := q.offset, outputL := outputL, outputR := outputR,
        filled := 0 }).queue.buffers = [] := by
    intro hlt
    by_contra hne
    exact hex ⟨hlt, by simpa [ConsumeState.queue] using hne⟩
  have hzero : (consumeOuter outputL.length
      { buffers := q.buffers, offset := q.offset, outputL := outputL, outputR := outputR,
        filled := 0 }).filled < outputL.length →
      framesBuffered (consumeOuter outputL.length
      { buffers := q.buffers, offset := q.offset, outputL := outputL, outputR := outputR,
        filled := 0 }).queue = 0 := by
    intro hlt
    have := hempty hlt
    simp only [framesBuffered, this]
  refine ⟨?_, hle, fun hlt => ⟨hempty hlt, hzero hlt⟩⟩
  rcases Nat.lt_or_ge (consumeOuter outputL.length
      { buffers := q.buffers, offset := q.offset, outputL := outputL, outputR := outputR,
        filled := 0 }).filled outputL.length with hlt | hge
  · have := hzero hlt
    omega
  · omega

/-- C6: `consumeStereo` returns exactly `min(N, frames buffered)` where `N` is
the length of `outputL`; it never returns more than `N`, and when it returns
fewer than `N` the queue is empty afterwards. -/
theorem consumeStereo_returns_min (q : InterleavedQueue α) (outputL outputR : List α) :
    (q.consumeStereo outputL outputR).filled = min outputL.length (framesBuffered q) ∧
    (q.consumeStereo outputL outputR).filled ≤ outputL.length ∧
    ((q.consumeStereo outputL outputR).filled < outputL.length →
      (q.consumeStereo outputL outputR).queue.buffers = [] ∧
      framesBuffered (q.consumeStereo outputL outputR).queue = 0) :=
  consumeStereo_filled_min q outputL outputR

end QueueTheorems

section QueueTraceTheorems
variable {α : Type} [Zero α]

omit [Zero α] in
theorem take_set_self (l : List α) (n : Nat) (a : α) : (l.set n a).take n = l.take n := by
  induction l generalizing n with
  | nil => simp
  | cons x xs ih =>
    cases n with
    | zero => simp
    | succ m => simp [List.set, ih]

omit [Zero α] in
theorem zip_take_set (L R : List α) (f : Nat) (a b : α) (hL : f < L.length)
    (hR : f < R.length) :
    List.zip ((L.set f a).take (f + 1)) ((R.set f b).take (f + 1)) =
      List.zip (L.take f) (R.take f) ++ [(a, b)] := by
  rw [List.take_succ, List.take_succ, take_set_self, take_set_self,
    List.getElem?_set_self hL, List.getElem?_set_self hR]
  simp only [Option.toList]
  rw [List.zip_append (by simp [List.length_take]; omega)]
  rfl

theorem deinterleave_length (buf : List α) : (deinterleave buf).length = frames buf := by
  simp [deinterleave]

theorem deinterleave_drop (buf : List α) (o : Nat) (h : o < frames buf) :
    (deinterleave buf).drop o =
      (buf.getD (2 * o) 0, buf.getD (2 * o + 1) 0) :: (deinterleave buf).drop (o + 1) := by
  rw [List.drop_eq_getElem_cons (by rw [deinterleave_length]; exact h)]
  simp [deinterleave]

theorem pendingFrames_shift (buf : List α) (rest : List (List α)) (o : Nat)
    (h : frames buf ≤ o) :
    pendingFrames ({ buffers := rest, offset := 0 } : InterleavedQueue α) =
      pendingFrames ({ buffers := buf :: rest, offset := o } : InterleavedQueue α) := by
  have hd : (deinterleave buf).drop o = [] :=
    List.drop_eq_nil_of_le (by rw [deinterleave_length]; exact h)
  cases rest with
  | nil => simp [pendingFrames, hd]
  | cons b r => simp [pendingFrames, hd]

/-- The frames written so far followed by the frames still pending is
conserved by `consumeStereo`. -/
theorem consumeOuter_written (needed : Nat) (s : ConsumeState α)
    (hL : needed ≤ s.outputL.length) (hR : needed ≤ s.outputR.length) :
    (consumeOuter needed s).written ++ pendingFrames (consumeOuter needed s).queue =
      s.written ++ pendingFrames s.queue := by
  have key := consumeOuter_inv
    (fun t => needed ≤ t.outputL.length ∧ needed ≤ t.outputR.length ∧
      t.written ++ pendingFrames t.queue = s.written ++ pendingFrames s.queue) needed
    ?_ ?_ s ⟨hL, hR, rfl⟩
  · exact key.2.2
  · intro t buf rest hb hf ho ht
    obtain ⟨h1, h2, h3⟩ := ht
    refine ⟨by simpa [consumeFrame] using h1, by simpa [consumeFrame] using h2, ?_⟩
    rw [← h3]
    simp only [consumeFrame, ConsumeState.written, ConsumeState.queue, pendingFrames, hb]
    rw [zip_take_set _ _ _ _ _ (by omega) (by omega), deinterleave_drop buf t.offset ho]
    simp
  · intro t buf rest hb ho ht
    obtain ⟨h1, h2, h3⟩ := ht
    refine ⟨h1, h2, ?_⟩
    rw [← h3]
    simp only [ConsumeState.written, ConsumeState.queue, hb]
    rw [pendingFrames_shift buf rest t.offset ho]

theorem consumeOuter_wf (needed : Nat) (s : ConsumeState α) (h : s.queue.WF) :
    (consumeOuter needed s).queue.WF := by
  refine consumeOuter_inv (fun t => t.queue.WF) needed ?_ ?_ s h
  · intro t buf rest hb _ ho _
    constructor
    · intro hnil
      simp [consumeFrame, ConsumeState.queue, hb] at hnil
    · intro b r hbr
      simp only [consumeFrame, ConsumeState.queue, hb] at hbr
      cases hbr
      simp only [consumeFrame, ConsumeState.queue]
      omega
  · intro t buf rest _ _ _
    exact ⟨fun _ => rfl, fun b r _ => Nat.zero_le _⟩

theorem consumeOuter_buffers_subset (needed : Nat) (s : ConsumeState α) :
    ∀ b ∈ (consumeOuter needed s).buffers, b ∈ s.buffers := by
  refine consumeOuter_inv (fun t => ∀ b ∈ t.buffers, b ∈ s.buffers) needed ?_ ?_ s
    (fun _ hb => hb)
  · intro t buf rest _ _ _ ht
    exact ht
  · intro t buf rest hb _ ht b hbr
    exact ht b (by rw [hb]; exact List.mem_cons_of_mem _ hbr)

omit [Zero α] in
theorem push_wf (q : InterleavedQueue α) (buf : List α) (h : q.WF) : (q.push buf).WF := by
  unfold InterleavedQueue.push
  split_ifs with hne
  · constructor
    · intro hnil
      simp at hnil
    · intro b r hbr
      cases hq : q.buffers with
      | nil =>
        rw [h.1 hq]; exact Nat.zero_le _
      | cons x xs =>
        simp only [hq, List.cons_append, List.cons.injEq] at hbr
        rw [← hbr.1]
        exact h.2 x xs hq
  · exact h

omit [Zero α] in
theorem framesBuffered_push (q : InterleavedQueue α) (buf : List α) (h : q.WF) :
    framesBuffered (q.push buf) = framesBuffered q + frames buf := by
  unfold InterleavedQueue.push
  split_ifs with hne
  · cases hq : q.buffers with
    | nil => simp [framesBuffered, hq, h.1 hq]
    | cons x xs => simp [framesBuffered, hq]; omega
  · have : buf = [] := by
      cases buf with
      | nil => rfl
      | cons a l => simp at hne
    subst this
    simp [frames]

theorem pendingFrames_push (q : InterleavedQueue α) (buf : List α) (h : q.WF) :
    pendingFrames (q.push buf) = pendingFrames q ++ deinterleave buf := by
  unfold InterleavedQueue.push
  split_ifs with hne
  · cases hq : q.buffers with
    | nil => simp [pendingFrames, hq, h.1 hq]
    | cons x xs => simp [pendingFrames, hq]
  · have : buf = [] := by
      cases buf with
      | nil => rfl
      | cons a l => simp at hne
    subst this
    simp [deinterleave, frames]

end QueueTraceTheorems

section QueueTraceTheorems2
variable {α : Type} [Zero α]

theorem foldl_step_pushed (ops : List (QueueOp α)) (t : QueueTrace α) :
    (ops.foldl QueueTrace.step t).pushed = t.pushed ++ pushedBuffers ops := by
  induction ops generalizing t with
  | nil => simp [pushedBuffers]
  | cons op ops ih =>
    rw [List.foldl_cons, ih]
    cases op with
    | push buf => simp [QueueTrace.step, pushedBuffers]
    | consume L R => simp [QueueTrace.step, pushedBuffers]

theorem runQueue_pushed (ops : List (QueueOp α)) :
    (runQueue ops).pushed = pushedBuffers ops := by
  simp [runQueue, foldl_step_pushed]

/-- The counting invariant of a queue history. -/
theorem foldl_step_count (ops : List (QueueOp α)) (t : QueueTrace α)
    (h : t.queue.WF ∧ t.returned + framesBuffered t.queue = (t.pushed.map frames).sum ∧
      ∀ b ∈ t.queue.buffers, b ∈ t.pushed) :
    (ops.foldl QueueTrace.step t).queue.WF ∧
    (ops.foldl QueueTrace.step t).returned + framesBuffered (ops.foldl QueueTrace.step t).queue
      = ((ops.foldl QueueTrace.step t).pushed.map frames).sum ∧
    ∀ b ∈ (ops.foldl QueueTrace.step t).queue.buffers, b ∈ (ops.foldl QueueTrace.step t).pushed := by
  induction ops generalizing t with
  | nil => exact h
  | cons op ops ih =>
    rw [List.foldl_cons]
    apply ih
    obtain ⟨hwf, hcount, hmem⟩ := h
    cases op with
    | push buf =>
      refine ⟨push_wf _ _ hwf, ?_, ?_⟩
      · simp only [QueueTrace.step, framesBuffered_push _ _ hwf, List.map_append, List.sum_append,
          List.map_cons, List.map_nil, List.sum_cons, List.sum_nil]
        omega
      · intro b hb
        simp only [QueueTrace.step, InterleavedQueue.push] at hb ⊢
        split_ifs at hb with hne
        · simp only [List.mem_append, List.mem_singleton] at hb ⊢
          rcases hb with hb | hb
          · exact Or.inl (hmem b hb)
          · exact Or.inr hb
        · exact List.mem_append_left _ (hmem b hb)
    | consume L R =>
      refine ⟨consumeOuter_wf _ _ hwf, ?_, ?_⟩
      · have hc := consumeOuter_count L.length
          { buffers := t.queue.buffers, offset := t.queue.offset, outputL := L, outputR := R,
            filled := 0 }
        have hq : framesBuffered (ConsumeState.queue
            { buffers := t.queue.buffers, offset := t.queue.offset, outputL := L, outputR := R,
              filled := 0 }) = framesBuffered t.queue := rfl
        rw [hq] at hc
        simp only [QueueTrace.step, InterleavedQueue.consumeStereo]
        simp only [Nat.zero_add] at hc
        omega
      · intro b hb
        exact hmem b (consumeOuter_buffers_subset L.length _ b hb)

omit [Zero α] in
theorem sum_length_even (l : List (List α)) (h : ∀ b ∈ l, b.length % 2 = 0) :
    (l.map List.length).sum = 2 * (l.map frames).sum := by
  induction l with
  | nil => rfl
  | cons b l ih =>
    have hb := h b (List.mem_cons_self _ _)
    have := ih (fun x hx => h x (List.mem_cons_of_mem _ hx))
    simp only [List.map_cons, List.sum_cons, frames_eq]
    omega

omit [Zero α] in
theorem samplesBuffered_even (q : InterleavedQueue α) (hwf : q.WF)
    (h : ∀ b ∈ q.buffers, b.length % 2 = 0) :
    samplesBuffered q = 2 * framesBuffered q := by
  unfold samplesBuffered framesBuffered
  rw [sum_length_even _ h]
  cases hq : q.buffers with
  | nil => simp
  | cons b r =>
    have := hwf.2 b r hq
    simp only [List.map_cons, List.sum_cons]
    omega

/-- C7 as stated fails: a pushed buffer of odd length loses its last sample
(`frames = buf.length >> 1`).  After `push([1,2,3])` and one `consumeStereo`
into arrays of length 1, two samples are delivered, none is buffered, three
were pushed. -/
theorem queue_conservation_counterexample :
    ¬ (∀ ops : List (QueueOp ℚ),
        2 * (runQueue ops).returned + samplesBuffered (runQueue ops).queue
          = ((pushedBuffers ops).map List.length).sum) := by
  intro h
  have h1 := h [QueueOp.push [1, 2, 3], QueueOp.consume [0] [0]]
  simp [runQueue, QueueTrace.step, InterleavedQueue.new, InterleavedQueue.push,
    InterleavedQueue.consumeStereo, consumeOuter, consumeInner, consumeFrame, frames,
    ConsumeState.queue, samplesBuffered, pushedBuffers] at h1

/-- C7 (amended): for every sequence of `push` and `consumeStereo` calls on a
new queue, counted in whole frames, the frames delivered plus the frames still
buffered are the frames pushed (`floor(length / 2)` per buffer); hence, when
every pushed buffer has even length, the samples delivered (two per frame
returned) plus the samples still buffered equal the samples pushed. -/
theorem queue_conservation (ops : List (QueueOp α)) :
    (runQueue ops).returned + framesBuffered (runQueue ops).queue
      = ((pushedBuffers ops).map frames).sum ∧
    ((∀ buf ∈ pushedBuffers ops, buf.length % 2 = 0) →
      2 * (runQueue ops).returned + samplesBuffered (runQueue ops).queue
        = ((pushedBuffers ops).map List.length).sum) := by
  have hinv := foldl_step_count ops
    { queue := InterleavedQueue.new, pushed := [], returned := 0, written := [] }
    ⟨⟨fun _ => rfl, fun b r hbr => by simp [InterleavedQueue.new] at hbr⟩, rfl,
      fun b hb => by simp [InterleavedQueue.new] at hb⟩
  have hp := runQueue_pushed ops
  obtain ⟨hwf, hcount, hmem⟩ := hinv
  change (runQueue ops).queue.WF at hwf
  change (runQueue ops).returned + framesBuffered (runQueue ops).queue
    = ((runQueue ops).pushed.map frames).sum at hcount
  change ∀ b ∈ (runQueue ops).queue.buffers, b ∈ (runQueue ops).pushed at hmem
  rw [hp] at hcount hmem
  refine ⟨hcount, fun heven => ?_⟩
  rw [samplesBuffered_even _ hwf (fun b hb => heven b (hmem b hb)), sum_length_even _ heven]
  omega

theorem queue_conservation_witness :
    (∀ buf ∈ pushedBuffers [QueueOp.push [1, 2, 3, (4 : ℚ)], QueueOp.consume [0] [0]],
        buf.length % 2 = 0) ∧
    2 * (runQueue [QueueOp.push [1, 2, 3, (4 : ℚ)], QueueOp.consume [0] [0]]).returned
      + samplesBuffered (runQueue [QueueOp.push [1, 2, 3, (4 : ℚ)],
          QueueOp.consume [0] [0]]).queue
      = ((pushedBuffers [QueueOp.push [1, 2, 3, (4 : ℚ)],
          QueueOp.consume [0] [0]]).map List.length).sum :=
  ⟨by simp [pushedBuffers],
   (queue_conservation [QueueOp.push [1, 2, 3, (4 : ℚ)], QueueOp.consume [0] [0]]).2
     (by simp [pushedBuffers])⟩

end QueueTraceTheorems2

section QueueFifoTheorems
variable {α : Type} [Zero α]

theorem consumeOuter_lengths (needed : Nat) (s : ConsumeState α) :
    (consumeOuter needed s).outputL.length = s.outputL.length ∧
    (consumeOuter needed s).outputR.length = s.outputR.length :=
  consumeOuter_inv
    (fun t => t.outputL.length = s.outputL.length ∧ t.outputR.length = s.outputR.length) needed
    (fun t _ _ _ _ _ ht => by simpa [consumeFrame] using ht)
    (fun _ _ _ _ _ ht => ht) s ⟨rfl, rfl⟩

/-- The ordering invariant of a queue history. -/
theorem foldl_step_written (ops : List (QueueOp α)) (t : QueueTrace α)
    (hlen : ∀ L R, QueueOp.consume L R ∈ ops → L.length ≤ R.length)
    (h : t.queue.WF ∧
      t.written ++ pendingFrames t.queue = (t.pushed.map deinterleave).flatten ∧
      t.written.length = t.returned) :
    (ops.foldl QueueTrace.step t).written ++ pendingFrames (ops.foldl QueueTrace.step t).queue
      = ((ops.foldl QueueTrace.step t).pushed.map deinterleave).flatten ∧
    (ops.foldl QueueTrace.step t).written.length = (ops.foldl QueueTrace.step t).returned := by
  induction ops generalizing t with
  | nil => exact h.2
  | cons op ops ih =>
    rw [List.foldl_cons]
    apply ih _ (fun L R hm => hlen L R (List.mem_cons_of_mem _ hm))
    obtain ⟨hwf, hw, hl⟩ := h
    cases op with
    | push buf =>
      refine ⟨push_wf _ _ hwf, ?_, hl⟩
      simp only [QueueTrace.step, pendingFrames_push _ _ hwf, List.map_append, List.flatten_append,
        List.map_cons, List.map_nil, List.flatten_cons, List.flatten_nil, List.append_nil]
      rw [← List.append_assoc, hw]
    | consume L R =>
      have hLR := hlen L R (List.mem_cons_self _ _)
      have hwr := consumeOuter_written L.length
        { buffers := t.queue.buffers, offset := t.queue.offset, outputL := L, outputR := R,
          filled := 0 } (le_refl _) hLR
      have hfl := consumeOuter_filled_le L.length
        { buffers := t.queue.buffers, offset := t.queue.offset, outputL := L, outputR := R,
          filled := 0 } (Nat.zero_le _)
      have hlens := consumeOuter_lengths L.length
        { buffers := t.queue.buffers, offset := t.queue.offset, outputL := L, outputR := R,
          filled := 0 }
      refine ⟨consumeOuter_wf _ _ hwf, ?_, ?_⟩
      · simp only [QueueTrace.step, InterleavedQueue.consumeStereo, List.append_assoc]
        rw [hwr, ← hw]
        simp [ConsumeState.written, ConsumeState.queue]
      · simp only [QueueTrace.step, InterleavedQueue.consumeStereo, List.length_append, hl,
          ConsumeState.written, List.length_zip, List.length_take, hlens.1, hlens.2]
        simp only at hfl hLR
        omega

/-- C8 (FIFO order across fragment boundaries): for every sequence of `push`
and `consumeStereo` calls on a new queue (each call given two output arrays,
the right one at least as long as the left), the frames written by the
successive calls, concatenated, followed by the frames still pending, are the
de-interleaved pushed buffers in push order; so the frames written are an
initial segment of the pushed frames, none skipped, duplicated or reordered,
and their number is the sum of the returned counts. -/
theorem queue_fifo_order (ops : List (QueueOp α))
    (hlen : ∀ L R, QueueOp.consume L R ∈ ops → L.length ≤ R.length) :
    (runQueue ops).written ++ pendingFrames (runQueue ops).queue
      = ((pushedBuffers ops).map deinterleave).flatten ∧
    (∃ rest, (runQueue ops).written ++ rest = ((pushedBuffers ops).map deinterleave).flatten) ∧
    (runQueue ops).written.length = (runQueue ops).returned := by
  have hinv := foldl_step_written ops
    { queue := InterleavedQueue.new, pushed := [], returned := 0, written := [] } hlen
    ⟨⟨fun _ => rfl, fun b r hbr => by simp [InterleavedQueue.new] at hbr⟩, rfl, rfl⟩
  have hp := runQueue_pushed ops
  obtain ⟨hw, hl⟩ := hinv
  change (runQueue ops).written ++ pendingFrames (runQueue ops).queue
    = ((runQueue ops).pushed.map deinterleave).flatten at hw
  rw [hp] at hw
  exact ⟨hw, ⟨_, hw⟩, hl⟩

theorem queue_fifo_order_witness :
    (∀ L R, QueueOp.consume L R ∈
        [QueueOp.push [1, 2, (3 : ℚ)], QueueOp.push [4, 5, 6, 7], QueueOp.consume [0, 0] [0, 0]]
        → L.length ≤ R.length) ∧
    (runQueue [QueueOp.push [1, 2, (3 : ℚ)], QueueOp.push [4, 5, 6, 7],
        QueueOp.consume [0, 0] [0, 0]]).written
      ++ pendingFrames (runQueue [QueueOp.push [1, 2, (3 : ℚ)], QueueOp.push [4, 5, 6, 7],
        QueueOp.consume [0, 0] [0, 0]]).queue
      = ((pushedBuffers [QueueOp.push [1, 2, (3 : ℚ)], QueueOp.push [4, 5, 6, 7],
        QueueOp.consume [0, 0] [0, 0]]).map deinterleave).flatten :=
  ⟨by simp,
   (queue_fifo_order [QueueOp.push [1, 2, (3 : ℚ)], QueueOp.push [4, 5, 6, 7],
      QueueOp.consume [0, 0] [0, 0]] (by simp)).1⟩

end QueueFifoTheorems

section LoopLemmas

/-- Invariant rule for a counted loop `for (i = 0; i < N; i++)`. -/
theorem foldl_range_inv {σ : Type} (step : σ → Nat → σ) (P : Nat → σ → Prop) (N : Nat)
    (hstep : ∀ k s, k < N → P k s → P (k + 1) (step s k)) (s : σ) (h0 : P 0 s) :
    P N ((List.range N).foldl step s) := by
  have key : ∀ n, n ≤ N → P n ((List.range n).foldl step s) := by
    intro n
    induction n with
    | zero => intro _; simpa using h0
    | succ n ih =>
      intro hn
      rw [List.range_succ, List.foldl_append]
      exact hstep n _ (by omega) (ih (by omega))
  exact key N (le_refl N)

/-- Relational invariant rule for two runs of a counted loop. -/
theorem foldl_range_rel {σ : Type} (step : σ → Nat → σ) (Rel : Nat → σ → σ → Prop) (N : Nat)
    (hstep : ∀ k s t, k < N → Rel k s t → Rel (k + 1) (step s k) (step t k)) (s t : σ)
    (h0 : Rel 0 s t) :
    Rel N ((List.range N).foldl step s) ((List.range N).foldl step t) := by
  have key : ∀ n, n ≤ N →
      Rel n ((List.range n).foldl step s) ((List.range n).foldl step t) := by
    intro n
    induction n with
    | zero => intro _; simpa using h0
    | succ n ih =>
      intro hn
      rw [List.range_succ, List.foldl_append, List.foldl_append]
      exact hstep n _ _ (by omega) (ih (by omega))
  exact key N (le_refl N)

theorem take_succ_set {α : Type} (l : List α) (k : Nat) (a : α) (h : k < l.length) :
    (l.set k a).take (k + 1) = l.take k ++ [a] := by
  rw [List.take_succ, take_set_self, List.getElem?_set_self h]
  rfl

end LoopLemmas

section DspTheorems
variable {α : Type} [LinearOrderedField α]

omit [LinearOrderedField α] in
theorem setIn_out (b : Bufs α) (i : Nat) (x y : α) :
    (b.setIn i x y).Lo = b.Lo ∧ (b.setIn i x y).Ro = b.Ro := by
  unfold Bufs.setIn
  cases b.Ri <;> exact ⟨rfl, rfl⟩

omit [LinearOrderedField α] in
theorem setIn_length (b : Bufs α) (i : Nat) (x y : α) :
    (b.setIn i x y).Li.length = b.Li.length := by
  unfold Bufs.setIn
  cases b.Ri <;> simp

omit [LinearOrderedField α] in
/-- The input arrays after `setIn` depend on the input arrays only. -/
theorem setIn_congr (Li : List α) (Ri Ri2 : Option (List α)) (Lo Ro Lo2 Ro2 : List α)
    (i : Nat) (x y : α) (hR : Ri = Ri2) :
    (({ Li := Li, Ri := Ri, Lo := Lo, Ro := Ro } : Bufs α).setIn i x y).Li
      = (({ Li := Li, Ri := Ri2, Lo := Lo2, Ro := Ro2 } : Bufs α).setIn i x y).Li ∧
    (({ Li := Li, Ri := Ri, Lo := Lo, Ro := Ro } : Bufs α).setIn i x y).Ri
      = (({ Li := Li, Ri := Ri2, Lo := Lo2, Ro := Ro2 } : Bufs α).setIn i x y).Ri := by
  subst hR
  unfold Bufs.setIn
  cases Ri <;> simp

/-- After the first loop the output arrays do not depend on their initial
contents, only on their lengths. -/
theorem pass1_indep (ctrl : ControlState α) (sep : InlineSeparator α) (b : Bufs α)
    (Lo2 Ro2 : List α)
    (hLo : b.Lo.length = b.Li.length) (hRo : b.Ro.length = b.Li.length)
    (hLo2 : Lo2.length = b.Li.length) (hRo2 : Ro2.length = b.Li.length) :
    (List.range b.Li.length).foldl (pass1Step ctrl)
        { sep := sep, eSum := 0, zc := 0, prev := 0, bufs := b }
      = (List.range b.Li.length).foldl (pass1Step ctrl)
        { sep := sep, eSum := 0, zc := 0, prev := 0, bufs := { b with Lo := Lo2, Ro := Ro2 } } := by
  have key := foldl_range_rel (pass1Step ctrl)
    (fun k s t => s.sep = t.sep ∧ s.eSum = t.eSum ∧ s.zc = t.zc ∧ s.prev = t.prev ∧
      s.bufs.Li = t.bufs.Li ∧ s.bufs.Ri = t.bufs.Ri ∧
      s.bufs.Lo.length = b.Li.length ∧ t.bufs.Lo.length = b.Li.length ∧
      s.bufs.Ro.length = b.Li.length ∧ t.bufs.Ro.length = b.Li.length ∧
      s.bufs.Lo.take k = t.bufs.Lo.take k ∧ s.bufs.Ro.take k = t.bufs.Ro.take k)
    b.Li.length ?_
    { sep := sep, eSum := 0, zc := 0, prev := 0, bufs := b }
    { sep := sep, eSum := 0, zc := 0, prev := 0, bufs := { b with Lo := Lo2, Ro := Ro2 } }
    ⟨rfl, rfl, rfl, rfl, rfl, rfl, hLo, hLo2, hRo, hRo2, by simp, by simp⟩
  · obtain ⟨h1, h2, h3, h4, h5, h6, h7, h8, h9, h10, h11, h12⟩ := key
    rw [List.take_of_length_le (le_of_eq h7), List.take_of_length_le (le_of_eq h8)] at h11
    rw [List.take_of_length_le (le_of_eq h9), List.take_of_length_le (le_of_eq h10)] at h12
    generalize (List.range b.Li.length).foldl (pass1Step ctrl)
        { sep := sep, eSum := 0, zc := 0, prev := 0, bufs := b } = x at *
    generalize (List.range b.Li.length).foldl (pass1Step ctrl)
        { sep := sep, eSum := 0, zc := 0, prev := 0,
          bufs := { b with Lo := Lo2, Ro := Ro2 } } = y at *
    obtain ⟨xs, xe, xz, xp, ⟨xli, xri, xlo, xro⟩⟩ := x
    obtain ⟨ys, ye, yz, yp, ⟨yli, yri, ylo, yro⟩⟩ := y
    simp only at h1 h2 h3 h4 h5 h6 h11 h12
    subst h1 h2 h3 h4 h5 h6 h11 h12
    rfl
  · intro k s t hk h
    obtain ⟨h1, h2, h3, h4, h5, h6, h7, h8, h9, h10, h11, h12⟩ := h
    have hR : s.bufs.R = t.bufs.R := by simp only [Bufs.R, h5, h6]
    simp only [pass1Step, h1, h2, h3, h4, h5, hR, true_and]
    refine ⟨(setIn_congr _ _ _ _ _ _ _ _ _ _ h6).1, (setIn_congr _ _ _ _ _ _ _ _ _ _ h6).2, ?_⟩
    simp only [(setIn_out _ _ _ _).1, (setIn_out _ _ _ _).2, List.length_set, h7, h8, h9, h10,
      true_and]
    rw [take_succ_set _ _ _ (by omega), take_succ_set _ _ _ (by omega),
      take_succ_set _ _ _ (by omega), take_succ_set _ _ _ (by omega), h11, h12]
    exact ⟨rfl, rfl⟩

end DspTheorems

section DspTheorems2
variable {α : Type} [LinearOrderedField α]

theorem processBlock_indep (M : JsMath α) (sep : InlineSeparator α) (ctrl : ControlState α)
    (b : Bufs α) (Lo2 Ro2 : List α)
    (hLo : b.Lo.length = b.Li.length) (hRo : b.Ro.length = b.Li.length)
    (hLo2 : Lo2.length = b.Li.length) (hRo2 : Ro2.length = b.Li.length) :
    sep.processBlock M { b with Lo := Lo2, Ro := Ro2 } ctrl = sep.processBlock M b ctrl := by
  simp only [InlineSeparator.processBlock]
  rw [← pass1_indep ctrl sep b Lo2 Ro2 hLo hRo hLo2 hRo2]

/-- The heuristic separator does not read `aiMode`. -/
theorem processBlock_aiMode (M : JsMath α) (sep : InlineSeparator α) (ctrl : ControlState α)
    (b : Bufs α) (m : String) :
    sep.processBlock M b { ctrl with aiMode := m } = sep.processBlock M b ctrl := by
  have h1 : pass1Step { ctrl with aiMode := m } = pass1Step ctrl := by
    funext s i
    simp [pass1Step, tonalTrim]
  have h2 : ∀ w, pass2Step M { ctrl with aiMode := m } w = pass2Step M ctrl w := by
    intro w
    funext s i
    simp [pass2Step, vGainOf, effBgOf, bGainOf, duckAtten]
  simp only [InlineSeparator.processBlock, h1, h2]

theorem consumeStereo_empty (q : InterleavedQueue α) (outL outR : List α)
    (h : q.buffers = []) :
    q.consumeStereo outL outR =
      { buffers := [], offset := q.offset, outputL := outL, outputR := outR, filled := 0 } := by
  rw [InterleavedQueue.consumeStereo, consumeOuter_done _ _ (by simp [h]), h]

theorem consumeStereo_lengths (q : InterleavedQueue α) (outL outR : List α) :
    (q.consumeStereo outL outR).outputL.length = outL.length ∧
    (q.consumeStereo outL outR).outputR.length = outR.length :=
  consumeOuter_lengths outL.length _

/-- A quantum rendered outside the NEURAL branch is the heuristic output. -/
theorem process_proxy (M : JsMath α) (p : HybridProcessor α) (b : Bufs α)
    (h : ¬ (p.workerPort = true ∧ p.ctrl.aiMode = "onnx")) :
    (p.process M b).bufs = (p.inline.processBlock M b p.ctrl).bufs ∧
    (p.process M b).proc.inline = (p.inline.processBlock M b p.ctrl).sep := by
  simp only [HybridProcessor.process, if_neg h, and_self]

theorem tmpArrays_length (p : HybridProcessor α) (N : Nat) :
    (p.tmpArrays N).1.length = N := by
  unfold HybridProcessor.tmpArrays
  cases p.tmpBg with
  | none => simp
  | some t =>
    by_cases ht : t.1.length = N
    · simp [ht]
    · simp [ht]

/-- A NEURAL quantum in which a stem queue does not deliver `N` frames is the
heuristic output for the same input and separator state. -/
theorem process_underrun (M : JsMath α) (p : HybridProcessor α) (b : Bufs α)
    (hq : b.Quantum)
    (hport : p.workerPort = true) (hmode : p.ctrl.aiMode = "onnx")
    (hunder : framesBuffered p.voiceQueue < b.Li.length ∨
      framesBuffered p.bgQueue < b.Li.length) :
    (p.process M b).bufs = (p.inline.processBlock M b p.ctrl).bufs ∧
    (p.process M b).proc.inline = (p.inline.processBlock M b p.ctrl).sep := by
  obtain ⟨hLo, hRo, _⟩ := hq
  have hv := (consumeStereo_filled_min p.voiceQueue b.Lo b.Ro).1
  have hb := (consumeStereo_filled_min p.bgQueue (p.tmpArrays b.Li.length).1
    (p.tmpArrays b.Li.length).2).1
  have hlen := consumeStereo_lengths p.voiceQueue b.Lo b.Ro
  rw [tmpArrays_length] at hb
  rw [hLo] at hv
  have hcond : ¬ ((p.voiceQueue.consumeStereo b.Lo b.Ro).filled = b.Li.length ∧
      (p.bgQueue.consumeStereo (p.tmpArrays b.Li.length).1
        (p.tmpArrays b.Li.length).2).filled = b.Li.length) := by
    intro hc
    rcases hunder with hu | hu
    · omega
    · omega
  have hind := processBlock_indep M p.inline p.ctrl b
    ((p.voiceQueue.consumeStereo b.Lo b.Ro).outputL.map (fun _ => 0))
    ((p.voiceQueue.consumeStereo b.Lo b.Ro).outputR.map (fun _ => 0))
    hLo hRo (by rw [List.length_map, hlen.1, hLo]) (by rw [List.length_map, hlen.2, hRo])
  simp only [HybridProcessor.process, hport, hmode, and_self, if_true, if_neg hcond]
  rw [hind]
  exact ⟨rfl, rfl⟩

end DspTheorems2

section MuteTheorems
variable {α : Type} [LinearOrderedField α]

theorem clamp_zero : clamp (0 : α) = 0 := by
  unfold clamp
  rw [if_neg (by norm_num), if_neg (by norm_num)]

theorem proxyMix_muteVoice (ctrl : ControlState α) (h : ctrl.muteVoice = true) (w e v b : α) :
    proxyMix (vGainOf ctrl) w e v b = clamp (e * b) := by
  simp [proxyMix, vGainOf, h]

theorem proxyMix_muteBg (M : JsMath α) (ctrl : ControlState α) (h : ctrl.muteBg = true)
    (g w v b : α) :
    proxyMix g w (effBgOf M ctrl w) v b = clamp (g * (w * v)) := by
  simp [proxyMix, effBgOf, bGainOf, h]

theorem pass1_lengths (ctrl : ControlState α) (s : Pass1 α) (N : Nat) :
    ((List.range N).foldl (pass1Step ctrl) s).bufs.Lo.length = s.bufs.Lo.length ∧
    ((List.range N).foldl (pass1Step ctrl) s).bufs.Ro.length = s.bufs.Ro.length ∧
    ((List.range N).foldl (pass1Step ctrl) s).bufs.Li.length = s.bufs.Li.length :=
  foldl_range_inv (pass1Step ctrl)
    (fun _ t => t.bufs.Lo.length = s.bufs.Lo.length ∧ t.bufs.Ro.length = s.bufs.Ro.length ∧
      t.bufs.Li.length = s.bufs.Li.length) N
    (fun k t _ ht => by
      simp only [pass1Step, (setIn_out _ _ _ _).1, (setIn_out _ _ _ _).2, setIn_length,
        List.length_set]
      exact ht) s ⟨rfl, rfl, rfl⟩

omit [LinearOrderedField α] in
theorem replicate_snoc (k : Nat) (a : α) : List.replicate k a ++ [a] = List.replicate (k + 1) a := by
  rw [List.replicate_succ']

/-- With both mutes set the second loop writes zeros. -/
theorem pass2_muted (M : JsMath α) (ctrl : ControlState α) (w : α) (s : Pass2 α) (N : Nat)
    (hv : ctrl.muteVoice = true) (hb : ctrl.muteBg = true)
    (hLo : s.bufs.Lo.length = N) (hRo : s.bufs.Ro.length = N) :
    ((List.range N).foldl (pass2Step M ctrl w) s).bufs.Lo = List.replicate N 0 ∧
    ((List.range N).foldl (pass2Step M ctrl w) s).bufs.Ro = List.replicate N 0 := by
  have key := foldl_range_inv (pass2Step M ctrl w)
    (fun k t => t.bufs.Lo.length = N ∧ t.bufs.Ro.length = N ∧
      t.bufs.Lo.take k = List.replicate k 0 ∧ t.bufs.Ro.take k = List.replicate k 0) N ?_ s
    ⟨hLo, hRo, by simp, by simp⟩
  · obtain ⟨h1, h2, h3, h4⟩ := key
    rw [List.take_of_length_le (le_of_eq h1)] at h3
    rw [List.take_of_length_le (le_of_eq h2)] at h4
    exact ⟨h3, h4⟩
  · intro k t hk ht
    obtain ⟨h1, h2, h3, h4⟩ := ht
    have hmix : ∀ v b : α, proxyMix (vGainOf ctrl) w (effBgOf M ctrl w) v b = 0 := by
      intro v b
      simp [proxyMix, vGainOf, effBgOf, bGainOf, hv, hb, clamp_zero]
    simp only [pass2Step, hmix, List.length_set, h1, h2, true_and]
    rw [take_succ_set _ _ _ (by omega), take_succ_set _ _ _ (by omega), h3, h4]
    exact ⟨replicate_snoc k 0, replicate_snoc k 0⟩

theorem processBlock_muted (M : JsMath α) (sep : InlineSeparator α) (ctrl : ControlState α)
    (b : Bufs α) (hv : ctrl.muteVoice = true) (hb : ctrl.muteBg = true)
    (hLo : b.Lo.length = b.Li.length) (hRo : b.Ro.length = b.Li.length) :
    (sep.processBlock M b ctrl).bufs.Lo = List.replicate b.Li.length 0 ∧
    (sep.processBlock M b ctrl).bufs.Ro = List.replicate b.Li.length 0 := by
  have hl := pass1_lengths ctrl
    { sep := sep, eSum := 0, zc := 0, prev := 0, bufs := b } b.Li.length
  simp only [InlineSeparator.processBlock]
  exact pass2_muted M ctrl _ _ b.Li.length hv hb (by rw [hl.1, hLo]) (by rw [hl.2.1, hRo])

/-- With both mutes set the NEURAL mix loop writes zeros. -/
theorem neuralMix_loop_muted (ctrl : ControlState α) (tL tR : List α) (o : List α × List α)
    (N : Nat) (hv : ctrl.muteVoice = true) (hb : ctrl.muteBg = true)
    (hLo : o.1.length = N) (hRo : o.2.length = N) :
    ((List.range N).foldl (neuralMixStep ctrl tL tR) o).1 = List.replicate N 0 ∧
    ((List.range N).foldl (neuralMixStep ctrl tL tR) o).2 = List.replicate N 0 := by
  have key := foldl_range_inv (neuralMixStep ctrl tL tR)
    (fun k t => t.1.length = N ∧ t.2.length = N ∧
      t.1.take k = List.replicate k 0 ∧ t.2.take k = List.replicate k 0) N ?_ o
    ⟨hLo, hRo, by simp, by simp⟩
  · obtain ⟨h1, h2, h3, h4⟩ := key
    rw [List.take_of_length_le (le_of_eq h1)] at h3
    rw [List.take_of_length_le (le_of_eq h2)] at h4
    exact ⟨h3, h4⟩
  · intro k t hk ht
    obtain ⟨h1, h2, h3, h4⟩ := ht
    have hmix : ∀ v b : α, neuralMix ctrl v b = 0 := by
      intro v b
      simp [neuralMix, hv, hb]
    simp only [neuralMixStep, hmix, List.length_set, h1, h2, true_and]
    rw [take_succ_set _ _ _ (by omega), take_succ_set _ _ _ (by omega), h3, h4]
    exact ⟨replicate_snoc k 0, replicate_snoc k 0⟩

end MuteTheorems

section ModeTheorems
variable {α : Type} [LinearOrderedField α]

/-- C4 (mode equivalence under empty queues): for a quantum of `N > 0` frames
(mono or stereo in, stereo out, all arrays of length `N`), every control
record, every separator state and either state of the worker port, `process`
with `aiMode = "onnx"` and both stem queues empty leaves the same channel
arrays and the same `InlineSeparator` state as `process` with
`aiMode = "proxy"`. -/
theorem mode_equivalence_empty_queues (M : JsMath α) (p : HybridProcessor α) (b : Bufs α)
    (hq : b.Quantum) (hN : 0 < b.Li.length)
    (hv : p.voiceQueue.buffers = []) (_hb : p.bgQueue.buffers = []) :
    (HybridProcessor.process M { p with ctrl := { p.ctrl with aiMode := "onnx" } } b).bufs
      = (HybridProcessor.process M { p with ctrl := { p.ctrl with aiMode := "proxy" } } b).bufs ∧
    (HybridProcessor.process M { p with ctrl := { p.ctrl with aiMode := "onnx" } } b).proc.inline
      = (HybridProcessor.process M
          { p with ctrl := { p.ctrl with aiMode := "proxy" } } b).proc.inline := by
  have hproxy := process_proxy M { p with ctrl := { p.ctrl with aiMode := "proxy" } } b
    (by simp)
  rw [hproxy.1, hproxy.2]
  simp only [processBlock_aiMode]
  by_cases hport : p.workerPort = true
  · have h := process_underrun M { p with ctrl := { p.ctrl with aiMode := "onnx" } } b hq
      hport rfl (Or.inl (by simp only [framesBuffered, hv]; exact hN))
    rw [h.1, h.2]
    simp only [processBlock_aiMode, and_self]
  · have h := process_proxy M { p with ctrl := { p.ctrl with aiMode := "onnx" } } b
      (fun hc => hport hc.1)
    rw [h.1, h.2]
    simp only [processBlock_aiMode, and_self]

theorem mode_equivalence_empty_queues_witness :
    (HybridProcessor.process JsMath.sample
        { ({ HybridProcessor.new with workerPort := true } : HybridProcessor ℚ) with
          ctrl := { ControlState.default with aiMode := "onnx" } }
        { Li := [1 / 2, 1 / 4], Ri := some [1 / 2, 1 / 3], Lo := [0, 0], Ro := [0, 0] }).bufs
      = (HybridProcessor.process JsMath.sample
        { ({ HybridProcessor.new with workerPort := true } : HybridProcessor ℚ) with
          ctrl := { ControlState.default with aiMode := "proxy" } }
        { Li := [1 / 2, 1 / 4], Ri := some [1 / 2, 1 / 3], Lo := [0, 0], Ro := [0, 0] }).bufs :=
  (mode_equivalence_empty_queues JsMath.sample
    ({ HybridProcessor.new with workerPort := true } : HybridProcessor ℚ)
    { Li := [1 / 2, 1 / 4], Ri := some [1 / 2, 1 / 3], Lo := [0, 0], Ro := [0, 0] }
    ⟨rfl, rfl, rfl⟩ (by decide) rfl rfl).1

/-- C5 (underrun discard): in a quantum of size `N` rendered with
`aiMode = "onnx"` in which the voice queue or the background queue holds fewer
than `N` frames (so that `consumeStereo` delivers fewer than `N`, a partial
fill included), the channel arrays and the separator state after `process` are
those of the heuristic path run on the same input, control record and
separator state (that is, of `process` in PROXY mode); the output is therefore
the same whatever the queues held. -/
theorem underrun_discard (M : JsMath α) (p : HybridProcessor α) (b : Bufs α)
    (hq : b.Quantum) (hmode : p.ctrl.aiMode = "onnx")
    (hunder : framesBuffered p.voiceQueue < b.Li.length ∨
      framesBuffered p.bgQueue < b.Li.length) :
    (p.process M b).bufs = (p.inline.processBlock M b p.ctrl).bufs ∧
    (p.process M b).proc.inline = (p.inline.processBlock M b p.ctrl).sep ∧
    (p.process M b).bufs
      = (HybridProcessor.process M { p with ctrl := { p.ctrl with aiMode := "proxy" } } b).bufs ∧
    (∀ q : HybridProcessor α, q.ctrl = p.ctrl → q.inline = p.inline →
      (framesBuffered q.voiceQueue < b.Li.length ∨ framesBuffered q.bgQueue < b.Li.length) →
      (q.process M b).bufs = (p.process M b).bufs) := by
  have hall : ∀ q : HybridProcessor α, q.ctrl.aiMode = "onnx" →
      (framesBuffered q.voiceQueue < b.Li.length ∨ framesBuffered q.bgQueue < b.Li.length) →
      (q.process M b).bufs = (q.inline.processBlock M b q.ctrl).bufs ∧
      (q.process M b).proc.inline = (q.inline.processBlock M b q.ctrl).sep := by
    intro q hqm hu
    by_cases hport : q.workerPort = true
    · exact process_underrun M q b hq hport hqm hu
    · exact process_proxy M q b (fun hc => hport hc.1)
  have h := hall p hmode hunder
  have hproxy := process_proxy M { p with ctrl := { p.ctrl with aiMode := "proxy" } } b
    (by simp)
  refine ⟨h.1, h.2, ?_, ?_⟩
  · rw [h.1, hproxy.1]
    simp only [processBlock_aiMode]
  · intro q hc hi hu
    have hq2 := hall q (by rw [hc]; exact hmode) hu
    rw [hq2.1, h.1, hc, hi]

theorem underrun_discard_witness :
    (({ HybridProcessor.new with
          workerPort := true
          ctrl := { ControlState.default with aiMode := "onnx" }
          voiceQueue := { buffers := [[1, 1, 1, 1]], offset := 0 }
          bgQueue := { buffers := [[1, 1]], offset := 0 } } :
        HybridProcessor ℚ).process JsMath.sample
      { Li := [1 / 2, 1 / 4], Ri := none, Lo := [0, 0], Ro := [0, 0] }).bufs
      = ((InlineSeparator.new : InlineSeparator ℚ).processBlock JsMath.sample
          { Li := [1 / 2, 1 / 4], Ri := none, Lo := [0, 0], Ro := [0, 0] }
          { ControlState.default with aiMode := "onnx" }).bufs :=
  (underrun_discard JsMath.sample
    ({ HybridProcessor.new with
          workerPort := true
          ctrl := { ControlState.default with aiMode := "onnx" }
          voiceQueue := { buffers := [[1, 1, 1, 1]], offset := 0 }
          bgQueue := { buffers := [[1, 1]], offset := 0 } } : HybridProcessor ℚ)
    { Li := [1 / 2, 1 / 4], Ri := none, Lo := [0, 0], Ro := [0, 0] }
    ⟨rfl, rfl, rfl⟩ rfl (Or.inr (by decide))).1

end ModeTheorems

section OlaTheorems
variable {α : Type} [LinearOrderedField α] {σ : Type}

theorem getD_set_add {β : Type} (l : List β) (i j : Nat) (a d : β) (h : i < l.length) :
    (l.set i a).getD j d = if j = i then a else l.getD j d := by
  simp only [List.getD_eq_getElem?_getD, List.getElem?_set, h, if_true]
  by_cases hij : i = j
  · subst hij; simp
  · have hji : ¬ j = i := fun hc => hij hc.symm
    simp [hij, hji]

/-- The accumulators after the accumulation loop, sample by sample. -/
theorem accumulate_getD (L R voice : List α) (o : OlaState α)
    (h1 : o.olaVoiceL.length = BLOCK) (h2 : o.olaVoiceR.length = BLOCK)
    (h3 : o.olaBgL.length = BLOCK) (h4 : o.olaBgR.length = BLOCK) (i : Nat) (hi : i < BLOCK) :
    (accumulate L R voice o).olaVoiceL.getD i 0 = o.olaVoiceL.getD i 0 + voice.getD (2 * i) 0 ∧
    (accumulate L R voice o).olaVoiceR.getD i 0
      = o.olaVoiceR.getD i 0 + voice.getD (2 * i + 1) 0 ∧
    (accumulate L R voice o).olaBgL.getD i 0
      = o.olaBgL.getD i 0 + (L.getD i 0 - voice.getD (2 * i) 0) ∧
    (accumulate L R voice o).olaBgR.getD i 0
      = o.olaBgR.getD i 0 + (R.getD i 0 - voice.getD (2 * i + 1) 0) := by
  have key := foldl_range_inv (accumulateStep L R voice)
    (fun k t => t.olaVoiceL.length = BLOCK ∧ t.olaVoiceR.length = BLOCK ∧
      t.olaBgL.length = BLOCK ∧ t.olaBgR.length = BLOCK ∧
      ∀ j, (t.olaVoiceL.getD j 0 = if j < k then o.olaVoiceL.getD j 0 + voice.getD (2 * j) 0
              else o.olaVoiceL.getD j 0) ∧
           (t.olaVoiceR.getD j 0 = if j < k then o.olaVoiceR.getD j 0 + voice.getD (2 * j + 1) 0
              else o.olaVoiceR.getD j 0) ∧
           (t.olaBgL.getD j 0 = if j < k then o.olaBgL.getD j 0 + (L.getD j 0 - voice.getD (2 * j) 0)
              else o.olaBgL.getD j 0) ∧
           (t.olaBgR.getD j 0 = if j < k then
              o.olaBgR.getD j 0 + (R.getD j 0 - voice.getD (2 * j + 1) 0)
              else o.olaBgR.getD j 0)) BLOCK ?_ o
    ⟨h1, h2, h3, h4, fun j => by simp⟩
  · have hk := key.2.2.2.2 i
    simp only [hi, if_true] at hk
    exact hk
  · intro k t hk ht
    obtain ⟨l1, l2, l3, l4, hj⟩ := ht
    refine ⟨by simp [accumulateStep, l1], by simp [accumulateStep, l2],
      by simp [accumulateStep, l3], by simp [accumulateStep, l4], ?_⟩
    intro j
    obtain ⟨a1, a2, a3, a4⟩ := hj j
    obtain ⟨b1, b2, b3, b4⟩ := hj k
    simp only [lt_irrefl, if_false] at b1 b2 b3 b4
    simp only [accumulateStep]
    rw [getD_set_add _ _ _ _ _ (by omega), getD_set_add _ _ _ _ _ (by omega),
      getD_set_add _ _ _ _ _ (by omega), getD_set_add _ _ _ _ _ (by omega)]
    by_cases hjk : j = k
    · subst hjk
      simp only [if_true, Nat.lt_succ_self, b1, b2, b3, b4, and_self]
    · have hlt : (j < k + 1) = (j < k) := by
        apply propext
        constructor
        · intro h; omega
        · intro h; omega
      simp only [hjk, if_false, hlt]
      exact ⟨a1, a2, a3, a4⟩

theorem windowL_getD (M : JsMath α) (inBuf : List α) (i : Nat) (hi : i < BLOCK) :
    (windowL M inBuf).getD i 0 = inBuf.getD (2 * i) 0 * WIN M i := by
  simp [windowL, List.getElem?_range hi, hi]

theorem windowR_getD (M : JsMath α) (inBuf : List α) (i : Nat) (hi : i < BLOCK) :
    (windowR M inBuf).getD i 0 = inBuf.getD (2 * i + 1) 0 * WIN M i := by
  simp [windowR, List.getElem?_range hi, hi]

/-- C9 (voice plus background reconstruct the windowed input): for a window
of the PROCESS loop (`inBuf` holds at least `2 * BLOCK` samples, the four
accumulators have length `BLOCK`) and every array `voice` returned by the model
call, the amount added to the voice accumulator plus the amount added to the
background accumulator at sample `i < BLOCK` is the analysis-windowed input,
`inBuf[2i] * WIN[i]` on the left and `inBuf[2i+1] * WIN[i]` on the right; this
holds in particular for whatever `runModelStereo` returns (model output or
passthrough) when the window is processed. -/
theorem voice_plus_background_is_windowed_input (M : JsMath α) (S : Session α σ) (st : σ)
    (ioNames : Option IoNames) (inBuf : List α) (o : OlaState α)
    (_hin : 2 * BLOCK ≤ inBuf.length)
    (h1 : o.olaVoiceL.length = BLOCK) (h2 : o.olaVoiceR.length = BLOCK)
    (h3 : o.olaBgL.length = BLOCK) (h4 : o.olaBgR.length = BLOCK) :
    (∀ (voice : List α) (i : Nat), i < BLOCK →
      ((accumulate (windowL M inBuf) (windowR M inBuf) voice o).olaVoiceL.getD i 0
          - o.olaVoiceL.getD i 0)
        + ((accumulate (windowL M inBuf) (windowR M inBuf) voice o).olaBgL.getD i 0
          - o.olaBgL.getD i 0) = inBuf.getD (2 * i) 0 * WIN M i ∧
      ((accumulate (windowL M inBuf) (windowR M inBuf) voice o).olaVoiceR.getD i 0
          - o.olaVoiceR.getD i 0)
        + ((accumulate (windowL M inBuf) (windowR M inBuf) voice o).olaBgR.getD i 0
          - o.olaBgR.getD i 0) = inBuf.getD (2 * i + 1) 0 * WIN M i) ∧
    (∀ (o2 : OlaState α), (processWindow M S st ioNames inBuf o).2 = some o2 →
      ∀ i, i < BLOCK →
        (o2.olaVoiceL.getD i 0 - o.olaVoiceL.getD i 0)
          + (o2.olaBgL.getD i 0 - o.olaBgL.getD i 0) = inBuf.getD (2 * i) 0 * WIN M i ∧
        (o2.olaVoiceR.getD i 0 - o.olaVoiceR.getD i 0)
          + (o2.olaBgR.getD i 0 - o.olaBgR.getD i 0) = inBuf.getD (2 * i + 1) 0 * WIN M i) := by
  have main : ∀ (voice : List α) (i : Nat), i < BLOCK →
      ((accumulate (windowL M inBuf) (windowR M inBuf) voice o).olaVoiceL.getD i 0
          - o.olaVoiceL.getD i 0)
        + ((accumulate (windowL M inBuf) (windowR M inBuf) voice o).olaBgL.getD i 0
          - o.olaBgL.getD i 0) = inBuf.getD (2 * i) 0 * WIN M i ∧
      ((accumulate (windowL M inBuf) (windowR M inBuf) voice o).olaVoiceR.getD i 0
          - o.olaVoiceR.getD i 0)
        + ((accumulate (windowL M inBuf) (windowR M inBuf) voice o).olaBgR.getD i 0
          - o.olaBgR.getD i 0) = inBuf.getD (2 * i + 1) 0 * WIN M i := by
    intro voice i hi
    obtain ⟨a1, a2, a3, a4⟩ :=
      accumulate_getD (windowL M inBuf) (windowR M inBuf) voice o h1 h2 h3 h4 i hi
    rw [a1, a2, a3, a4, windowL_getD M inBuf i hi, windowR_getD M inBuf i hi]
    constructor <;> ring
  refine ⟨main, ?_⟩
  intro o2 ho2 i hi
  simp only [processWindow, Option.map_eq_some'] at ho2
  obtain ⟨voice, _, hv⟩ := ho2
  rw [← hv]
  exact main voice i hi

end OlaTheorems

section WindowTheorems

theorem voice_plus_background_is_windowed_input_witness :
    ((2 * BLOCK ≤ (List.replicate (2 * BLOCK) (1 : ℚ)).length) ∧
      (List.replicate BLOCK (0 : ℚ)).length = BLOCK) ∧
    ((accumulate (windowL JsMath.sample (List.replicate (2 * BLOCK) (1 : ℚ)))
          (windowR JsMath.sample (List.replicate (2 * BLOCK) (1 : ℚ))) [1 / 2, 1 / 3]
          { olaVoiceL := List.replicate BLOCK 0, olaVoiceR := List.replicate BLOCK 0,
            olaBgL := List.replicate BLOCK 0, olaBgR := List.replicate BLOCK 0 }).olaVoiceL.getD 0 0
        - (List.replicate BLOCK (0 : ℚ)).getD 0 0)
      + ((accumulate (windowL JsMath.sample (List.replicate (2 * BLOCK) (1 : ℚ)))
          (windowR JsMath.sample (List.replicate (2 * BLOCK) (1 : ℚ))) [1 / 2, 1 / 3]
          { olaVoiceL := List.replicate BLOCK 0, olaVoiceR := List.replicate BLOCK 0,
            olaBgL := List.replicate BLOCK 0, olaBgR := List.replicate BLOCK 0 }).olaBgL.getD 0 0
        - (List.replicate BLOCK (0 : ℚ)).getD 0 0)
      = (List.replicate (2 * BLOCK) (1 : ℚ)).getD (2 * 0) 0 * WIN JsMath.sample 0 :=
  ⟨⟨by simp, by simp⟩,
   ((voice_plus_background_is_windowed_input JsMath.sample
      ({ run := fun st _ _ => (none, st) } : Session ℚ Unit) () none
      (List.replicate (2 * BLOCK) (1 : ℚ))
      { olaVoiceL := List.replicate BLOCK 0, olaVoiceR := List.replicate BLOCK 0,
        olaBgL := List.replicate BLOCK 0, olaBgR := List.replicate BLOCK 0 }
      (by simp) (by simp) (by simp) (by simp) (by simp)).1 [1 / 2, 1 / 3] 0 (by decide)).1⟩

/-- The window at sample `i` over the reals, with `Math.cos` and `Math.PI` the
real cosine and `π`. -/
theorem WIN_real (sq : ℝ → ℝ) (pw : ℝ → ℝ → ℝ) (i : Nat) :
    WIN ({ sqrt := sq, pow := pw, cos := Real.cos, pi := Real.pi } : JsMath ℝ) i
      = 0.5 * (1 - Real.cos (2 * Real.pi * (i : ℝ) / 4095)) := by
  simp only [WIN, BLOCK]
  norm_num

/-- C10: the window used at analysis and at synthesis does not satisfy the
constant-overlap-add condition at the 50 % hop.  With the real cosine, the
effective window `WIN[i]^2 + WIN[i + HOP]^2` exceeds `0.98` at `i = 0` and
stays below `0.52` at `i = 1024`, so it is not the same for every
`i` in `[0, HOP)`. -/
theorem hann_squared_overlap_not_constant (sq : ℝ → ℝ) (pw : ℝ → ℝ → ℝ) :
    (0.98 : ℝ) <
        WIN ({ sqrt := sq, pow := pw, cos := Real.cos, pi := Real.pi } : JsMath ℝ) 0 ^ 2
        + WIN ({ sqrt := sq, pow := pw, cos := Real.cos, pi := Real.pi } : JsMath ℝ) (0 + HOP) ^ 2 ∧
    WIN ({ sqrt := sq, pow := pw, cos := Real.cos, pi := Real.pi } : JsMath ℝ) 1024 ^ 2
        + WIN ({ sqrt := sq, pow := pw, cos := Real.cos, pi := Real.pi } : JsMath ℝ)
            (1024 + HOP) ^ 2 < (0.52 : ℝ) ∧
    ¬ (∀ i, i < HOP →
        WIN ({ sqrt := sq, pow := pw, cos := Real.cos, pi := Real.pi } : JsMath ℝ) i ^ 2
          + WIN ({ sqrt := sq, pow := pw, cos := Real.cos, pi := Real.pi } : JsMath ℝ)
              (i + HOP) ^ 2
        = WIN ({ sqrt := sq, pow := pw, cos := Real.cos, pi := Real.pi } : JsMath ℝ) 0 ^ 2
          + WIN ({ sqrt := sq, pow := pw, cos := Real.cos, pi := Real.pi } : JsMath ℝ)
              (0 + HOP) ^ 2) := by
  have hpi0 : 0 < Real.pi := Real.pi_pos
  have hpi4 : Real.pi ≤ 4 := Real.pi_le_four
  have hHOP : HOP = 2048 := by decide
  -- sample 0
  have w0 : WIN ({ sqrt := sq, pow := pw, cos := Real.cos, pi := Real.pi } : JsMath ℝ) 0 = 0 := by
    rw [WIN_real]; simp
  -- sample HOP: angle pi + pi / 4095
  have a1 : 2 * Real.pi * ((0 + 2048 : ℕ) : ℝ) / 4095 = Real.pi / 4095 + Real.pi := by
    push_cast; ring
  have c1 : 1 - (Real.pi / 4095) ^ 2 / 2 ≤ Real.cos (Real.pi / 4095) :=
    Real.one_sub_sq_div_two_le_cos
  have x1 : (Real.pi / 4095) ^ 2 / 2 ≤ 0.001 := by
    have : Real.pi / 4095 ≤ 4 / 4095 := by
      apply div_le_div_of_nonneg_right hpi4; norm_num
    have h0 : 0 ≤ Real.pi / 4095 := by positivity
    have : (Real.pi / 4095) ^ 2 ≤ (4 / 4095) ^ 2 := by
      exact pow_le_pow_left₀ h0 this 2
    norm_num at this ⊢
    linarith
  have w1 : 0.999 ≤
      WIN ({ sqrt := sq, pow := pw, cos := Real.cos, pi := Real.pi } : JsMath ℝ) (0 + 2048) := by
    rw [WIN_real, a1, Real.cos_add_pi]
    norm_num at x1 ⊢
    linarith
  -- sample 1024: angle pi / 2 + pi / 8190
  have a2 : 2 * Real.pi * ((1024 : ℕ) : ℝ) / 4095 = Real.pi / 8190 + Real.pi / 2 := by
    push_cast; ring
  have s2lo : 0 ≤ Real.sin (Real.pi / 8190) :=
    Real.sin_nonneg_of_nonneg_of_le_pi (by positivity) (by linarith)
  have s2hi : Real.sin (Real.pi / 8190) ≤ Real.pi / 8190 := Real.sin_le (by positivity)
  have w2 : WIN ({ sqrt := sq, pow := pw, cos := Real.cos, pi := Real.pi } : JsMath ℝ) 1024
      ≤ 0.501 ∧
      0 ≤ WIN ({ sqrt := sq, pow := pw, cos := Real.cos, pi := Real.pi } : JsMath ℝ) 1024 := by
    rw [WIN_real, a2, Real.cos_add_pi_div_two]
    constructor
    · norm_num
      linarith
    · norm_num
      linarith
  -- sample 1024 + HOP: angle 3 pi / 2 + 3 pi / 8190
  have a3 : 2 * Real.pi * ((1024 + 2048 : ℕ) : ℝ) / 4095
      = (3 * Real.pi / 8190 + Real.pi / 2) + Real.pi := by
    push_cast; ring
  have s3lo : 0 ≤ Real.sin (3 * Real.pi / 8190) :=
    Real.sin_nonneg_of_nonneg_of_le_pi (by positivity) (by linarith)
  have s3hi : Real.sin (3 * Real.pi / 8190) ≤ 3 * Real.pi / 8190 := Real.sin_le (by positivity)
  have w3 : WIN ({ sqrt := sq, pow := pw, cos := Real.cos, pi := Real.pi } : JsMath ℝ)
        (1024 + 2048) ≤ 0.5 ∧
      0 ≤ WIN ({ sqrt := sq, pow := pw, cos := Real.cos, pi := Real.pi } : JsMath ℝ)
        (1024 + 2048) := by
    rw [WIN_real, a3, Real.cos_add_pi, Real.cos_add_pi_div_two]
    constructor
    · norm_num
      linarith
    · norm_num
      linarith
  rw [hHOP]
  have e1 : (0.98 : ℝ) <
      WIN ({ sqrt := sq, pow := pw, cos := Real.cos, pi := Real.pi } : JsMath ℝ) 0 ^ 2
      + WIN ({ sqrt := sq, pow := pw, cos := Real.cos, pi := Real.pi } : JsMath ℝ) (0 + 2048) ^ 2 := by
    rw [w0]
    nlinarith [w1]
  have e2 : WIN ({ sqrt := sq, pow := pw, cos := Real.cos, pi := Real.pi } : JsMath ℝ) 1024 ^ 2
      + WIN ({ sqrt := sq, pow := pw, cos := Real.cos, pi := Real.pi } : JsMath ℝ)
          (1024 + 2048) ^ 2 < (0.52 : ℝ) := by
    nlinarith [w2.1, w2.2, w3.1, w3.2]
  refine ⟨e1, e2, ?_⟩
  intro hall
  have := hall 1024 (by norm_num)
  linarith

end WindowTheorems

section ControlPlaneTheorems
variable {α : Type} [LinearOrderedField α] {σ : Type}

/-- The three normalising assignments store `norm(value)` for a gain key that
is in the patch. -/
theorem normGains_gain (control : Obj α) (k : String) (v : JsVal α)
    (hk : k = "masterGain" ∨ k = "voiceGain" ∨ k = "bgGain") (h : control k = some v) :
    normGains control k = some (JsVal.num (norm v)) := by
  have set_self : ∀ (o : Obj α) (u : JsVal α), o k = some u →
      normField o k k = some (JsVal.num (norm u)) := by
    intro o u hu
    simp [normField, hu, Obj.set]
  rcases hk with hk | hk | hk
  · subst hk
    unfold normGains
    rw [normField_other _ _ _ (by decide), normField_other _ _ _ (by decide)]
    exact set_self control v h
  · subst hk
    unfold normGains
    rw [normField_other _ _ _ (by decide)]
    exact set_self _ v (by rw [normField_other _ _ _ (by decide)]; exact h)
  · subst hk
    unfold normGains
    exact set_self _ v (by
      rw [normField_other _ _ _ (by decide), normField_other _ _ _ (by decide)]; exact h)

/-- A key that is not a gain key passes through the normalising assignments. -/
theorem normGains_other (control : Obj α) (k : String)
    (h1 : k ≠ "masterGain") (h2 : k ≠ "voiceGain") (h3 : k ≠ "bgGain") :
    normGains control k = control k := by
  unfold normGains
  rw [normField_other _ _ _ h3, normField_other _ _ _ h2, normField_other _ _ _ h1]

theorem onControl_present (c p : Obj α) (k : String) (v : JsVal α)
    (h : normGains p k = some v) : onControl c (some p) k = some v := by
  simp [onControl, Obj.spread, h]

theorem norm_of_not_number (v : JsVal α) (h : ∀ x, v ≠ JsVal.num x) : norm v = 1 := by
  cases v with
  | num x => exact absurd rfl (h x)
  | undefined => rfl
  | null => rfl
  | bool b => rfl
  | str s => rfl

/-- C14 as stated fails: a gain that is not a number is not ignored but reset
to `1`.  With `voiceGain = 0.5` stored, the patch `{ voiceGain: null }` stores
`1`, which is neither a clamped patch value nor the prior value. -/
theorem control_gain_ignored_counterexample :
    ¬ (∀ (c p : Obj ℚ),
        (∃ x, p "voiceGain" = some (JsVal.num x) ∧
          onControl c (some p) "voiceGain" = some (JsVal.num (max 0 (min 2 x)))) ∨
        onControl c (some p) "voiceGain" = c "voiceGain") := by
  intro h
  have h1 := h (Obj.ofList [("voiceGain", JsVal.num (1 / 2))])
    (Obj.ofList [("voiceGain", JsVal.null)])
  have hp : (Obj.ofList [("voiceGain", JsVal.null)] : Obj ℚ) "voiceGain" = some JsVal.null := by
    simp [Obj.ofList, Obj.set]
  have hres := onControl_present (Obj.ofList [("voiceGain", JsVal.num (1 / 2 : ℚ))])
    (Obj.ofList [("voiceGain", JsVal.null)]) "voiceGain" _
    (normGains_gain _ "voiceGain" JsVal.null (Or.inr (Or.inl rfl)) hp)
  rcases h1 with ⟨x, hx, _⟩ | h2
  · rw [hp] at hx
    cases hx
  · rw [hres] at h2
    simp [Obj.ofList, Obj.set, norm] at h2

/-- C14 (amended): handling a CONTROL patch is a total function of the stored
record and the patch; a gain field (`masterGain`, `voiceGain`, `bgGain`) that
is in the patch is stored as `norm(value)`, which lies in `[0,2]`: a number up
to 4 clamped, a number above 4 divided by 100 and clamped, a value that is not
a number replaced by `1`; a gain field that is not in the patch keeps its
prior value.  The worker's CONTROL handler does the same for `voiceGain` and
`bgGain`. -/
theorem control_gain_normalised (c p : Obj α) (k : String)
    (hk : k = "masterGain" ∨ k = "voiceGain" ∨ k = "bgGain") :
    (p k = none → onControl c (some p) k = c k) ∧
    (∀ v, p k = some v →
      onControl c (some p) k = some (JsVal.num (norm v)) ∧ 0 ≤ norm v ∧ norm v ≤ 2) ∧
    (∀ x : α, x ≤ 4 → norm (JsVal.num x) = max 0 (min 2 x)) ∧
    (∀ x : α, 4 < x → norm (JsVal.num x) = max 0 (min 2 (x / 100))) ∧
    (∀ v : JsVal α, (∀ x, v ≠ JsVal.num x) → norm v = 1) ∧
    (∀ (wc : WorkerCtrl α),
      (p "voiceGain" = none → (wc.onControl p).voiceGain = wc.voiceGain) ∧
      (∀ v, p "voiceGain" = some v → (wc.onControl p).voiceGain = norm v) ∧
      (p "bgGain" = none → (wc.onControl p).bgGain = wc.bgGain) ∧
      (∀ v, p "bgGain" = some v → (wc.onControl p).bgGain = norm v)) := by
  refine ⟨?_, ?_, ?_, ?_, norm_of_not_number, ?_⟩
  · intro h
    simp [onControl, Obj.spread, normGains_absent p k h]
  · intro v hv
    exact ⟨onControl_present c p k _ (normGains_gain p k v hk hv), norm_range v⟩
  · intro x hx; simp [norm, not_lt.mpr hx]
  · intro x hx; simp [norm, hx]
  · intro wc
    refine ⟨?_, ?_, ?_, ?_⟩
    · intro h; simp [WorkerCtrl.onControl, h]
    · intro v h
      have : sepWorkerNorm v = norm v := by cases v <;> rfl
      simp [WorkerCtrl.onControl, h, this]
    · intro h; simp [WorkerCtrl.onControl, h]
    · intro v h
      have : sepWorkerNorm v = norm v := by cases v <;> rfl
      simp [WorkerCtrl.onControl, h, this]

theorem control_gain_normalised_witness :
    ("voiceGain" = "masterGain" ∨ "voiceGain" = "voiceGain" ∨ "voiceGain" = "bgGain") ∧
    (Obj.ofList [("voiceGain", JsVal.str "loud")] : Obj ℚ) "voiceGain"
      = some (JsVal.str "loud") ∧
    onControl (Obj.ofList [("voiceGain", JsVal.num (1 / 2 : ℚ))])
        (some (Obj.ofList [("voiceGain", JsVal.str "loud")])) "voiceGain"
      = some (JsVal.num (norm (JsVal.str "loud"))) :=
  ⟨Or.inr (Or.inl rfl), by simp [Obj.ofList, Obj.set],
   ((control_gain_normalised (Obj.ofList [("voiceGain", JsVal.num (1 / 2 : ℚ))])
      (Obj.ofList [("voiceGain", JsVal.str "loud")]) "voiceGain"
      (Or.inr (Or.inl rfl))).2.1 (JsVal.str "loud") (by simp [Obj.ofList, Obj.set])).1⟩

end ControlPlaneTheorems

section ControlPlaneTheorems2
variable {α : Type} [LinearOrderedField α] {σ : Type}

/-- A key of the patch that is not a gain key is stored as sent. -/
theorem onControl_raw (c p : Obj α) (k : String) (v : JsVal α)
    (h1 : k ≠ "masterGain") (h2 : k ≠ "voiceGain") (h3 : k ≠ "bgGain") (h : p k = some v) :
    onControl c (some p) k = some v :=
  onControl_present c p k v (by rw [normGains_other p k h1 h2 h3]; exact h)

theorem popupCut_range (x : α) : 0 ≤ popupCut x ∧ popupCut x ≤ 1 := by
  unfold popupCut
  constructor
  · exact div_nonneg (le_max_left _ _) (by norm_num)
  · rw [div_le_one (by norm_num)]
    exact max_le (by norm_num) (min_le_left _ _)

/-- C13 as stated fails: the CONTROL handler stores `musicCut` as sent.  The
patch `{ musicCut: 1.5 }` leaves `1.5` in the control record that
`processBlock` reads. -/
theorem cut_clamped_counterexample :
    ¬ (∀ (w : Worklet ℚ) (patch : Obj ℚ) (x : ℚ), patch "musicCut" = some (JsVal.num x) →
        0 ≤ (w.onControl (some patch)).1.proc.ctrl.musicCut ∧
        (w.onControl (some patch)).1.proc.ctrl.musicCut ≤ 1) := by
  intro h
  have hp : (Obj.ofList [("musicCut", JsVal.num (3 / 2))] : Obj ℚ) "musicCut"
      = some (JsVal.num (3 / 2)) := by
    simp [Obj.ofList, Obj.set]
  have h1 := (h Worklet.new (Obj.ofList [("musicCut", JsVal.num (3 / 2))]) (3 / 2) hp).2
  have hst := onControl_raw (initialCtrl : Obj ℚ) (Obj.ofList [("musicCut", JsVal.num (3 / 2))])
    "musicCut" (JsVal.num (3 / 2)) (by decide) (by decide) (by decide) hp
  simp only [Worklet.onControl, ControlState.ofObj, Obj.numOr, Worklet.new, hst] at h1
  norm_num at h1

/-- C13 (amended): a CONTROL patch that carries a numeric `musicCut`, `sfxCut`
or `duckDepth` leaves exactly that number in the control record that
`processBlock` reads (the handler does not clamp these fields), so the stored
value lies in `[0,1]` when the value sent does; the values `music` and `sfx`
that the popup's `collectControl` sends lie in `[0,1]`. -/
theorem cut_stored_as_sent (w : Worklet α) (patch : Obj α) (x : α) :
    (patch "musicCut" = some (JsVal.num x) →
      (w.onControl (some patch)).1.proc.ctrl.musicCut = x) ∧
    (patch "sfxCut" = some (JsVal.num x) →
      (w.onControl (some patch)).1.proc.ctrl.sfxCut = x) ∧
    (patch "duckDepth" = some (JsVal.num x) →
      (w.onControl (some patch)).1.proc.ctrl.duckDepth = some x) ∧
    (0 ≤ popupCut x ∧ popupCut x ≤ 1) := by
  refine ⟨?_, ?_, ?_, popupCut_range x⟩
  · intro h
    have hst := onControl_raw w.ctrlObj patch "musicCut" _ (by decide) (by decide) (by decide) h
    simp only [Worklet.onControl, ControlState.ofObj, Obj.numOr, hst]
  · intro h
    have hst := onControl_raw w.ctrlObj patch "sfxCut" _ (by decide) (by decide) (by decide) h
    simp only [Worklet.onControl, ControlState.ofObj, Obj.numOr, hst]
  · intro h
    have hst := onControl_raw w.ctrlObj patch "duckDepth" _ (by decide) (by decide) (by decide) h
    simp only [Worklet.onControl, ControlState.ofObj, Obj.numOpt, hst]

theorem cut_stored_as_sent_witness :
    (Obj.ofList [("duckDepth", JsVal.num (-1 / 5))] : Obj ℚ) "duckDepth"
      = some (JsVal.num (-1 / 5)) ∧
    ((Worklet.new : Worklet ℚ).onControl
        (some (Obj.ofList [("duckDepth", JsVal.num (-1 / 5))]))).1.proc.ctrl.duckDepth
      = some (-1 / 5) :=
  ⟨by simp [Obj.ofList, Obj.set],
   (cut_stored_as_sent (Worklet.new : Worklet ℚ)
      (Obj.ofList [("duckDepth", JsVal.num (-1 / 5))]) (-1 / 5)).2.2.1
      (by simp [Obj.ofList, Obj.set])⟩

end ControlPlaneTheorems2

section ModeSwitchTheorems
variable {α : Type} [LinearOrderedField α] {σ : Type}

/-- The CONTROL handler of the worklet touches `this.ctrl` only. -/
theorem worklet_onControl_keeps (w : Worklet α) (control : Option (Obj α)) :
    (w.onControl control).1.proc.voiceQueue = w.proc.voiceQueue ∧
    (w.onControl control).1.proc.bgQueue = w.proc.bgQueue ∧
    (w.onControl control).1.proc.inline = w.proc.inline ∧
    (w.onControl control).1.proc.tmpBg = w.proc.tmpBg ∧
    (w.onControl control).1.proc.workerPort = w.proc.workerPort := by
  cases control with
  | none => exact ⟨rfl, rfl, rfl, rfl, rfl⟩
  | some c => exact ⟨rfl, rfl, rfl, rfl, rfl⟩

/-- The CONTROL handler of the worker touches `ctrl` only. -/
theorem worker_onControl_keeps (w : SepWorker α σ) (control : Option (Obj α)) :
    (w.onControl control).inBuf = w.inBuf ∧ (w.onControl control).ola = w.ola ∧
    (w.onControl control).ioNames = w.ioNames ∧ (w.onControl control).session = w.session ∧
    (w.onControl control).ready = w.ready := by
  cases control with
  | none => exact ⟨rfl, rfl, rfl, rfl, rfl⟩
  | some c => exact ⟨rfl, rfl, rfl, rfl, rfl⟩

/-- A quantum rendered outside the NEURAL branch leaves the stem queues alone. -/
theorem process_proxy_keeps_queues (M : JsMath α) (p : HybridProcessor α) (b : Bufs α)
    (h : ¬ (p.workerPort = true ∧ p.ctrl.aiMode = "onnx")) :
    (p.process M b).proc.voiceQueue = p.voiceQueue ∧
    (p.process M b).proc.bgQueue = p.bgQueue ∧ (p.process M b).posted = none := by
  simp only [HybridProcessor.process, if_neg h, and_self]

theorem initialCtrl_mode : ControlState.ofObj (initialCtrl : Obj α) = ControlState.default := by
  simp [ControlState.ofObj, initialCtrl, Obj.ofList, Obj.set, Obj.empty, Obj.numOr, Obj.numOpt,
    Obj.truthy, Obj.strOr, JsVal.truthy, ControlState.default]

end ModeSwitchTheorems

section DuckingTheorems

/-- C16 as stated fails: with `duckPower = 0` the attenuation is the constant
`duckDepth` (`Math.pow(w, 0) = 1`), the same at `wSmooth = 0` and at
`wSmooth = 1`. -/
theorem ducking_monotone_counterexample :
    ¬ (∀ (ctrl : ControlState ℝ) (w1 w2 : ℝ), 0 ≤ w1 → w1 < w2 → w2 ≤ 1 →
        duckAtten ({ sqrt := Real.sqrt, pow := (fun x y => x ^ y), cos := Real.cos, pi := Real.pi } :
            JsMath ℝ) ctrl w1
          < duckAtten ({ sqrt := Real.sqrt, pow := (fun x y => x ^ y), cos := Real.cos, pi := Real.pi } :
            JsMath ℝ) ctrl w2) := by
  intro h
  have h1 := h { ControlState.default with duckPower := some 0 } 0 1 (le_refl 0)
    (by norm_num) (le_refl 1)
  simp [duckAtten, ControlState.default] at h1

/-- C16 (amended): with `Math.pow` the real power function, a positive
`duckDepth` and a positive `duckPower` (the defaults `0.75` and `1.6` are
positive), `duckAtten = duckDepth * wSmooth ^ duckPower` is strictly increasing
in `wSmooth` on the non-negative reals, hence on `[0,1]`. -/
theorem ducking_monotone (sq cs : ℝ → ℝ) (p : ℝ) (ctrl : ControlState ℝ) (w1 w2 : ℝ)
    (hdepth : 0 < ctrl.duckDepth.getD 0.75) (hpower : 0 < ctrl.duckPower.getD 1.6)
    (h0 : 0 ≤ w1) (hlt : w1 < w2) :
    duckAtten ({ sqrt := sq, pow := (fun x y => x ^ y), cos := cs, pi := p } : JsMath ℝ) ctrl w1
      < duckAtten ({ sqrt := sq, pow := (fun x y => x ^ y), cos := cs, pi := p } : JsMath ℝ)
          ctrl w2 := by
  simp only [duckAtten]
  exact mul_lt_mul_of_pos_left (Real.rpow_lt_rpow h0 hlt hpower) hdepth

theorem ducking_monotone_witness :
    (0 < (ControlState.default : ControlState ℝ).duckDepth.getD 0.75 ∧
      0 < (ControlState.default : ControlState ℝ).duckPower.getD 1.6 ∧
      (0 : ℝ) ≤ 1 / 4 ∧ (1 / 4 : ℝ) < 1 / 2) ∧
    duckAtten ({ sqrt := Real.sqrt, pow := (fun x y => x ^ y), cos := Real.cos, pi := Real.pi } :
            JsMath ℝ) ControlState.default (1 / 4)
      < duckAtten ({ sqrt := Real.sqrt, pow := (fun x y => x ^ y), cos := Real.cos, pi := Real.pi } :
            JsMath ℝ) ControlState.default (1 / 2) :=
  ⟨⟨by norm_num [ControlState.default], by norm_num [ControlState.default], by norm_num,
      by norm_num⟩,
   ducking_monotone Real.sqrt Real.cos Real.pi ControlState.default (1 / 4) (1 / 2)
     (by norm_num [ControlState.default]) (by norm_num [ControlState.default]) (by norm_num)
     (by norm_num)⟩

end DuckingTheorems

section PairLemmas

/-- Length of an array filled two entries per index. -/
theorem length_flatMap_pair {β : Type} (f g : Nat → β) (n : Nat) :
    ((List.range n).flatMap (fun i => [f i, g i])).length = 2 * n := by
  induction n with
  | zero => rfl
  | succ n ih =>
    rw [List.range_succ, List.flatMap_append, List.length_append, ih]
    simp [List.flatMap_singleton]
    omega

/-- Entries `2i` and `2i+1` of an array filled two entries per index. -/
theorem getElem?_flatMap_pair {β : Type} (f g : Nat → β) (n i : Nat) (h : i < n) :
    ((List.range n).flatMap (fun i => [f i, g i]))[2 * i]? = some (f i) ∧
    ((List.range n).flatMap (fun i => [f i, g i]))[2 * i + 1]? = some (g i) := by
  induction n with
  | zero => omega
  | succ n ih =>
    rw [List.range_succ, List.flatMap_append]
    by_cases hi : i < n
    · have hl := length_flatMap_pair f g n
      rw [List.getElem?_append_left (by rw [hl]; omega),
        List.getElem?_append_left (by rw [hl]; omega)]
      exact ih hi
    · have hin : i = n := by omega
      subst hin
      have hl := length_flatMap_pair f g i
      rw [List.getElem?_append_right (by rw [hl]), List.getElem?_append_right (by rw [hl]; omega),
        hl]
      simp [List.flatMap_singleton]

/-- Entries `2i` and `2i+1`, read with a default. -/
theorem getD_flatMap_pair {β : Type} (f g : Nat → β) (n i : Nat) (h : i < n) (d : β) :
    ((List.range n).flatMap (fun i => [f i, g i])).getD (2 * i) d = f i ∧
    ((List.range n).flatMap (fun i => [f i, g i])).getD (2 * i + 1) d = g i := by
  have hp := getElem?_flatMap_pair f g n i h
  rw [List.getD_eq_getElem?_getD, List.getD_eq_getElem?_getD, hp.1, hp.2]
  exact ⟨rfl, rfl⟩

end PairLemmas

section WorkerTheorems
variable {α : Type} [LinearOrderedField α] {σ : Type}

theorem passthroughStereo_getD (L R : List α) (i : Nat) (h : i < BLOCK) :
    (passthroughStereo L R).getD (2 * i) 0 = L.getD i 0 ∧
    (passthroughStereo L R).getD (2 * i + 1) 0 = R.getD i 0 :=
  getD_flatMap_pair (fun i => L.getD i 0) (fun i => R.getD i 0) BLOCK i h 0

theorem hopFragment_length (olaL olaR : List α) : (hopFragment olaL olaR).length = 2 * HOP :=
  length_flatMap_pair _ _ HOP

theorem windowLoop_done (M : JsMath α) (S : Session α σ) (s : WindowLoop α σ)
    (h : ¬ 2 * BLOCK ≤ s.inBuf.length) : windowLoop M S s = s := by
  rw [windowLoop, if_neg h]

theorem windowLoop_throw (M : JsMath α) (S : Session α σ) (s : WindowLoop α σ)
    (h : 2 * BLOCK ≤ s.inBuf.length) (r : RunModel α σ)
    (hr : processWindow M S s.state s.ioNames s.inBuf s.ola = (r, none)) :
    windowLoop M S s = { s with state := r.state, ioNames := r.ioNames, threw := true } := by
  rw [windowLoop, if_pos h]
  split
  · rename_i r2 heq
    rw [hr] at heq
    cases heq
    rfl
  · rename_i r2 acc heq
    rw [hr] at heq
    cases heq

theorem windowLoop_next (M : JsMath α) (S : Session α σ) (s : WindowLoop α σ)
    (h : 2 * BLOCK ≤ s.inBuf.length) (r : RunModel α σ) (acc : OlaState α)
    (hr : processWindow M S s.state s.ioNames s.inBuf s.ola = (r, some acc)) :
    windowLoop M S s = windowLoop M S (s.next r acc) := by
  rw [windowLoop, if_pos h]
  split
  · rename_i r2 heq
    rw [hr] at heq
    cases heq
  · rename_i r2 acc2 heq
    rw [hr] at heq
    cases heq
    rfl

/-- An invariant of one loop iteration, and of the abort when the model call
throws, is an invariant of the window loop. -/
theorem windowLoop_inv (M : JsMath α) (S : Session α σ) (P : WindowLoop α σ → Prop)
    (hnext : ∀ (s : WindowLoop α σ) (r : RunModel α σ) (acc : OlaState α),
      2 * BLOCK ≤ s.inBuf.length → P s → P (s.next r acc))
    (hthrow : ∀ (s : WindowLoop α σ) (r : RunModel α σ), 2 * BLOCK ≤ s.inBuf.length → P s →
      P { s with state := r.state, ioNames := r.ioNames, threw := true })
    (s : WindowLoop α σ) (h : P s) : P (windowLoop M S s) := by
  induction s using @windowLoop.induct α _ σ M S with
  | case1 s hg r hr =>
    rw [windowLoop_throw M S s hg r hr]
    exact hthrow s r hg h
  | case2 s hg r acc hr ih =>
    rw [windowLoop_next M S s hg r acc hr]
    exact ih (hnext s r acc hg h)
  | case3 s hg =>
    rw [windowLoop_done M S s hg]
    exact h

end WorkerTheorems

section FailureTheorems
variable {α : Type} [LinearOrderedField α] {σ : Type}

/-- With cached tensor names, two failed `session.run` calls end in the
passthrough array. -/
theorem runModelCached_all_fail (M : JsMath α) (S : Session α σ)
    (hfail : ∀ st name data, (S.run st name data).1 = none) (st : σ) (names : IoNames)
    (L R : List α) :
    (runModelCached M S st names L R).out = some (passthroughStereo L R) ∧
    (runModelCached M S st names L R).ioNames = some names := by
  rcases h1 : S.run st names.inName (L ++ R) with ⟨o1, st1⟩
  have e1 := hfail st names.inName (L ++ R)
  rw [h1] at e1
  simp only at e1
  subst e1
  rcases h2 : S.run st1 "input_1" (L ++ R) with ⟨o2, st2⟩
  have e2 := hfail st1 "input_1" (L ++ R)
  rw [h2] at e2
  simp only at e2
  subst e2
  simp only [runModelCached, h1, h2, and_self]

/-- Without cached names a failed probe call leaves no returned array: the
rejection of line 179 is not caught. -/
theorem runModelStereo_probe_fail (M : JsMath α) (S : Session α σ) (st : σ) (L R : List α)
    (h : (S.run st "input" (L ++ R)).1 = none) :
    (runModelStereo M S st none L R).out = none ∧
    (runModelStereo M S st none L R).ioNames = none := by
  rcases h1 : S.run st "input" (L ++ R) with ⟨o1, st1⟩
  rw [h1] at h
  simp only at h
  subst h
  simp only [runModelStereo, h1, and_self]

/-- The PROCESS handler when the model call of the first window of the loop
throws: nothing is posted, `inBuf` keeps the appended chunk, the accumulators
are as before. -/
theorem onProcess_first_throw (M : JsMath α) (S : Session α σ) (w : SepWorker α σ) (st : σ)
    (chunk : List α) (hs : w.session = some st) (hr : w.ready = true)
    (hlen : 2 * BLOCK ≤ (w.inBuf ++ chunk).length)
    (hout : (runModelStereo M S st w.ioNames (windowL M (w.inBuf ++ chunk))
      (windowR M (w.inBuf ++ chunk))).out = none) :
    (w.onProcess M S chunk).2 = none ∧ (w.onProcess M S chunk).1.inBuf = w.inBuf ++ chunk ∧
    (w.onProcess M S chunk).1.ola = w.ola := by
  have hw := windowLoop_throw M S
    { state := st, ioNames := w.ioNames, inBuf := w.inBuf ++ chunk, ola := w.ola,
      outVoice := [], outBg := [], threw := false } hlen
    (runModelStereo M S st w.ioNames (windowL M (w.inBuf ++ chunk))
      (windowR M (w.inBuf ++ chunk)))
    (by simp only [processWindow, hout, Option.map_none'])
  simp only [SepWorker.onProcess, hs, hr, hw]
  simp

/-- The accumulators after a window whose model call returned the passthrough
array: the voice accumulators gain the windowed input, the background
accumulators are unchanged. -/
theorem accumulate_passthrough (M : JsMath α) (inBuf : List α) (o : OlaState α)
    (h1 : o.olaVoiceL.length = BLOCK) (h2 : o.olaVoiceR.length = BLOCK)
    (h3 : o.olaBgL.length = BLOCK) (h4 : o.olaBgR.length = BLOCK) (i : Nat) (hi : i < BLOCK) :
    (accumulate (windowL M inBuf) (windowR M inBuf)
        (passthroughStereo (windowL M inBuf) (windowR M inBuf)) o).olaVoiceL.getD i 0
      = o.olaVoiceL.getD i 0 + inBuf.getD (2 * i) 0 * WIN M i ∧
    (accumulate (windowL M inBuf) (windowR M inBuf)
        (passthroughStereo (windowL M inBuf) (windowR M inBuf)) o).olaVoiceR.getD i 0
      = o.olaVoiceR.getD i 0 + inBuf.getD (2 * i + 1) 0 * WIN M i ∧
    (accumulate (windowL M inBuf) (windowR M inBuf)
        (passthroughStereo (windowL M inBuf) (windowR M inBuf)) o).olaBgL.getD i 0
      = o.olaBgL.getD i 0 ∧
    (accumulate (windowL M inBuf) (windowR M inBuf)
        (passthroughStereo (windowL M inBuf) (windowR M inBuf)) o).olaBgR.getD i 0
      = o.olaBgR.getD i 0 := by
  obtain ⟨a1, a2, a3, a4⟩ := accumulate_getD (windowL M inBuf) (windowR M inBuf)
    (passthroughStereo (windowL M inBuf) (windowR M inBuf)) o h1 h2 h3 h4 i hi
  obtain ⟨p1, p2⟩ := passthroughStereo_getD (windowL M inBuf) (windowR M inBuf) i hi
  rw [a1, a2, a3, a4, p1, p2, windowL_getD M inBuf i hi, windowR_getD M inBuf i hi]
  simp

/-- C11 (what the code does when every `session.run` attempt fails).  With
cached tensor names `runModelStereo` returns the passthrough of its input, and
the window adds the windowed input to the voice accumulators and nothing to the
background accumulators.  With no names cached yet (the very first window) the
probe call of line 179 is outside the `try`, so `runModelStereo` throws
(`out = none`): the PROCESS handler of a ready worker holding a full window
posts no fragment, keeps the whole of `inBuf` and leaves the accumulators as
they were. -/
theorem first_window_failure_throws (M : JsMath α) (S : Session α σ)
    (hfail : ∀ st name data, (S.run st name data).1 = none)
    (w : SepWorker α σ) (st : σ) (chunk : List α)
    (hs : w.session = some st) (hr : w.ready = true)
    (hlen : 2 * BLOCK ≤ (w.inBuf ++ chunk).length)
    (h1 : w.ola.olaVoiceL.length = BLOCK) (h2 : w.ola.olaVoiceR.length = BLOCK)
    (h3 : w.ola.olaBgL.length = BLOCK) (h4 : w.ola.olaBgR.length = BLOCK) :
    (∀ (names : IoNames) (L R : List α),
      (runModelStereo M S st (some names) L R).out = some (passthroughStereo L R)) ∧
    (∀ (names : IoNames), ∃ acc,
      (processWindow M S st (some names) (w.inBuf ++ chunk) w.ola).2 = some acc ∧
      ∀ i, i < BLOCK →
        acc.olaVoiceL.getD i 0
          = w.ola.olaVoiceL.getD i 0 + (w.inBuf ++ chunk).getD (2 * i) 0 * WIN M i ∧
        acc.olaVoiceR.getD i 0
          = w.ola.olaVoiceR.getD i 0 + (w.inBuf ++ chunk).getD (2 * i + 1) 0 * WIN M i ∧
        acc.olaBgL.getD i 0 = w.ola.olaBgL.getD i 0 ∧
        acc.olaBgR.getD i 0 = w.ola.olaBgR.getD i 0) ∧
    (∀ (L R : List α), (runModelStereo M S st none L R).out = none) ∧
    (w.ioNames = none →
      (w.onProcess M S chunk).2 = none ∧
      (w.onProcess M S chunk).1.inBuf = w.inBuf ++ chunk ∧
      (w.onProcess M S chunk).1.ola = w.ola) := by
  refine ⟨fun names L R => (runModelCached_all_fail M S hfail st names L R).1, ?_,
    fun L R => (runModelStereo_probe_fail M S st L R (hfail _ _ _)).1, ?_⟩
  · intro names
    refine ⟨accumulate (windowL M (w.inBuf ++ chunk)) (windowR M (w.inBuf ++ chunk))
      (passthroughStereo (windowL M (w.inBuf ++ chunk)) (windowR M (w.inBuf ++ chunk))) w.ola,
      ?_, fun i hi => accumulate_passthrough M (w.inBuf ++ chunk) w.ola h1 h2 h3 h4 i hi⟩
    have hc := (runModelCached_all_fail M S hfail st names (windowL M (w.inBuf ++ chunk))
      (windowR M (w.inBuf ++ chunk))).1
    simp only [processWindow, runModelStereo, hc, Option.map_some']
  · intro hn
    refine onProcess_first_throw M S w st chunk hs hr hlen ?_
    rw [hn]
    exact (runModelStereo_probe_fail M S st _ _ (hfail _ _ _)).1

/-- C11, a concrete instance: a ready worker straight after the model load,
whose session rejects every call, receives a first chunk of one full window. -/
theorem first_window_failure_throws_witness :
    (((SepWorker.new : SepWorker ℚ Unit).onLoad (some ())).onProcess JsMath.sample
        { run := (fun st _ _ => (none, st)) } (List.replicate (2 * BLOCK) 1)).2 = none ∧
    (((SepWorker.new : SepWorker ℚ Unit).onLoad (some ())).onProcess JsMath.sample
        { run := (fun st _ _ => (none, st)) } (List.replicate (2 * BLOCK) 1)).1.inBuf
      = List.replicate (2 * BLOCK) 1 :=
  let t := (first_window_failure_throws JsMath.sample
    ({ run := (fun st _ _ => (none, st)) } : Session ℚ Unit) (fun _ _ _ => rfl)
    ((SepWorker.new : SepWorker ℚ Unit).onLoad (some ())) () (List.replicate (2 * BLOCK) 1)
    rfl rfl
    (by
      show 2 * BLOCK ≤ (([] : List ℚ) ++ List.replicate (2 * BLOCK) 1).length
      rw [List.nil_append, List.length_replicate])
    (List.length_replicate _ _) (List.length_replicate _ _) (List.length_replicate _ _)
    (List.length_replicate _ _)).2.2.2 rfl
  ⟨t.1, t.2.1⟩

end FailureTheorems

section NotReadyTheorems
variable {α : Type} [LinearOrderedField α] {σ : Type}

/-- The guard of line 47: a worker that is not ready, or has no session, drops
a PROCESS message. -/
theorem onProcess_not_ready (M : JsMath α) (S : Session α σ) (w : SepWorker α σ)
    (chunk : List α) (h : w.ready = false ∨ w.session = none) :
    w.onProcess M S chunk = (w, none) := by
  unfold SepWorker.onProcess
  cases hs : w.session with
  | none => rfl
  | some st =>
    rcases h with h | h
    · simp only [h, if_true]
    · rw [hs] at h
      cases h

/-- A quantum leaves empty stem queues empty. -/
theorem process_keeps_empty (M : JsMath α) (p : HybridProcessor α) (b : Bufs α)
    (hv : p.voiceQueue.buffers = []) (hb : p.bgQueue.buffers = []) :
    (p.process M b).proc.voiceQueue.buffers = [] ∧ (p.process M b).proc.bgQueue.buffers = [] := by
  by_cases hc : p.workerPort = true ∧ p.ctrl.aiMode = "onnx"
  · simp only [HybridProcessor.process, if_pos hc]
    split_ifs <;>
      simp [consumeStereo_empty _ _ _ hv, consumeStereo_empty _ _ _ hb, ConsumeState.queue]
  · have h := process_proxy_keeps_queues M p b hc
    rw [h.1, h.2.1]
    exact ⟨hv, hb⟩

/-- With an empty voice queue a quantum of `N > 0` frames is rendered by the
heuristic separator, whatever the mode. -/
theorem process_empty_is_proxy (M : JsMath α) (p : HybridProcessor α) (b : Bufs α)
    (hq : b.Quantum) (hN : 0 < b.Li.length) (hv : p.voiceQueue.buffers = []) :
    (p.process M b).bufs = (p.inline.processBlock M b p.ctrl).bufs ∧
    (p.process M b).proc.inline = (p.inline.processBlock M b p.ctrl).sep := by
  by_cases hc : p.workerPort = true ∧ p.ctrl.aiMode = "onnx"
  · exact process_underrun M p b hq hc.1 hc.2
      (Or.inl (by simp only [framesBuffered, hv]; exact hN))
  · exact process_proxy M p b hc

/-- One event of a pipeline whose worker is not ready: the worker keeps `inBuf`
and the accumulators and stays not ready, the stem queues stay empty. -/
theorem step_not_ready (M : JsMath α) (S : Session α σ) (sys : Pipeline α σ)
    (ev : PipelineEvent α)
    (hnot : sys.worker.ready = false ∨ sys.worker.session = none)
    (hv : sys.worklet.proc.voiceQueue.buffers = [])
    (hb : sys.worklet.proc.bgQueue.buffers = []) :
    ((sys.step M S ev).1.worker.ready = false ∨ (sys.step M S ev).1.worker.session = none) ∧
    (sys.step M S ev).1.worklet.proc.voiceQueue.buffers = [] ∧
    (sys.step M S ev).1.worklet.proc.bgQueue.buffers = [] ∧
    (sys.step M S ev).1.worker.inBuf = sys.worker.inBuf ∧
    (sys.step M S ev).1.worker.ola = sys.worker.ola := by
  cases ev with
  | control patch =>
    have hk := worklet_onControl_keeps sys.worklet patch
    simp only [Pipeline.step]
    refine ⟨?_, by rw [hk.1]; exact hv, by rw [hk.2.1]; exact hb, ?_, ?_⟩
    · cases (sys.worklet.onControl patch).2 with
      | none => exact hnot
      | some c =>
        have hw := worker_onControl_keeps sys.worker (some c)
        simp only [hw.2.2.2.1, hw.2.2.2.2]
        exact hnot
    · cases (sys.worklet.onControl patch).2 with
      | none => rfl
      | some c => exact (worker_onControl_keeps sys.worker (some c)).1
    · cases (sys.worklet.onControl patch).2 with
      | none => rfl
      | some c => exact (worker_onControl_keeps sys.worker (some c)).2.1
  | quantum b =>
    have hk := process_keeps_empty M sys.worklet.proc b hv hb
    simp only [Pipeline.step]
    cases hp : (sys.worklet.proc.process M b).posted with
    | none => exact ⟨hnot, hk.1, hk.2, rfl, rfl⟩
    | some inter =>
      dsimp only
      rw [onProcess_not_ready M S sys.worker inter hnot]
      exact ⟨hnot, hk.1, hk.2, rfl, rfl⟩

/-- A history of events of a pipeline whose worker is not ready. -/
theorem run_not_ready (M : JsMath α) (S : Session α σ) (evs : List (PipelineEvent α))
    (sys : Pipeline α σ)
    (hnot : sys.worker.ready = false ∨ sys.worker.session = none)
    (hv : sys.worklet.proc.voiceQueue.buffers = [])
    (hb : sys.worklet.proc.bgQueue.buffers = []) :
    ((sys.run M S evs).worker.ready = false ∨ (sys.run M S evs).worker.session = none) ∧
    (sys.run M S evs).worklet.proc.voiceQueue.buffers = [] ∧
    (sys.run M S evs).worklet.proc.bgQueue.buffers = [] ∧
    (sys.run M S evs).worker.inBuf = sys.worker.inBuf ∧
    (sys.run M S evs).worker.ola = sys.worker.ola := by
  induction evs generalizing sys with
  | nil => exact ⟨hnot, hv, hb, rfl, rfl⟩
  | cons ev evs ih =>
    obtain ⟨s1, s2, s3, s4, s5⟩ := step_not_ready M S sys ev hnot hv hb
    have h := ih (sys.step M S ev).1 s1 s2 s3
    simp only [Pipeline.run, List.foldl_cons] at h ⊢
    rw [s4, s5] at h
    exact h

/-- C15 (load failure locks the pipeline into PROXY).  A failed load leaves
`ready = false`, and a worker starts with `ready = false`.  For a pipeline
whose worker is not ready (`ready = false` or no session) and whose stem queues
are empty, after every history of CONTROL messages and rendered quanta: every
PROCESS message is dropped (the worker state is unchanged, no OUT message is
posted), `inBuf` and the accumulators are those at the start, both stem queues
are still empty, and every quantum of `N > 0` frames rendered next leaves
the channel arrays and the separator state that `process` leaves in PROXY mode
(`aiMode = "proxy"`), whatever the mode is, `"onnx"` included. -/
theorem load_failure_locks_proxy (M : JsMath α) (S : Session α σ) (sys : Pipeline α σ)
    (hnot : sys.worker.ready = false ∨ sys.worker.session = none)
    (hv : sys.worklet.proc.voiceQueue.buffers = [])
    (hb : sys.worklet.proc.bgQueue.buffers = []) (evs : List (PipelineEvent α)) :
    (∀ (w0 : SepWorker α σ), (w0.onLoad none).ready = false) ∧
    (SepWorker.new : SepWorker α σ).ready = false ∧
    (∀ chunk, (sys.run M S evs).worker.onProcess M S chunk = ((sys.run M S evs).worker, none)) ∧
    (sys.run M S evs).worker.inBuf = sys.worker.inBuf ∧
    (sys.run M S evs).worker.ola = sys.worker.ola ∧
    (sys.run M S evs).worklet.proc.voiceQueue.buffers = [] ∧
    (sys.run M S evs).worklet.proc.bgQueue.buffers = [] ∧
    (∀ (b : Bufs α), b.Quantum → 0 < b.Li.length →
      ((sys.run M S evs).worklet.proc.process M b).bufs
        = (HybridProcessor.process M
            { (sys.run M S evs).worklet.proc with
              ctrl := { (sys.run M S evs).worklet.proc.ctrl with aiMode := "proxy" } } b).bufs ∧
      ((sys.run M S evs).worklet.proc.process M b).proc.inline
        = (HybridProcessor.process M
            { (sys.run M S evs).worklet.proc with
              ctrl := { (sys.run M S evs).worklet.proc.ctrl with aiMode := "proxy" } }
            b).proc.inline) := by
  obtain ⟨r1, r2, r3, r4, r5⟩ := run_not_ready M S evs sys hnot hv hb
  refine ⟨fun _ => rfl, rfl, fun chunk => onProcess_not_ready M S _ chunk r1, r4, r5, r2, r3, ?_⟩
  intro b hq hN
  have hproxy := process_proxy M
    { (sys.run M S evs).worklet.proc with
      ctrl := { (sys.run M S evs).worklet.proc.ctrl with aiMode := "proxy" } } b (by simp)
  have he := process_empty_is_proxy M (sys.run M S evs).worklet.proc b hq hN r2
  rw [hproxy.1, hproxy.2, he.1, he.2]
  simp only [processBlock_aiMode, and_self]

/-- C15, a concrete instance: the worker's load failed, the worklet has a
worker port and is switched to `aiMode = "onnx"`; after the CONTROL message and
one quantum the worker's `inBuf` is still empty and the next quantum is the
PROXY output. -/
theorem load_failure_locks_proxy_witness :
    ((Pipeline.run JsMath.sample ({ run := (fun st _ _ => (none, st)) } : Session ℚ Unit)
        { worklet := (Worklet.new : Worklet ℚ).onAttachWorker.1,
          worker := (SepWorker.new : SepWorker ℚ Unit).onLoad none }
        [PipelineEvent.control (some (Obj.ofList [("aiMode", JsVal.str "onnx")])),
         PipelineEvent.quantum
           { Li := [1 / 2, 1 / 4], Ri := some [1 / 2, 1 / 3], Lo := [0, 0], Ro := [0, 0] }]
      ).worker.inBuf = []) ∧
    (Pipeline.run JsMath.sample ({ run := (fun st _ _ => (none, st)) } : Session ℚ Unit)
        { worklet := (Worklet.new : Worklet ℚ).onAttachWorker.1,
          worker := (SepWorker.new : SepWorker ℚ Unit).onLoad none }
        [PipelineEvent.control (some (Obj.ofList [("aiMode", JsVal.str "onnx")])),
         PipelineEvent.quantum
           { Li := [1 / 2, 1 / 4], Ri := some [1 / 2, 1 / 3], Lo := [0, 0], Ro := [0, 0] }]
      ).worklet.proc.voiceQueue.buffers = [] :=
  let t := load_failure_locks_proxy JsMath.sample
    ({ run := (fun st _ _ => (none, st)) } : Session ℚ Unit)
    { worklet := (Worklet.new : Worklet ℚ).onAttachWorker.1,
      worker := (SepWorker.new : SepWorker ℚ Unit).onLoad none }
    (Or.inl rfl) rfl rfl
    [PipelineEvent.control (some (Obj.ofList [("aiMode", JsVal.str "onnx")])),
     PipelineEvent.quantum
       { Li := [1 / 2, 1 / 4], Ri := some [1 / 2, 1 / 3], Lo := [0, 0], Ro := [0, 0] }]
  ⟨t.2.2.2.1, t.2.2.2.2.2.1⟩

end NotReadyTheorems

section LatencyTheorems
variable {α : Type} [LinearOrderedField α] {σ : Type}

/-- Twice the frames of the buffers of a list is at most their samples. -/
theorem two_frames_le {β : Type} (l : List (List β)) :
    2 * (l.map frames).sum ≤ (l.map List.length).sum := by
  induction l with
  | nil => simp
  | cons b l ih =>
    simp only [List.map_cons, List.sum_cons, frames_eq]
    omega

/-- The window loop conserves samples: what the fragments hold and what
`inBuf` holds add up to what `inBuf` held at the start; once a fragment has
been collected `inBuf` holds at least `2 * BLOCK - 2 * HOP` samples. -/
theorem windowLoop_measure (M : JsMath α) (S : Session α σ) (s : WindowLoop α σ)
    (hv : s.outVoice = []) (hb : s.outBg = []) :
    ((windowLoop M S s).outVoice.map List.length).sum + (windowLoop M S s).inBuf.length
      = s.inBuf.length ∧
    ((windowLoop M S s).outBg.map List.length).sum + (windowLoop M S s).inBuf.length
      = s.inBuf.length ∧
    ((windowLoop M S s).outVoice = [] ∧ (windowLoop M S s).inBuf.length = s.inBuf.length ∨
      2 * BLOCK ≤ (windowLoop M S s).inBuf.length + 2 * HOP ∧
        2 * HOP ≤ ((windowLoop M S s).outVoice.map List.length).sum) := by
  have h1 : HOP = 2048 := by decide
  have h2 : BLOCK = 4096 := rfl
  refine windowLoop_inv M S
    (fun t => (t.outVoice.map List.length).sum + t.inBuf.length = s.inBuf.length ∧
      (t.outBg.map List.length).sum + t.inBuf.length = s.inBuf.length ∧
      (t.outVoice = [] ∧ t.inBuf.length = s.inBuf.length ∨
        2 * BLOCK ≤ t.inBuf.length + 2 * HOP ∧ 2 * HOP ≤ (t.outVoice.map List.length).sum))
    ?_ ?_ s ⟨by simp [hv], by simp [hb], Or.inl ⟨hv, rfl⟩⟩
  · intro t r acc hg ht
    obtain ⟨t1, t2, _⟩ := ht
    simp only [WindowLoop.next, dropInputHop, List.length_drop, List.map_append, List.map_cons,
      List.map_nil, List.sum_append, List.sum_cons, List.sum_nil, hopFragment_length]
    refine ⟨by omega, by omega, Or.inr ⟨by omega, by omega⟩⟩
  · intro t r _ ht
    exact ht

/-- The PROCESS handler of a ready worker, past the guard of line 47. -/
theorem onProcess_ready (M : JsMath α) (S : Session α σ) (w : SepWorker α σ) (st : σ)
    (chunk : List α) (hs : w.session = some st) (hr : w.ready = true) :
    (w.onProcess M S chunk).1.inBuf
      = (windowLoop M S
          { state := st, ioNames := w.ioNames, inBuf := w.inBuf ++ chunk, ola := w.ola,
            outVoice := [], outBg := [], threw := false }).inBuf ∧
    (w.onProcess M S chunk).2
      = if (windowLoop M S
          { state := st, ioNames := w.ioNames, inBuf := w.inBuf ++ chunk, ola := w.ola,
            outVoice := [], outBg := [], threw := false }).threw = true then none
        else if (windowLoop M S
          { state := st, ioNames := w.ioNames, inBuf := w.inBuf ++ chunk, ola := w.ola,
            outVoice := [], outBg := [], threw := false }).outVoice.length ≠ 0 then
          some ((windowLoop M S
            { state := st, ioNames := w.ioNames, inBuf := w.inBuf ++ chunk, ola := w.ola,
              outVoice := [], outBg := [], threw := false }).outVoice.flatten,
            (windowLoop M S
            { state := st, ioNames := w.ioNames, inBuf := w.inBuf ++ chunk, ola := w.ola,
              outVoice := [], outBg := [], threw := false }).outBg.flatten)
        else none := by
  unfold SepWorker.onProcess
  simp only [hs, hr, Bool.true_eq_false, if_false]
  split_ifs <;> exact ⟨rfl, rfl⟩

/-- What one PROCESS message does to the sample counts. -/
theorem onProcess_measure (M : JsMath α) (S : Session α σ) (w : SepWorker α σ)
    (chunk : List α) :
    ((w.onProcess M S chunk).2 = none →
      (w.onProcess M S chunk).1.inBuf.length ≤ w.inBuf.length + chunk.length ∧
      (2 * BLOCK ≤ w.inBuf.length + 2 * HOP →
        2 * BLOCK ≤ (w.onProcess M S chunk).1.inBuf.length + 2 * HOP)) ∧
    (∀ v b, (w.onProcess M S chunk).2 = some (v, b) →
      v.length + (w.onProcess M S chunk).1.inBuf.length = w.inBuf.length + chunk.length ∧
      b.length + (w.onProcess M S chunk).1.inBuf.length = w.inBuf.length + chunk.length ∧
      2 * HOP ≤ v.length ∧
      2 * BLOCK ≤ (w.onProcess M S chunk).1.inBuf.length + 2 * HOP) := by
  by_cases hnot : w.ready = false ∨ w.session = none
  · rw [onProcess_not_ready M S w chunk hnot]
    refine ⟨fun _ => ⟨by show w.inBuf.length ≤ _; omega, fun h => h⟩, fun v b h => ?_⟩
    cases h
  · have hr : w.ready = true := by
      cases h : w.ready with
      | true => rfl
      | false => exact absurd (Or.inl h) hnot
    obtain ⟨st, hs⟩ : ∃ st, w.session = some st := by
      cases h : w.session with
      | none => exact absurd (Or.inr h) hnot
      | some st => exact ⟨st, rfl⟩
    obtain ⟨e1, e2⟩ := onProcess_ready M S w st chunk hs hr
    obtain ⟨m1, m2, m3⟩ := windowLoop_measure M S
      { state := st, ioNames := w.ioNames, inBuf := w.inBuf ++ chunk, ola := w.ola,
        outVoice := [], outBg := [], threw := false } rfl rfl
    simp only [List.length_append] at m1 m2 m3
    rw [e1, e2]
    refine ⟨fun _ => ⟨by omega, fun h => by omega⟩, fun v b h => ?_⟩
    split_ifs at h with ht hl
    simp only [Option.some.injEq, Prod.mk.injEq] at h
    obtain ⟨hv, hb⟩ := h
    subst hv
    subst hb
    simp only [List.length_flatten]
    rcases m3 with ⟨h0, _⟩ | ⟨m4, m5⟩
    · rw [h0] at hl
      exact absurd rfl hl
    · exact ⟨m1, m2, m5, m4⟩

/-- The sample counts over a history of PROCESS messages, from any
intermediate state. -/
theorem runChunks_measure (M : JsMath α) (S : Session α σ) (chunks : List (List α))
    (a : SepWorker α σ × List (List α × List α)) (rc : Nat)
    (ha : (a.2.map (fun o => o.1.length)).sum + a.1.inBuf.length ≤ rc)
    (hb : (a.2.map (fun o => o.2.length)).sum + a.1.inBuf.length ≤ rc)
    (hc : a.2 = [] ∨ (2 * BLOCK ≤ a.1.inBuf.length + 2 * HOP ∧
      2 * HOP ≤ (a.2.map (fun o => o.1.length)).sum)) :
    ((((chunks.foldl (fun acc chunk =>
          ((acc.1.onProcess M S chunk).1, acc.2 ++ (acc.1.onProcess M S chunk).2.toList)) a).2.map
        (fun o => o.1.length)).sum
      + (chunks.foldl (fun acc chunk =>
          ((acc.1.onProcess M S chunk).1, acc.2 ++ (acc.1.onProcess M S chunk).2.toList))
          a).1.inBuf.length
      ≤ rc + (chunks.map List.length).sum)) ∧
    ((((chunks.foldl (fun acc chunk =>
          ((acc.1.onProcess M S chunk).1, acc.2 ++ (acc.1.onProcess M S chunk).2.toList)) a).2.map
        (fun o => o.2.length)).sum
      + (chunks.foldl (fun acc chunk =>
          ((acc.1.onProcess M S chunk).1, acc.2 ++ (acc.1.onProcess M S chunk).2.toList))
          a).1.inBuf.length
      ≤ rc + (chunks.map List.length).sum)) ∧
    ((chunks.foldl (fun acc chunk =>
          ((acc.1.onProcess M S chunk).1, acc.2 ++ (acc.1.onProcess M S chunk).2.toList)) a).2 = [] ∨
      (2 * BLOCK ≤ (chunks.foldl (fun acc chunk =>
          ((acc.1.onProcess M S chunk).1, acc.2 ++ (acc.1.onProcess M S chunk).2.toList))
          a).1.inBuf.length + 2 * HOP ∧
        2 * HOP ≤ ((chunks.foldl (fun acc chunk =>
          ((acc.1.onProcess M S chunk).1, acc.2 ++ (acc.1.onProcess M S chunk).2.toList)) a).2.map
          (fun o => o.1.length)).sum)) := by
  induction chunks generalizing a rc with
  | nil => simpa using ⟨ha, hb, hc⟩
  | cons c cs ih =>
    obtain ⟨p1, p2⟩ := onProcess_measure M S a.1 c
    have key := ih ((a.1.onProcess M S c).1, a.2 ++ (a.1.onProcess M S c).2.toList)
      (rc + c.length) ?_ ?_ ?_
    · simp only [List.foldl_cons, List.map_cons, List.sum_cons]
      rw [← Nat.add_assoc]
      exact key
    · cases hr : (a.1.onProcess M S c).2 with
      | none =>
        have := (p1 hr).1
        simp only [Option.toList, List.append_nil]
        omega
      | some o =>
        obtain ⟨v, b⟩ := o
        obtain ⟨q1, q2, q3, q4⟩ := p2 v b hr
        simp only [Option.toList, List.map_append, List.map_cons, List.map_nil, List.sum_append,
          List.sum_cons, List.sum_nil]
        omega
    · cases hr : (a.1.onProcess M S c).2 with
      | none =>
        have := (p1 hr).1
        simp only [Option.toList, List.append_nil]
        omega
      | some o =>
        obtain ⟨v, b⟩ := o
        obtain ⟨q1, q2, q3, q4⟩ := p2 v b hr
        simp only [Option.toList, List.map_append, List.map_cons, List.map_nil, List.sum_append,
          List.sum_cons, List.sum_nil]
        omega
    · cases hr : (a.1.onProcess M S c).2 with
      | none =>
        have := (p1 hr).2
        simp only [Option.toList, List.append_nil]
        rcases hc with h0 | ⟨h3, h4⟩
        · exact Or.inl h0
        · exact Or.inr ⟨this h3, h4⟩
      | some o =>
        obtain ⟨v, b⟩ := o
        obtain ⟨q1, q2, q3, q4⟩ := p2 v b hr
        right
        simp only [Option.toList, List.map_append, List.map_cons, List.map_nil, List.sum_append,
          List.sum_cons, List.sum_nil]
        exact ⟨q4, by omega⟩

/-- When every PROCESS handler has run to its end before the next message is
handled (no model call outlasts the gap between two messages): a worker whose
`inBuf` is empty handles any sequence of PROCESS chunks of even length; per
stem, the frames emitted in OUT messages never exceed the frames received
minus `BLOCK - HOP`; whenever an OUT message has been posted, frames emitted
plus `BLOCK - HOP` are at most the frames received; and no OUT message is
posted while fewer than `BLOCK` frames have been received. -/
theorem serial_latency_bound (M : JsMath α) (S : Session α σ) (w : SepWorker α σ)
    (hin : w.inBuf = []) (chunks : List (List α))
    (heven : ∀ c ∈ chunks, c.length % 2 = 0) :
    (((w.runChunks M S chunks).2.map (fun o => frames o.1)).sum
      ≤ (chunks.map frames).sum - (BLOCK - HOP)) ∧
    (((w.runChunks M S chunks).2.map (fun o => frames o.2)).sum
      ≤ (chunks.map frames).sum - (BLOCK - HOP)) ∧
    ((w.runChunks M S chunks).2 ≠ [] →
      ((w.runChunks M S chunks).2.map (fun o => frames o.1)).sum + (BLOCK - HOP)
        ≤ (chunks.map frames).sum ∧
      ((w.runChunks M S chunks).2.map (fun o => frames o.2)).sum + (BLOCK - HOP)
        ≤ (chunks.map frames).sum) ∧
    ((chunks.map frames).sum < BLOCK → (w.runChunks M S chunks).2 = []) := by
  have h1 : HOP = 2048 := by decide
  have h2 : BLOCK = 4096 := rfl
  obtain ⟨k1, k2, k3⟩ := runChunks_measure M S chunks (w, []) 0
    (by simp [hin]) (by simp [hin]) (Or.inl rfl)
  have hrc := sum_length_even chunks heven
  have hfv := two_frames_le ((w.runChunks M S chunks).2.map (fun o => o.1))
  have hfb := two_frames_le ((w.runChunks M S chunks).2.map (fun o => o.2))
  simp only [List.map_map, Function.comp_def] at hfv hfb
  simp only [SepWorker.runChunks] at hfv hfb ⊢
  rcases k3 with h0 | ⟨k4, k5⟩
  · rw [h0]
    simp
  · refine ⟨by omega, by omega, fun _ => ⟨by omega, by omega⟩, fun hlt => ?_⟩
    omega

end LatencyTheorems

section ProxyFormulaTheorems
variable {α : Type} [LinearOrderedField α]

theorem getD_set_self {β : Type} (l : List β) (k : Nat) (a d : β) (h : k < l.length) :
    (l.set k a).getD k d = a := by
  rw [List.getD_eq_getElem?_getD, List.getElem?_set_self h]
  rfl

theorem getD_set_ne {β : Type} (l : List β) (k j : Nat) (a d : β) (h : k ≠ j) :
    (l.set k a).getD j d = l.getD j d := by
  rw [List.getD_eq_getElem?_getD, List.getD_eq_getElem?_getD, List.getElem?_set_ne h]

/-- The method `_clamp` returns a value in `[-1, 1]`. -/
theorem clamp_range (x : α) : -1 ≤ clamp x ∧ clamp x ≤ 1 := by
  unfold clamp
  split_ifs with h1 h2
  · exact ⟨le_refl _, by norm_num⟩
  · exact ⟨by norm_num, le_refl _⟩
  · exact ⟨not_lt.mp h1, not_lt.mp h2⟩

/-- The two stores of one iteration of the second loop (line 68). -/
theorem pass2Step_bufs (M : JsMath α) (ctrl : ControlState α) (w : α) (s : Pass2 α) (i : Nat) :
    (pass2Step M ctrl w s i).bufs.Lo
      = s.bufs.Lo.set i (proxyMix (vGainOf ctrl) w (effBgOf M ctrl w)
          (pass2Voice M ctrl s i).1 (pass2Bg ctrl s i).1) ∧
    (pass2Step M ctrl w s i).bufs.Ro
      = s.bufs.Ro.set i (proxyMix (vGainOf ctrl) w (effBgOf M ctrl w)
          (pass2Voice M ctrl s i).2 (pass2Bg ctrl s i).2) := by
  simp only [pass2Step, pass2Voice, pass2Bg]
  split_ifs <;> exact ⟨rfl, rfl⟩

/-- The second loop, sample by sample: position `i` holds what iteration `i`
stored. -/
theorem pass2_getD (M : JsMath α) (ctrl : ControlState α) (w : α) (s0 : Pass2 α) (N : Nat)
    (hLo : s0.bufs.Lo.length = N) (hRo : s0.bufs.Ro.length = N) (i : Nat) (hi : i < N) :
    ((List.range N).foldl (pass2Step M ctrl w) s0).bufs.Lo.getD i 0
      = proxyMix (vGainOf ctrl) w (effBgOf M ctrl w)
          (pass2Voice M ctrl ((List.range i).foldl (pass2Step M ctrl w) s0) i).1
          (pass2Bg ctrl ((List.range i).foldl (pass2Step M ctrl w) s0) i).1 ∧
    ((List.range N).foldl (pass2Step M ctrl w) s0).bufs.Ro.getD i 0
      = proxyMix (vGainOf ctrl) w (effBgOf M ctrl w)
          (pass2Voice M ctrl ((List.range i).foldl (pass2Step M ctrl w) s0) i).2
          (pass2Bg ctrl ((List.range i).foldl (pass2Step M ctrl w) s0) i).2 := by
  have key := foldl_range_inv (pass2Step M ctrl w)
    (fun k t => t.bufs.Lo.length = N ∧ t.bufs.Ro.length = N ∧
      t = (List.range k).foldl (pass2Step M ctrl w) s0 ∧
      ∀ j, j < k →
        t.bufs.Lo.getD j 0
          = proxyMix (vGainOf ctrl) w (effBgOf M ctrl w)
              (pass2Voice M ctrl ((List.range j).foldl (pass2Step M ctrl w) s0) j).1
              (pass2Bg ctrl ((List.range j).foldl (pass2Step M ctrl w) s0) j).1 ∧
        t.bufs.Ro.getD j 0
          = proxyMix (vGainOf ctrl) w (effBgOf M ctrl w)
              (pass2Voice M ctrl ((List.range j).foldl (pass2Step M ctrl w) s0) j).2
              (pass2Bg ctrl ((List.range j).foldl (pass2Step M ctrl w) s0) j).2) N ?_ s0
    ⟨hLo, hRo, rfl, fun j hj => absurd hj (Nat.not_lt_zero j)⟩
  · exact key.2.2.2 i hi
  · intro k t hk ht
    obtain ⟨h1, h2, h3, h4⟩ := ht
    obtain ⟨e1, e2⟩ := pass2Step_bufs M ctrl w t k
    refine ⟨by rw [e1, List.length_set]; exact h1, by rw [e2, List.length_set]; exact h2, ?_, ?_⟩
    · rw [List.range_succ, List.foldl_append, ← h3]
      rfl
    · intro j hj
      rw [e1, e2]
      by_cases hjk : j = k
      · subst hjk
        rw [getD_set_self _ _ _ _ (by omega), getD_set_self _ _ _ _ (by omega), ← h3]
        exact ⟨rfl, rfl⟩
      · rw [getD_set_ne _ _ _ _ _ (fun h => hjk h.symm), getD_set_ne _ _ _ _ _ (fun h => hjk h.symm)]
        exact h4 j (by omega)

/-- C19 (PROXY output formula): for every block whose output arrays have the
length `N` of the input, every control record and every separator state, the
sample `processBlock` leaves at position `i < N` of each output channel is
`clamp(vGain * wSmooth * v + effBg * b)`, where `v` is the voice sample after
the presence boost and `b` the background sample of iteration `i`, `vGain` is
`0` if `muteVoice` else `voiceGain`, and `effBg` is (`0` if `muteBg` else
`bgGain`) times `1 - duckDepth * wSmooth ^ duckPower` with `duckDepth` and
`duckPower` read as `0.75` and `1.6` when absent; hence the sample lies in
`[-1, 1]`. -/
theorem proxy_output_formula (M : JsMath α) (sep : InlineSeparator α) (b : Bufs α)
    (ctrl : ControlState α) (hq : b.Quantum) (i : Nat) (hi : i < b.Li.length) :
    (sep.processBlock M b ctrl).bufs.Lo.getD i 0
      = clamp ((if ctrl.muteVoice then 0 else ctrl.voiceGain) * wSmoothOf M sep b ctrl
            * (pass2Voice M ctrl (pass2At M sep b ctrl i) i).1
          + (if ctrl.muteBg then 0 else ctrl.bgGain)
              * (1 - ctrl.duckDepth.getD 0.75
                  * M.pow (wSmoothOf M sep b ctrl) (ctrl.duckPower.getD 1.6))
            * (pass2Bg ctrl (pass2At M sep b ctrl i) i).1) ∧
    (sep.processBlock M b ctrl).bufs.Ro.getD i 0
      = clamp ((if ctrl.muteVoice then 0 else ctrl.voiceGain) * wSmoothOf M sep b ctrl
            * (pass2Voice M ctrl (pass2At M sep b ctrl i) i).2
          + (if ctrl.muteBg then 0 else ctrl.bgGain)
              * (1 - ctrl.duckDepth.getD 0.75
                  * M.pow (wSmoothOf M sep b ctrl) (ctrl.duckPower.getD 1.6))
            * (pass2Bg ctrl (pass2At M sep b ctrl i) i).2) ∧
    (-1 ≤ (sep.processBlock M b ctrl).bufs.Lo.getD i 0 ∧
      (sep.processBlock M b ctrl).bufs.Lo.getD i 0 ≤ 1) ∧
    (-1 ≤ (sep.processBlock M b ctrl).bufs.Ro.getD i 0 ∧
      (sep.processBlock M b ctrl).bufs.Ro.getD i 0 ≤ 1) := by
  obtain ⟨hLo, hRo, _⟩ := hq
  have hl := pass1_lengths ctrl
    ({ sep := sep, eSum := 0, zc := 0, prev := 0, bufs := b } : Pass1 α) b.Li.length
  have key := pass2_getD M ctrl (wSmoothOf M sep b ctrl)
    { sep := (vadUpdate M (pass1Of sep b ctrl).sep (pass1Of sep b ctrl).eSum
        (pass1Of sep b ctrl).zc b.Li.length).1,
      bufs := (pass1Of sep b ctrl).bufs } b.Li.length
    (by rw [← hLo]; exact hl.1) (by rw [← hRo]; exact hl.2.1) i hi
  have hpb : sep.processBlock M b ctrl
      = (List.range b.Li.length).foldl (pass2Step M ctrl (wSmoothOf M sep b ctrl))
          { sep := (vadUpdate M (pass1Of sep b ctrl).sep (pass1Of sep b ctrl).eSum
              (pass1Of sep b ctrl).zc b.Li.length).1,
            bufs := (pass1Of sep b ctrl).bufs } := rfl
  have hform : ∀ v g : α,
      proxyMix (vGainOf ctrl) (wSmoothOf M sep b ctrl) (effBgOf M ctrl (wSmoothOf M sep b ctrl))
        v g
      = clamp ((if ctrl.muteVoice then 0 else ctrl.voiceGain) * wSmoothOf M sep b ctrl * v
          + (if ctrl.muteBg then 0 else ctrl.bgGain)
              * (1 - ctrl.duckDepth.getD 0.75
                  * M.pow (wSmoothOf M sep b ctrl) (ctrl.duckPower.getD 1.6)) * g) := by
    intro v g
    simp only [proxyMix, effBgOf, bGainOf, duckAtten, vGainOf, mul_assoc]
  rw [hpb, key.1, key.2]
  refine ⟨hform _ _, hform _ _, ?_, ?_⟩
  · exact clamp_range _
  · exact clamp_range _

/-- C19, a concrete instance: a stereo block of two frames under the default
control record; the first left output sample lies in `[-1, 1]`. -/
theorem proxy_output_formula_witness :
    -1 ≤ ((InlineSeparator.new : InlineSeparator ℚ).processBlock JsMath.sample
        { Li := [1 / 2, 1 / 4], Ri := some [1 / 2, 1 / 3], Lo := [0, 0], Ro := [0, 0] }
        ControlState.default).bufs.Lo.getD 0 0 ∧
    ((InlineSeparator.new : InlineSeparator ℚ).processBlock JsMath.sample
        { Li := [1 / 2, 1 / 4], Ri := some [1 / 2, 1 / 3], Lo := [0, 0], Ro := [0, 0] }
        ControlState.default).bufs.Lo.getD 0 0 ≤ 1 :=
  (proxy_output_formula JsMath.sample (InlineSeparator.new : InlineSeparator ℚ)
    { Li := [1 / 2, 1 / 4], Ri := some [1 / 2, 1 / 3], Lo := [0, 0], Ro := [0, 0] }
    ControlState.default ⟨rfl, rfl, rfl⟩ 0 (by decide)).2.2.1

end ProxyFormulaTheorems

section NeuralMixTheorems
variable {α : Type} [LinearOrderedField α]

/-- A full `consumeStereo` call writes the first pending frames of the queue,
in order, and leaves the rest pending. -/
theorem consumeStereo_frames (q : InterleavedQueue α) (outL outR : List α)
    (hR : outL.length ≤ outR.length)
    (hfull : (q.consumeStereo outL outR).filled = outL.length) :
    (∀ i, i < outL.length →
      (q.consumeStereo outL outR).outputL.getD i 0 = ((pendingFrames q).getD i (0, 0)).1 ∧
      (q.consumeStereo outL outR).outputR.getD i 0 = ((pendingFrames q).getD i (0, 0)).2) ∧
    pendingFrames (q.consumeStereo outL outR).queue = (pendingFrames q).drop outL.length := by
  have hw := consumeOuter_written outL.length
    { buffers := q.buffers, offset := q.offset, outputL := outL, outputR := outR, filled := 0 }
    (le_refl _) hR
  have hlen := consumeStereo_lengths q outL outR
  have hq : pendingFrames (ConsumeState.queue
      { buffers := q.buffers, offset := q.offset, outputL := outL, outputR := outR,
        filled := 0 }) = pendingFrames q := rfl
  have hw0 : (ConsumeState.written
      { buffers := q.buffers, offset := q.offset, outputL := outL, outputR := outR,
        filled := 0 }) = [] := by
    simp [ConsumeState.written]
  rw [hq, hw0, List.nil_append] at hw
  have hwl : (q.consumeStereo outL outR).written.length = outL.length := by
    simp only [ConsumeState.written, List.length_zip, List.length_take, hfull, hlen.1, hlen.2]
    omega
  have hw2 : (q.consumeStereo outL outR).written ++
      pendingFrames (q.consumeStereo outL outR).queue = pendingFrames q := hw
  refine ⟨fun i hi => ?_, ?_⟩
  · have hget : (pendingFrames q)[i]? = (q.consumeStereo outL outR).written[i]? := by
      rw [← hw2, List.getElem?_append_left (by rw [hwl]; exact hi)]
    have hL : i < (q.consumeStereo outL outR).outputL.length := by rw [hlen.1]; exact hi
    have hRr : i < (q.consumeStereo outL outR).outputR.length := by rw [hlen.2]; omega
    have hz : (q.consumeStereo outL outR).written[i]?
        = some ((q.consumeStereo outL outR).outputL.getD i 0,
            (q.consumeStereo outL outR).outputR.getD i 0) := by
      simp only [ConsumeState.written, hfull, List.getD_eq_getElem?_getD]
      rw [List.getElem?_zip_eq_some]
      rw [List.getElem?_take_of_lt hi, List.getElem?_take_of_lt hi,
        List.getElem?_eq_getElem hL, List.getElem?_eq_getElem hRr]
      exact ⟨rfl, rfl⟩
    have hp : (pendingFrames q).getD i (0, 0)
        = ((q.consumeStereo outL outR).outputL.getD i 0,
            (q.consumeStereo outL outR).outputR.getD i 0) := by
      rw [List.getD_eq_getElem?_getD, hget, hz]
      rfl
    rw [hp]
    exact ⟨rfl, rfl⟩
  · rw [← hw2, ← hwl, List.drop_left]

/-- The NEURAL mix loop, sample by sample. -/
theorem neuralMix_loop_getD (ctrl : ControlState α) (tL tR : List α) (o : List α × List α)
    (N : Nat) (hLo : o.1.length = N) (hRo : o.2.length = N) (i : Nat) (hi : i < N) :
    ((List.range N).foldl (neuralMixStep ctrl tL tR) o).1.getD i 0
      = neuralMix ctrl (o.1.getD i 0) (tL.getD i 0) ∧
    ((List.range N).foldl (neuralMixStep ctrl tL tR) o).2.getD i 0
      = neuralMix ctrl (o.2.getD i 0) (tR.getD i 0) := by
  have key := foldl_range_inv (neuralMixStep ctrl tL tR)
    (fun k t => t.1.length = N ∧ t.2.length = N ∧
      ∀ j, (t.1.getD j 0 = if j < k then neuralMix ctrl (o.1.getD j 0) (tL.getD j 0)
              else o.1.getD j 0) ∧
           (t.2.getD j 0 = if j < k then neuralMix ctrl (o.2.getD j 0) (tR.getD j 0)
              else o.2.getD j 0)) N ?_ o
    ⟨hLo, hRo, fun j => by simp⟩
  · have h := key.2.2 i
    rw [if_pos hi, if_pos hi] at h
    exact h
  · intro k t hk ht
    obtain ⟨h1, h2, h3⟩ := ht
    refine ⟨by simp only [neuralMixStep, List.length_set]; exact h1,
      by simp only [neuralMixStep, List.length_set]; exact h2, fun j => ?_⟩
    simp only [neuralMixStep]
    by_cases hjk : j = k
    · subst hjk
      rw [getD_set_self _ _ _ _ (by omega), getD_set_self _ _ _ _ (by omega),
        if_pos (Nat.lt_succ_self j), if_pos (Nat.lt_succ_self j)]
      have h := h3 j
      rw [if_neg (Nat.lt_irrefl j), if_neg (Nat.lt_irrefl j)] at h
      rw [h.1, h.2]
      exact ⟨rfl, rfl⟩
    · rw [getD_set_ne _ _ _ _ _ (fun h => hjk h.symm), getD_set_ne _ _ _ _ _ (fun h => hjk h.symm)]
      have h := h3 j
      by_cases hlt : j < k
      · rw [if_pos hlt, if_pos hlt] at h
        rw [if_pos (by omega), if_pos (by omega)]
        exact h
      · rw [if_neg hlt, if_neg hlt] at h
        rw [if_neg (by omega), if_neg (by omega)]
        exact h

theorem tmpArrays_length_snd (p : HybridProcessor α) (N : Nat)
    (htmp : ∀ t, p.tmpBg = some t → t.2.length = t.1.length) :
    (p.tmpArrays N).2.length = N := by
  unfold HybridProcessor.tmpArrays
  cases h : p.tmpBg with
  | none => simp
  | some t =>
    have ht := htmp t h
    by_cases hl : t.1.length = N
    · simp [hl, ht]
    · simp [hl]

/-- C20 (NEURAL mix formula): in a quantum of `N` frames rendered with a worker
port attached and `aiMode = "onnx"`, in which both stem queues hold at least
`N` frames (so both deliver `N`), the sample at position `i < N` of each
output channel is (`0` if `muteVoice` else `voiceGain * voice[i]`) plus (`0`
if `muteBg` else `bgGain * bg[i]`), where `voice[i]` and `bg[i]` are the
`i`-th pending frames of `voiceQueue` and `bgQueue`, which the call consumes;
the `InlineSeparator` state is untouched.  The two scratch arrays, when
allocated, have one length (they are allocated together). -/
theorem neural_mix_formula (M : JsMath α) (p : HybridProcessor α) (b : Bufs α)
    (hq : b.Quantum) (hport : p.workerPort = true) (hmode : p.ctrl.aiMode = "onnx")
    (hv : b.Li.length ≤ framesBuffered p.voiceQueue)
    (hb : b.Li.length ≤ framesBuffered p.bgQueue)
    (htmp : ∀ t, p.tmpBg = some t → t.2.length = t.1.length) :
    (∀ i, i < b.Li.length →
      (p.process M b).bufs.Lo.getD i 0
        = (if p.ctrl.muteVoice then 0
            else p.ctrl.voiceGain * ((pendingFrames p.voiceQueue).getD i (0, 0)).1)
          + (if p.ctrl.muteBg then 0
            else p.ctrl.bgGain * ((pendingFrames p.bgQueue).getD i (0, 0)).1) ∧
      (p.process M b).bufs.Ro.getD i 0
        = (if p.ctrl.muteVoice then 0
            else p.ctrl.voiceGain * ((pendingFrames p.voiceQueue).getD i (0, 0)).2)
          + (if p.ctrl.muteBg then 0
            else p.ctrl.bgGain * ((pendingFrames p.bgQueue).getD i (0, 0)).2)) ∧
    (p.process M b).proc.inline = p.inline ∧
    pendingFrames (p.process M b).proc.voiceQueue
      = (pendingFrames p.voiceQueue).drop b.Li.length ∧
    pendingFrames (p.process M b).proc.bgQueue
      = (pendingFrames p.bgQueue).drop b.Li.length := by
  obtain ⟨hLo, hRo, _⟩ := hq
  have ht1 := tmpArrays_length p b.Li.length
  have ht2 := tmpArrays_length_snd p b.Li.length htmp
  have hfv : (p.voiceQueue.consumeStereo b.Lo b.Ro).filled = b.Li.length := by
    rw [(consumeStereo_filled_min p.voiceQueue b.Lo b.Ro).1, hLo]
    exact min_eq_left hv
  have hfb : (p.bgQueue.consumeStereo (p.tmpArrays b.Li.length).1
      (p.tmpArrays b.Li.length).2).filled = b.Li.length := by
    rw [(consumeStereo_filled_min p.bgQueue _ _).1, ht1]
    exact min_eq_left hb
  obtain ⟨cv1, cv2⟩ := consumeStereo_frames p.voiceQueue b.Lo b.Ro (by rw [hLo, hRo])
    (by rw [hfv, hLo])
  obtain ⟨cb1, cb2⟩ := consumeStereo_frames p.bgQueue (p.tmpArrays b.Li.length).1
    (p.tmpArrays b.Li.length).2 (by rw [ht1, ht2]) (by rw [hfb, ht1])
  have hlv := consumeStereo_lengths p.voiceQueue b.Lo b.Ro
  rw [hLo] at cv1 cv2
  rw [ht1] at cb1 cb2
  simp only [HybridProcessor.process, if_pos (And.intro hport hmode),
    if_pos (And.intro hfv hfb)]
  refine ⟨fun i hi => ?_, trivial, cv2, cb2⟩
  obtain ⟨m1, m2⟩ := neuralMix_loop_getD p.ctrl
    (p.bgQueue.consumeStereo (p.tmpArrays b.Li.length).1 (p.tmpArrays b.Li.length).2).outputL
    (p.bgQueue.consumeStereo (p.tmpArrays b.Li.length).1 (p.tmpArrays b.Li.length).2).outputR
    ((p.voiceQueue.consumeStereo b.Lo b.Ro).outputL, (p.voiceQueue.consumeStereo b.Lo b.Ro).outputR)
    b.Li.length (by rw [hlv.1, hLo]) (by rw [hlv.2, hRo]) i hi
  rw [m1, m2, (cv1 i hi).1, (cv1 i hi).2, (cb1 i hi).1, (cb1 i hi).2]
  exact ⟨rfl, rfl⟩

/-- C20, a concrete instance: both queues hold one fragment of two frames and
a quantum of two frames is rendered in NEURAL mode; the first left output
sample is `1 * 1 + 1 * 5`. -/
theorem neural_mix_formula_witness :
    (HybridProcessor.process JsMath.sample
      { ({ HybridProcessor.new with workerPort := true } : HybridProcessor ℚ) with
        ctrl := { ControlState.default with aiMode := "onnx" },
        voiceQueue := { buffers := [[1, 2, 3, 4]], offset := 0 },
        bgQueue := { buffers := [[5, 6, 7, 8]], offset := 0 } }
      { Li := [1 / 2, 1 / 4], Ri := some [1 / 2, 1 / 3], Lo := [0, 0], Ro := [0, 0] }
      ).bufs.Lo.getD 0 0 = 1 * 1 + 1 * 5 :=
  ((neural_mix_formula JsMath.sample
    { ({ HybridProcessor.new with workerPort := true } : HybridProcessor ℚ) with
      ctrl := { ControlState.default with aiMode := "onnx" },
      voiceQueue := { buffers := [[1, 2, 3, 4]], offset := 0 },
      bgQueue := { buffers := [[5, 6, 7, 8]], offset := 0 } }
    { Li := [1 / 2, 1 / 4], Ri := some [1 / 2, 1 / 3], Lo := [0, 0], Ro := [0, 0] }
    ⟨rfl, rfl, rfl⟩ rfl rfl (by decide) (by decide) (fun _ h => nomatch h)).1 0
      (by decide)).1

end NeuralMixTheorems

section VadTheorems
variable {α : Type} [LinearOrderedField α]

/-- Tonal trimming steps the background filters only. -/
theorem tonalTrim_keeps (ctrl : ControlState α) (sep : InlineSeparator α) (bL bR : α) :
    (tonalTrim ctrl sep bL bR).1.vadEnv = sep.vadEnv ∧
    (tonalTrim ctrl sep bL bR).1.lastW = sep.lastW ∧
    (tonalTrim ctrl sep bL bR).1.vadSmooth = sep.vadSmooth ∧
    (tonalTrim ctrl sep bL bR).1.presHP = sep.presHP := by
  unfold tonalTrim
  split_ifs <;> exact ⟨rfl, rfl, rfl, rfl⟩

/-- The first loop does not touch the voice-activity state. -/
theorem pass1_keeps_vad (ctrl : ControlState α) (s : Pass1 α) (N : Nat) :
    ((List.range N).foldl (pass1Step ctrl) s).sep.vadEnv = s.sep.vadEnv ∧
    ((List.range N).foldl (pass1Step ctrl) s).sep.lastW = s.sep.lastW :=
  foldl_range_inv (pass1Step ctrl)
    (fun _ t => t.sep.vadEnv = s.sep.vadEnv ∧ t.sep.lastW = s.sep.lastW) N
    (fun k t _ ht => by
      simp only [pass1Step, (tonalTrim_keeps _ _ _ _).1, (tonalTrim_keeps _ _ _ _).2.1]
      exact ht) s ⟨rfl, rfl⟩

/-- The second loop does not touch the voice-activity state. -/
theorem pass2_keeps_vad (M : JsMath α) (ctrl : ControlState α) (w : α) (s : Pass2 α) (N : Nat) :
    ((List.range N).foldl (pass2Step M ctrl w) s).sep.vadEnv = s.sep.vadEnv ∧
    ((List.range N).foldl (pass2Step M ctrl w) s).sep.lastW = s.sep.lastW :=
  foldl_range_inv (pass2Step M ctrl w)
    (fun _ t => t.sep.vadEnv = s.sep.vadEnv ∧ t.sep.lastW = s.sep.lastW) N
    (fun k t _ ht => by
      simp only [pass2Step]
      split_ifs
      · exact ht
      · exact ht) s ⟨rfl, rfl⟩

/-- After `processBlock`, `lastW` and the envelope state are the `wSmooth` of
the block; the envelope coefficients are as before. -/
theorem processBlock_vad (M : JsMath α) (sep : InlineSeparator α) (b : Bufs α)
    (ctrl : ControlState α) :
    (sep.processBlock M b ctrl).sep.lastW = wSmoothOf M sep b ctrl ∧
    (sep.processBlock M b ctrl).sep.vadEnv.y = wSmoothOf M sep b ctrl ∧
    (sep.processBlock M b ctrl).sep.vadEnv.a = sep.vadEnv.a ∧
    (sep.processBlock M b ctrl).sep.vadEnv.r = sep.vadEnv.r := by
  have h1 := pass1_keeps_vad ctrl
    ({ sep := sep, eSum := 0, zc := 0, prev := 0, bufs := b } : Pass1 α) b.Li.length
  have h2 := pass2_keeps_vad M ctrl (wSmoothOf M sep b ctrl)
    { sep := (vadUpdate M (pass1Of sep b ctrl).sep (pass1Of sep b ctrl).eSum
        (pass1Of sep b ctrl).zc b.Li.length).1,
      bufs := (pass1Of sep b ctrl).bufs } b.Li.length
  have hpb : sep.processBlock M b ctrl
      = (List.range b.Li.length).foldl (pass2Step M ctrl (wSmoothOf M sep b ctrl))
          { sep := (vadUpdate M (pass1Of sep b ctrl).sep (pass1Of sep b ctrl).eSum
              (pass1Of sep b ctrl).zc b.Li.length).1,
            bufs := (pass1Of sep b ctrl).bufs } := rfl
  have hp1 : (pass1Of sep b ctrl).sep.vadEnv = sep.vadEnv := h1.1
  rw [hpb, h2.1, h2.2]
  simp only [vadUpdate, wSmoothOf, Envelope.step, hp1, and_self]

/-- One step of the envelope stays between its input and its state. -/
theorem envelope_step_bound (e : Envelope α) (x c : α) (hx0 : 0 ≤ x) (hxc : x ≤ c)
    (hy0 : 0 ≤ e.y) (hyc : e.y ≤ c) (ha : 0 ≤ e.a ∧ e.a ≤ 1) (hr : 0 ≤ e.r ∧ e.r ≤ 1) :
    0 ≤ (e.step x).2 ∧ (e.step x).2 ≤ c := by
  have key : ∀ k : α, 0 ≤ k → k ≤ 1 → 0 ≤ e.y + k * (x - e.y) ∧ e.y + k * (x - e.y) ≤ c := by
    intro k hk0 hk1
    have e1 : e.y + k * (x - e.y) = (1 - k) * e.y + k * x := by ring
    rw [e1]
    constructor
    · exact add_nonneg (mul_nonneg (by linarith) hy0) (mul_nonneg hk0 hx0)
    · have h1 : (1 - k) * e.y ≤ (1 - k) * c := mul_le_mul_of_nonneg_left hyc (by linarith)
      have h2 : k * x ≤ k * c := mul_le_mul_of_nonneg_left hxc hk0
      have e2 : (1 - k) * c + k * c = c := by ring
      linarith
  simp only [Envelope.step]
  split_ifs
  · exact key e.a ha.1 ha.2
  · exact key e.r hr.1 hr.2

/-- The input of the envelope, `0.85 * (0.85 * lastW + 0.15 * w)`, is bounded
by `c` when `lastW` is, for every `c` from `17/37` up. -/
theorem vad_input_bound (lw w c : α) (hc : 17 / 37 ≤ c) (h0 : 0 ≤ lw) (h1 : lw ≤ c)
    (w0 : 0 ≤ w) (w1 : w ≤ 1) :
    0 ≤ 0.85 * (0.85 * lw + 0.15 * w) ∧ 0.85 * (0.85 * lw + 0.15 * w) ≤ c := by
  have e1 : (0.85 : α) = 17 / 20 := by norm_num
  have e2 : (0.15 : α) = 3 / 20 := by norm_num
  rw [e1, e2]
  constructor <;> linarith

/-- The raw weight `w` of line 51 lies in `[0, 1]`. -/
theorem raw_weight_range (t : α) (p : Prop) [Decidable p] :
    0 ≤ (if p then max 0 (min 1 t) else 0) ∧ (if p then max 0 (min 1 t) else (0 : α)) ≤ 1 := by
  split_ifs
  · exact ⟨le_max_left _ _, max_le (by norm_num) (min_le_left _ _)⟩
  · exact ⟨le_refl _, by norm_num⟩

/-- The value `wSmooth` of the voice-activity update is bounded by `c` when
the state is, for every `c` from `17/37` up. -/
theorem vadUpdate_bound (M : JsMath α) (sep : InlineSeparator α) (eSum : α) (zc N : Nat)
    (c : α) (hc : 17 / 37 ≤ c) (h : VadBounded c sep) :
    0 ≤ (vadUpdate M sep eSum zc N).2 ∧ (vadUpdate M sep eSum zc N).2 ≤ c := by
  obtain ⟨⟨l0, lc⟩, ⟨y0, yc⟩, ha, hr⟩ := h
  simp only [vadUpdate]
  apply envelope_step_bound _ _ c _ _ y0 yc ha hr
  · exact (vad_input_bound _ _ c hc l0 lc (raw_weight_range _ _).1 (raw_weight_range _ _).2).1
  · exact (vad_input_bound _ _ c hc l0 lc (raw_weight_range _ _).1 (raw_weight_range _ _).2).2

/-- The voice-activity state of a new separator is bounded by every `c ≥ 0`. -/
theorem vadBounded_new (c : α) (hc : 0 ≤ c) :
    VadBounded c (InlineSeparator.new : InlineSeparator α) := by
  refine ⟨⟨le_refl _, hc⟩, ⟨le_refl _, hc⟩, ⟨?_, ?_⟩, ⟨?_, ?_⟩⟩ <;>
    simp only [InlineSeparator.new, Envelope.new] <;> norm_num

/-- One block keeps the bound on the voice-activity state. -/
theorem processBlock_vadBounded (M : JsMath α) (sep : InlineSeparator α) (b : Bufs α)
    (ctrl : ControlState α) (c : α) (hc : 17 / 37 ≤ c) (h : VadBounded c sep) :
    VadBounded c (sep.processBlock M b ctrl).sep ∧
    0 ≤ wSmoothOf M sep b ctrl ∧ wSmoothOf M sep b ctrl ≤ c := by
  obtain ⟨p1, p2, p3, p4⟩ := processBlock_vad M sep b ctrl
  have h1 := pass1_keeps_vad ctrl
    ({ sep := sep, eSum := 0, zc := 0, prev := 0, bufs := b } : Pass1 α) b.Li.length
  have hb1 : VadBounded c (pass1Of sep b ctrl).sep := by
    unfold VadBounded pass1Of
    rw [h1.1, h1.2]
    exact h
  have hw := vadUpdate_bound M (pass1Of sep b ctrl).sep (pass1Of sep b ctrl).eSum
    (pass1Of sep b ctrl).zc b.Li.length c hc hb1
  have hw2 : 0 ≤ wSmoothOf M sep b ctrl ∧ wSmoothOf M sep b ctrl ≤ c := hw
  refine ⟨?_, hw2⟩
  unfold VadBounded
  rw [p1, p2, p3, p4]
  exact ⟨hw2, hw2, h.2.2.1, h.2.2.2⟩

/-- Every history of blocks from a new separator keeps the bound. -/
theorem runBlocks_vadBounded (M : JsMath α) (blocks : List (Bufs α × ControlState α))
    (sep : InlineSeparator α) (c : α) (hc : 17 / 37 ≤ c) (h : VadBounded c sep) :
    VadBounded c (sep.runBlocks M blocks) := by
  induction blocks generalizing sep with
  | nil => exact h
  | cons bc rest ih =>
    simp only [InlineSeparator.runBlocks, List.foldl_cons]
    exact ih _ (processBlock_vadBounded M sep bc.1 bc.2 c hc h).1

/-- C21 (voice-activity weight range): after any sequence of blocks processed
from the initial separator state, the `wSmooth` that `processBlock` computes
for the next block lies in `[0, 1]`, and it is the value left in `lastW`. -/
theorem vad_weight_range (M : JsMath α) (blocks : List (Bufs α × ControlState α))
    (b : Bufs α) (ctrl : ControlState α) :
    0 ≤ wSmoothOf M (InlineSeparator.new.runBlocks M blocks) b ctrl ∧
    wSmoothOf M (InlineSeparator.new.runBlocks M blocks) b ctrl ≤ 1 ∧
    (InlineSeparator.new.runBlocks M (blocks ++ [(b, ctrl)])).lastW
      = wSmoothOf M (InlineSeparator.new.runBlocks M blocks) b ctrl := by
  have hb := runBlocks_vadBounded M blocks InlineSeparator.new 1 (by norm_num)
    (vadBounded_new 1 (by norm_num))
  have h := processBlock_vadBounded M _ b ctrl 1 (by norm_num) hb
  refine ⟨h.2.1, h.2.2, ?_⟩
  simp only [InlineSeparator.runBlocks, List.foldl_append, List.foldl_cons, List.foldl_nil]
  exact (processBlock_vad M _ b ctrl).1

end VadTheorems

section CeilingTheorems

/-- C26 as stated fails: the bound on `duckAtten` needs a non-negative
`duckDepth`.  With `duckDepth = -1` and `duckPower = 1`, a silent first block
has `wSmooth = 0` and `duckAtten = 0`, which exceeds
`duckDepth * (17/37) ^ duckPower = -17/37`. -/
theorem ducking_ceiling_counterexample :
    ¬ (∀ (ctrl : ControlState ℝ) (blocks : List (Bufs ℝ × ControlState ℝ)) (b : Bufs ℝ),
        0 < ctrl.duckPower.getD 1.6 →
        duckAtten ({ sqrt := Real.sqrt, pow := (fun x y => x ^ y), cos := Real.cos, pi := Real.pi } :
            JsMath ℝ) ctrl
          (wSmoothOf ({ sqrt := Real.sqrt, pow := (fun x y => x ^ y), cos := Real.cos, pi := Real.pi } :
              JsMath ℝ)
            (InlineSeparator.new.runBlocks
              ({ sqrt := Real.sqrt, pow := (fun x y => x ^ y), cos := Real.cos, pi := Real.pi } :
                JsMath ℝ) blocks) b ctrl)
          ≤ ctrl.duckDepth.getD 0.75 * (17 / 37 : ℝ) ^ (ctrl.duckPower.getD 1.6)) := by
  intro h
  have h1 := h { ControlState.default with duckDepth := some (-1), duckPower := some 1 } []
    { Li := [0], Ri := some [0], Lo := [0], Ro := [0] } (by norm_num)
  have hw : wSmoothOf ({ sqrt := Real.sqrt, pow := (fun x y => x ^ y), cos := Real.cos, pi := Real.pi } :
      JsMath ℝ) (InlineSeparator.new.runBlocks
        ({ sqrt := Real.sqrt, pow := (fun x y => x ^ y), cos := Real.cos, pi := Real.pi } :
          JsMath ℝ) [])
      { Li := [0], Ri := some [0], Lo := [0], Ro := [0] }
      { ControlState.default with duckDepth := some (-1), duckPower := some 1 } = 0 := by
    simp [wSmoothOf, pass1Of, vadUpdate, pass1Step, tonalTrim, Envelope.step, OnePoleHP.step,
      OnePoleLP.step, InlineSeparator.new, InlineSeparator.runBlocks, OnePoleHP.new,
      OnePoleLP.new, Envelope.new, ControlState.default, Bufs.R, Bufs.setIn, List.range_succ]
  rw [hw] at h1
  simp only [duckAtten, Option.getD_some] at h1
  norm_num at h1

/-- C26 (amended): after any sequence of blocks processed from the initial
state, whatever the raw weights, `wSmooth` never exceeds `17/37`; consequently,
with `Math.pow` the real power function, `duckAtten` never exceeds
`duckDepth * (17/37) ^ duckPower` for `duckPower > 0` and `duckDepth >= 0`. -/
theorem ducking_ceiling (sq cs : ℝ → ℝ) (p : ℝ) (blocks : List (Bufs ℝ × ControlState ℝ))
    (b : Bufs ℝ) (ctrl : ControlState ℝ)
    (hd : 0 ≤ ctrl.duckDepth.getD 0.75) (hp : 0 < ctrl.duckPower.getD 1.6) :
    wSmoothOf ({ sqrt := sq, pow := (fun x y => x ^ y), cos := cs, pi := p } : JsMath ℝ)
        (InlineSeparator.new.runBlocks
          ({ sqrt := sq, pow := (fun x y => x ^ y), cos := cs, pi := p } : JsMath ℝ) blocks)
        b ctrl ≤ 17 / 37 ∧
    duckAtten ({ sqrt := sq, pow := (fun x y => x ^ y), cos := cs, pi := p } : JsMath ℝ) ctrl
        (wSmoothOf ({ sqrt := sq, pow := (fun x y => x ^ y), cos := cs, pi := p } : JsMath ℝ)
          (InlineSeparator.new.runBlocks
            ({ sqrt := sq, pow := (fun x y => x ^ y), cos := cs, pi := p } : JsMath ℝ) blocks)
          b ctrl)
      ≤ ctrl.duckDepth.getD 0.75 * (17 / 37 : ℝ) ^ (ctrl.duckPower.getD 1.6) := by
  have hb := runBlocks_vadBounded
    ({ sqrt := sq, pow := (fun x y => x ^ y), cos := cs, pi := p } : JsMath ℝ) blocks
    InlineSeparator.new (17 / 37) (le_refl _) (vadBounded_new (17 / 37) (by norm_num))
  have h := processBlock_vadBounded
    ({ sqrt := sq, pow := (fun x y => x ^ y), cos := cs, pi := p } : JsMath ℝ) _ b ctrl (17 / 37)
    (le_refl _) hb
  refine ⟨h.2.2, ?_⟩
  simp only [duckAtten]
  exact mul_le_mul_of_nonneg_left (Real.rpow_le_rpow h.2.1 h.2.2 (le_of_lt hp)) hd

/-- C26 (amended), a concrete instance: the default control record (depth
`0.75`, power `1.6`) on a first block of one frame. -/
theorem ducking_ceiling_witness :
    wSmoothOf ({ sqrt := Real.sqrt, pow := (fun x y => x ^ y), cos := Real.cos, pi := Real.pi } :
        JsMath ℝ)
        (InlineSeparator.new.runBlocks
          ({ sqrt := Real.sqrt, pow := (fun x y => x ^ y), cos := Real.cos, pi := Real.pi } :
            JsMath ℝ) [])
        { Li := [1], Ri := some [1], Lo := [0], Ro := [0] } ControlState.default ≤ 17 / 37 :=
  (ducking_ceiling Real.sqrt Real.cos Real.pi []
    { Li := [1], Ri := some [1], Lo := [0], Ro := [0] } ControlState.default
    (by norm_num [ControlState.default]) (by norm_num [ControlState.default])).1

end CeilingTheorems

section SlideTheorems
variable {α : Type} [LinearOrderedField α] {σ : Type}

/-- The two typed-array calls of `slideOla` on one buffer of length `n`: the
elements from `k` on, followed by `k` zeros. -/
theorem slide_list (l : List α) (k n : Nat) (hn : l.length = n) (hk : k ≤ n) :
    fillFrom (copyWithin0 l k) (n - k) = l.drop k ++ List.replicate k 0 := by
  unfold fillFrom copyWithin0
  have h1 : (l.drop k).length = n - k := by rw [List.length_drop, hn]
  have h2 : (l.drop k ++ l.drop (l.length - k)).length - (n - k) = k := by
    simp only [List.length_append, List.length_drop, hn]
    omega
  rw [List.take_left' h1, h2]

/-- One buffer after `slideOla`, sample by sample. -/
theorem slide_getD (l : List α) (hl : l.length = BLOCK) :
    (fillFrom (copyWithin0 l HOP) (BLOCK - HOP)).length = BLOCK ∧
    (∀ i, i < HOP → (fillFrom (copyWithin0 l HOP) (BLOCK - HOP)).getD i 0 = l.getD (i + HOP) 0) ∧
    (∀ i, HOP ≤ i → (fillFrom (copyWithin0 l HOP) (BLOCK - HOP)).getD i 0 = 0) := by
  have h1 : HOP = 2048 := by decide
  have h2 : BLOCK = 4096 := rfl
  rw [slide_list l HOP BLOCK hl (by omega)]
  have hd : (l.drop HOP).length = HOP := by rw [List.length_drop, hl]; omega
  refine ⟨?_, ?_, ?_⟩
  · rw [List.length_append, hd, List.length_replicate]
    omega
  · intro i hi
    rw [List.getD_eq_getElem?_getD, List.getD_eq_getElem?_getD,
      List.getElem?_append_left (by rw [hd]; exact hi), List.getElem?_drop, Nat.add_comm]
  · intro i hi
    rw [List.getD_eq_getElem?_getD, List.getElem?_append_right (by rw [hd]; exact hi)]
    by_cases hlt : i - (l.drop HOP).length < HOP
    · rw [List.getElem?_replicate_of_lt hlt]
      rfl
    · rw [List.getElem?_eq_none (by rw [List.length_replicate]; omega)]
      rfl

/-- C22 (OLA ring-shift): for accumulators of length `BLOCK`, after `slideOla`
each of the four buffers still has length `BLOCK`, holds `old[i + HOP]` at
`i < HOP` and `0` at `HOP <= i < BLOCK`; one loop iteration emits per stem the
fragment `hop[2i] = olaL[i]`, `hop[2i+1] = olaR[i]` (`i < HOP`) read from the
accumulators before the shift, and leaves the shifted accumulators. -/
theorem slideOla_ring_shift (o : OlaState α)
    (h1 : o.olaVoiceL.length = BLOCK) (h2 : o.olaVoiceR.length = BLOCK)
    (h3 : o.olaBgL.length = BLOCK) (h4 : o.olaBgR.length = BLOCK) :
    ((slideOla o).olaVoiceL.length = BLOCK ∧ (slideOla o).olaVoiceR.length = BLOCK ∧
      (slideOla o).olaBgL.length = BLOCK ∧ (slideOla o).olaBgR.length = BLOCK) ∧
    (∀ i, i < HOP →
      (slideOla o).olaVoiceL.getD i 0 = o.olaVoiceL.getD (i + HOP) 0 ∧
      (slideOla o).olaVoiceR.getD i 0 = o.olaVoiceR.getD (i + HOP) 0 ∧
      (slideOla o).olaBgL.getD i 0 = o.olaBgL.getD (i + HOP) 0 ∧
      (slideOla o).olaBgR.getD i 0 = o.olaBgR.getD (i + HOP) 0) ∧
    (∀ i, HOP ≤ i → i < BLOCK →
      (slideOla o).olaVoiceL.getD i 0 = 0 ∧ (slideOla o).olaVoiceR.getD i 0 = 0 ∧
      (slideOla o).olaBgL.getD i 0 = 0 ∧ (slideOla o).olaBgR.getD i 0 = 0) ∧
    (∀ i, i < HOP →
      (hopFragment o.olaVoiceL o.olaVoiceR).getD (2 * i) 0 = o.olaVoiceL.getD i 0 ∧
      (hopFragment o.olaVoiceL o.olaVoiceR).getD (2 * i + 1) 0 = o.olaVoiceR.getD i 0 ∧
      (hopFragment o.olaBgL o.olaBgR).getD (2 * i) 0 = o.olaBgL.getD i 0 ∧
      (hopFragment o.olaBgL o.olaBgR).getD (2 * i + 1) 0 = o.olaBgR.getD i 0) ∧
    (∀ (s : WindowLoop α σ) (r : RunModel α σ),
      (s.next r o).ola = slideOla o ∧
      (s.next r o).outVoice = s.outVoice ++ [hopFragment o.olaVoiceL o.olaVoiceR] ∧
      (s.next r o).outBg = s.outBg ++ [hopFragment o.olaBgL o.olaBgR]) := by
  obtain ⟨a1, a2, a3⟩ := slide_getD o.olaVoiceL h1
  obtain ⟨b1, b2, b3⟩ := slide_getD o.olaVoiceR h2
  obtain ⟨c1, c2, c3⟩ := slide_getD o.olaBgL h3
  obtain ⟨d1, d2, d3⟩ := slide_getD o.olaBgR h4
  refine ⟨⟨a1, b1, c1, d1⟩, fun i hi => ⟨a2 i hi, b2 i hi, c2 i hi, d2 i hi⟩,
    fun i hi _ => ⟨a3 i hi, b3 i hi, c3 i hi, d3 i hi⟩, fun i hi => ?_,
    fun s r => ⟨rfl, rfl, rfl⟩⟩
  have hv := getD_flatMap_pair (fun i => o.olaVoiceL.getD i 0) (fun i => o.olaVoiceR.getD i 0)
    HOP i hi 0
  have hb := getD_flatMap_pair (fun i => o.olaBgL.getD i 0) (fun i => o.olaBgR.getD i 0)
    HOP i hi 0
  exact ⟨hv.1, hv.2, hb.1, hb.2⟩

/-- C22, a concrete instance: the accumulators as allocated. -/
theorem slideOla_ring_shift_witness :
    (slideOla (OlaState.zero : OlaState ℚ)).olaVoiceL.length = BLOCK :=
  (@slideOla_ring_shift ℚ _ Unit (OlaState.zero : OlaState ℚ) (List.length_replicate _ _)
    (List.length_replicate _ _) (List.length_replicate _ _) (List.length_replicate _ _)).1.1

end SlideTheorems

section NegotiationTheorems
variable {α : Type} [LinearOrderedField α] {σ : Type}

/-- Reading the output tensor changes neither the session state nor the
names. -/
theorem runModelFinish_fields (M : JsMath α) (st : σ) (names : IoNames) (outputs : Outputs α)
    (L R : List α) :
    (runModelFinish M st names outputs L R).state = st ∧
    (runModelFinish M st names outputs L R).ioNames = some names := by
  unfold runModelFinish
  split
  · exact ⟨rfl, rfl⟩
  · split_ifs <;> exact ⟨rfl, rfl⟩

/-- The output read under the first key of an output object whose first
tensor is long enough is that tensor, windowed. -/
theorem runModelFinish_first (M : JsMath α) (st : σ) (name : String) (k : String) (y : List α)
    (rest : Outputs α) (L R : List α) (hy : 2 * BLOCK ≤ y.length) :
    (runModelFinish M st { inName := name, outName := firstKey ((k, y) :: rest) }
        ((k, y) :: rest) L R).out
      = some ((List.range BLOCK).flatMap
          (fun i => [y.getD i 0 * WIN M i, y.getD (i + BLOCK) 0 * WIN M i])) := by
  have hl : outputData ((k, y) :: rest) (firstKey ((k, y) :: rest)) = some y := by
    simp [outputData, firstKey, List.lookup]
  simp only [runModelFinish, hl, if_neg (Nat.not_lt.mpr hy)]

/-- C23 (tensor-name negotiation), for a call with cached names `names` in
session state `st`.  If the run under the cached input name succeeds, that is
the only run, its outputs are read and `ioNames` is unchanged.  If it fails,
exactly one more run follows, under `"input_1"`: if that succeeds its outputs
are read for this window (its first tensor, windowed, when that is long enough)
and `ioNames` becomes `{ in: "input_1", out: first key }`, which is what the
next call starts from; if it fails too the window is passed through and
`ioNames` is unchanged. -/
theorem name_negotiation (M : JsMath α) (S : Session α σ) (st : σ) (names : IoNames)
    (L R : List α) :
    (∀ outputs st1, S.run st names.inName (L ++ R) = (some outputs, st1) →
      (runModelStereo M S st (some names) L R).ioNames = some names ∧
      (runModelStereo M S st (some names) L R).state = st1 ∧
      (runModelStereo M S st (some names) L R).out
        = (runModelFinish M st1 names outputs L R).out) ∧
    (∀ st1, S.run st names.inName (L ++ R) = (none, st1) →
      (runModelStereo M S st (some names) L R).state = (S.run st1 "input_1" (L ++ R)).2 ∧
      (∀ outputs st2, S.run st1 "input_1" (L ++ R) = (some outputs, st2) →
        (runModelStereo M S st (some names) L R).ioNames
          = some { inName := "input_1", outName := firstKey outputs } ∧
        (runModelStereo M S st (some names) L R).out
          = (runModelFinish M st2 { inName := "input_1", outName := firstKey outputs }
              outputs L R).out ∧
        (∀ k y rest, outputs = (k, y) :: rest → 2 * BLOCK ≤ y.length →
          (runModelStereo M S st (some names) L R).out
            = some ((List.range BLOCK).flatMap
                (fun i => [y.getD i 0 * WIN M i, y.getD (i + BLOCK) 0 * WIN M i]))) ∧
        (∀ L2 R2 : List α,
          runModelStereo M S st2 (runModelStereo M S st (some names) L R).ioNames L2 R2
            = runModelCached M S st2 { inName := "input_1", outName := firstKey outputs }
                L2 R2)) ∧
      (∀ st2, S.run st1 "input_1" (L ++ R) = (none, st2) →
        (runModelStereo M S st (some names) L R).ioNames = some names ∧
        (runModelStereo M S st (some names) L R).out = some (passthroughStereo L R))) := by
  refine ⟨?_, ?_⟩
  · intro outputs st1 h
    have hf := runModelFinish_fields M st1 names outputs L R
    have hr : runModelStereo M S st (some names) L R
        = runModelFinish M st1 names outputs L R := by
      simp only [runModelStereo, runModelCached, h]
    rw [hr]
    exact ⟨hf.2, hf.1, rfl⟩
  · intro st1 h
    refine ⟨?_, ?_, ?_⟩
    · rcases h2 : S.run st1 "input_1" (L ++ R) with ⟨o2, st2⟩
      cases o2 with
      | none => simp only [runModelStereo, runModelCached, h, h2]
      | some outputs =>
        simp only [runModelStereo, runModelCached, h, h2]
        exact (runModelFinish_fields M st2 _ outputs L R).1
    · intro outputs st2 h2
      have hf := runModelFinish_fields M st2
        { inName := "input_1", outName := firstKey outputs } outputs L R
      have hr : runModelStereo M S st (some names) L R
          = runModelFinish M st2 { inName := "input_1", outName := firstKey outputs }
              outputs L R := by
        simp only [runModelStereo, runModelCached, h, h2]
      refine ⟨by rw [hr]; exact hf.2, by rw [hr], ?_, ?_⟩
      · intro k y rest ho hy
        rw [hr, ho]
        exact runModelFinish_first M st2 "input_1" k y rest L R hy
      · intro L2 R2
        rw [hr, hf.2]
        rfl
    · intro st2 h2
      simp only [runModelStereo, runModelCached, h, h2, and_self]

end NegotiationTheorems

section TonalTheorems
variable {α : Type} [LinearOrderedField α]

/-- The pair tonal trimming returns, as two linear blends, for non-negative
cut values. -/
theorem tonalTrim_value (ctrl : ControlState α) (sep : InlineSeparator α) (bL bR : α)
    (hm : 0 ≤ ctrl.musicCut) (hs : 0 ≤ ctrl.sfxCut) :
    (tonalTrim ctrl sep bL bR).2.1
      = (1 - ctrl.sfxCut) * ((1 - ctrl.musicCut) * bL + ctrl.musicCut * (sep.bgHpL.step bL).2)
        + ctrl.sfxCut * (sep.bgLpL.step
            ((1 - ctrl.musicCut) * bL + ctrl.musicCut * (sep.bgHpL.step bL).2)).2 ∧
    (tonalTrim ctrl sep bL bR).2.2
      = (1 - ctrl.sfxCut) * ((1 - ctrl.musicCut) * bR + ctrl.musicCut * (sep.bgHpR.step bR).2)
        + ctrl.sfxCut * (sep.bgLpR.step
            ((1 - ctrl.musicCut) * bR + ctrl.musicCut * (sep.bgHpR.step bR).2)).2 := by
  unfold tonalTrim
  rcases lt_or_eq_of_le hm with hm1 | hm0
  · rcases lt_or_eq_of_le hs with hs1 | hs0
    · simp only [gt_iff_lt, hm1, hs1, if_true, and_self]
    · simp only [gt_iff_lt, hm1, if_true, ← hs0, lt_irrefl, if_false, sub_zero, one_mul,
        zero_mul, add_zero, and_self]
  · rcases lt_or_eq_of_le hs with hs1 | hs0
    · simp only [gt_iff_lt, ← hm0, lt_irrefl, if_false, hs1, if_true, sub_zero, one_mul,
        zero_mul, add_zero, and_self]
    · simp only [gt_iff_lt, ← hm0, ← hs0, lt_irrefl, if_false, sub_zero, one_mul, zero_mul,
        add_zero, and_self]

/-- With both cuts zero tonal trimming is the identity and steps no filter. -/
theorem tonalTrim_zero (ctrl : ControlState α) (sep : InlineSeparator α) (bL bR : α)
    (hm : ctrl.musicCut = 0) (hs : ctrl.sfxCut = 0) :
    tonalTrim ctrl sep bL bR = (sep, bL, bR) := by
  simp [tonalTrim, hm, hs]

/-- C24 (tonal trimming is a linear blend): in any iteration `i` of the first
loop of `processBlock` on a stereo block, with `v` the voice estimate of the
iteration (stored to `Lo[i]`), background residuals `bL = Li[i] - v`,
`bR = Ri[i] - v` and non-negative `musicCut = m`, `sfxCut = s`, the values
stored to `Li[i]` and `Ri[i]` are `(1-s)*b1 + s*lowpass(b1)` with
`b1 = (1-m)*b + m*highpass(b)`, the filters being the background filters of
the channel in their state before the iteration.  With `m = 0` and `s = 0`
the stored background is `b` itself and the four background filters are
unchanged; with `m = 1` and `s = 0` it is the high-passed residual. -/
theorem tonal_trim_blend (ctrl : ControlState α) (st : Pass1 α) (i : Nat) (r : List α)
    (hRi : st.bufs.Ri = some r) (hi : i < st.bufs.Li.length) (hir : i < r.length)
    (hLo : i < st.bufs.Lo.length)
    (hm : 0 ≤ ctrl.musicCut) (hs : 0 ≤ ctrl.sfxCut) :
    (pass1Step ctrl st i).bufs.Lo.getD i 0 = (pass1Step ctrl st i).prev ∧
    (pass1Step ctrl st i).bufs.Li.getD i 0
      = (1 - ctrl.sfxCut)
          * ((1 - ctrl.musicCut) * (st.bufs.Li.getD i 0 - (pass1Step ctrl st i).prev)
            + ctrl.musicCut
              * (st.sep.bgHpL.step (st.bufs.Li.getD i 0 - (pass1Step ctrl st i).prev)).2)
        + ctrl.sfxCut * (st.sep.bgLpL.step
            ((1 - ctrl.musicCut) * (st.bufs.Li.getD i 0 - (pass1Step ctrl st i).prev)
              + ctrl.musicCut
                * (st.sep.bgHpL.step (st.bufs.Li.getD i 0 - (pass1Step ctrl st i).prev)).2)).2 ∧
    (pass1Step ctrl st i).bufs.R.getD i 0
      = (1 - ctrl.sfxCut)
          * ((1 - ctrl.musicCut) * (r.getD i 0 - (pass1Step ctrl st i).prev)
            + ctrl.musicCut
              * (st.sep.bgHpR.step (r.getD i 0 - (pass1Step ctrl st i).prev)).2)
        + ctrl.sfxCut * (st.sep.bgLpR.step
            ((1 - ctrl.musicCut) * (r.getD i 0 - (pass1Step ctrl st i).prev)
              + ctrl.musicCut
                * (st.sep.bgHpR.step (r.getD i 0 - (pass1Step ctrl st i).prev)).2)).2 ∧
    (ctrl.musicCut = 0 → ctrl.sfxCut = 0 →
      (pass1Step ctrl st i).bufs.Li.getD i 0
        = st.bufs.Li.getD i 0 - (pass1Step ctrl st i).prev ∧
      (pass1Step ctrl st i).bufs.R.getD i 0 = r.getD i 0 - (pass1Step ctrl st i).prev ∧
      (pass1Step ctrl st i).sep.bgHpL = st.sep.bgHpL ∧
      (pass1Step ctrl st i).sep.bgHpR = st.sep.bgHpR ∧
      (pass1Step ctrl st i).sep.bgLpL = st.sep.bgLpL ∧
      (pass1Step ctrl st i).sep.bgLpR = st.sep.bgLpR) ∧
    (ctrl.musicCut = 1 → ctrl.sfxCut = 0 →
      (pass1Step ctrl st i).bufs.Li.getD i 0
        = (st.sep.bgHpL.step (st.bufs.Li.getD i 0 - (pass1Step ctrl st i).prev)).2 ∧
      (pass1Step ctrl st i).bufs.R.getD i 0
        = (st.sep.bgHpR.step (r.getD i 0 - (pass1Step ctrl st i).prev)).2) := by
  have hR : st.bufs.R = r := by simp [Bufs.R, hRi]
  have hstore : ∀ (sep1 : InlineSeparator α) (v : α) (t : InlineSeparator α × α × α),
      ((({ st.bufs with Lo := st.bufs.Lo.set i v, Ro := st.bufs.Ro.set i v } : Bufs α).setIn i
          t.2.1 t.2.2).Lo.getD i 0 = v) ∧
      ((({ st.bufs with Lo := st.bufs.Lo.set i v, Ro := st.bufs.Ro.set i v } : Bufs α).setIn i
          t.2.1 t.2.2).Li.getD i 0 = t.2.1) ∧
      ((({ st.bufs with Lo := st.bufs.Lo.set i v, Ro := st.bufs.Ro.set i v } : Bufs α).setIn i
          t.2.1 t.2.2).R.getD i 0 = t.2.2) := by
    intro sep1 v t
    simp only [Bufs.setIn, hRi, Bufs.R, Option.getD_some]
    exact ⟨getD_set_self _ _ _ _ hLo, getD_set_self _ _ _ _ hi, getD_set_self _ _ _ _ hir⟩
  have hval := fun (sep1 : InlineSeparator α) (bL bR : α) =>
    tonalTrim_value ctrl sep1 bL bR hm hs
  have e1 : (pass1Step ctrl st i).bufs.Lo.getD i 0 = (pass1Step ctrl st i).prev := by
    simp only [pass1Step]
    exact (hstore st.sep _ _).1
  have e2 : (pass1Step ctrl st i).bufs.Li.getD i 0
      = (tonalTrim ctrl
          { st.sep with
            vHp := (st.sep.vHp.step (0.5 * (st.bufs.Li.getD i 0 + st.bufs.R.getD i 0))).1,
            vLp := (st.sep.vLp.step
              (st.sep.vHp.step (0.5 * (st.bufs.Li.getD i 0 + st.bufs.R.getD i 0))).2).1 }
          (st.bufs.Li.getD i 0 - (pass1Step ctrl st i).prev)
          (st.bufs.R.getD i 0 - (pass1Step ctrl st i).prev)).2.1 := by
    simp only [pass1Step]
    exact (hstore st.sep _ _).2.1
  have e3 : (pass1Step ctrl st i).bufs.R.getD i 0
      = (tonalTrim ctrl
          { st.sep with
            vHp := (st.sep.vHp.step (0.5 * (st.bufs.Li.getD i 0 + st.bufs.R.getD i 0))).1,
            vLp := (st.sep.vLp.step
              (st.sep.vHp.step (0.5 * (st.bufs.Li.getD i 0 + st.bufs.R.getD i 0))).2).1 }
          (st.bufs.Li.getD i 0 - (pass1Step ctrl st i).prev)
          (st.bufs.R.getD i 0 - (pass1Step ctrl st i).prev)).2.2 := by
    simp only [pass1Step]
    exact (hstore st.sep _ _).2.2
  have e4 : (pass1Step ctrl st i).sep
      = (tonalTrim ctrl
          { st.sep with
            vHp := (st.sep.vHp.step (0.5 * (st.bufs.Li.getD i 0 + st.bufs.R.getD i 0))).1,
            vLp := (st.sep.vLp.step
              (st.sep.vHp.step (0.5 * (st.bufs.Li.getD i 0 + st.bufs.R.getD i 0))).2).1 }
          (st.bufs.Li.getD i 0 - (pass1Step ctrl st i).prev)
          (st.bufs.R.getD i 0 - (pass1Step ctrl st i).prev)).1 := rfl
  rw [hR] at e2 e3 e4
  have f2 := e2.trans (hval _ _ _).1
  have f3 := e3.trans (hval _ _ _).2
  refine ⟨e1, f2, f3, ?_, ?_⟩
  · intro h0 hs0
    rw [e2, e3, e4, tonalTrim_zero ctrl _ _ _ h0 hs0]
    exact ⟨rfl, rfl, rfl, rfl, rfl, rfl⟩
  · intro h1 hs0
    rw [f2, f3, h1, hs0]
    constructor <;> ring

/-- C24, a concrete instance: the first frame of a stereo block with
`musicCut = 1`, `sfxCut = 0`. -/
theorem tonal_trim_blend_witness :
    (pass1Step ({ ControlState.default with musicCut := 1 } : ControlState ℚ)
        { sep := InlineSeparator.new, eSum := 0, zc := 0, prev := 0,
          bufs := { Li := [1 / 2, 1 / 4], Ri := some [1 / 2, 1 / 3], Lo := [0, 0], Ro := [0, 0] } }
        0).bufs.Lo.getD 0 0
      = (pass1Step ({ ControlState.default with musicCut := 1 } : ControlState ℚ)
        { sep := InlineSeparator.new, eSum := 0, zc := 0, prev := 0,
          bufs := { Li := [1 / 2, 1 / 4], Ri := some [1 / 2, 1 / 3], Lo := [0, 0], Ro := [0, 0] } }
        0).prev :=
  (tonal_trim_blend ({ ControlState.default with musicCut := 1 } : ControlState ℚ)
    { sep := InlineSeparator.new, eSum := 0, zc := 0, prev := 0,
      bufs := { Li := [1 / 2, 1 / 4], Ri := some [1 / 2, 1 / 3], Lo := [0, 0], Ro := [0, 0] } }
    0 [1 / 2, 1 / 3] rfl (by decide) (by decide) (by decide)
    (by norm_num [ControlState.default]) (by norm_num [ControlState.default])).1

end TonalTheorems

section IdempotenceTheorems
variable {α : Type} [LinearOrderedField α]

/-- A number already in `[0, 2]` is a fixed point of `norm`. -/
theorem norm_of_range (g : α) (h0 : 0 ≤ g) (h2 : g ≤ 2) : norm (JsVal.num g) = g := by
  have h4 : ¬ g > 4 := by
    intro h
    have : (2 : α) < 4 := by norm_num
    exact absurd (lt_of_lt_of_le (lt_trans this h) h2) (lt_irrefl _)
  simp only [norm, if_neg h4, min_eq_right h2, max_eq_right h0]

theorem sepWorkerNorm_eq (v : JsVal α) : sepWorkerNorm v = norm v := by
  cases v <;> rfl

/-- C25 (normalisation is idempotent): `norm(norm(x)) = norm(x)` for every
number `x` (and for every value, `norm` of a non-number being `1`), for the
worklet's `norm` and the worker's; so a gain carried by a CONTROL patch is
stored by the worklet as `norm(v)`, forwarded in the merged record, and stored
by the worker, which normalises it again, as the same `norm(v)`; and any
forwarded gain that lies in `[0, 2]` is stored by the worker unchanged. -/
theorem norm_idempotent :
    (∀ x : α, norm (JsVal.num (norm (JsVal.num x))) = norm (JsVal.num x)) ∧
    (∀ v : JsVal α, norm (JsVal.num (norm v)) = norm v ∧
      sepWorkerNorm (JsVal.num (norm v)) = norm v) ∧
    (∀ (w : Worklet α) (patch : Obj α) (wc : WorkerCtrl α) (k : String) (v : JsVal α),
      w.proc.workerPort = true → (k = "voiceGain" ∨ k = "bgGain") → patch k = some v →
      ∃ o, (w.onControl (some patch)).2 = some o ∧ o k = some (JsVal.num (norm v)) ∧
        (k = "voiceGain" →
          (wc.onControl o).voiceGain = norm v ∧
          (w.onControl (some patch)).1.proc.ctrl.voiceGain = norm v) ∧
        (k = "bgGain" →
          (wc.onControl o).bgGain = norm v ∧
          (w.onControl (some patch)).1.proc.ctrl.bgGain = norm v)) ∧
    (∀ (wc : WorkerCtrl α) (o : Obj α) (g : α), 0 ≤ g → g ≤ 2 →
      (o "voiceGain" = some (JsVal.num g) → (wc.onControl o).voiceGain = g) ∧
      (o "bgGain" = some (JsVal.num g) → (wc.onControl o).bgGain = g)) := by
  have hid : ∀ v : JsVal α, norm (JsVal.num (norm v)) = norm v := fun v =>
    norm_of_range (norm v) (norm_range v).1 (norm_range v).2
  refine ⟨fun x => hid _, fun v => ⟨hid v, by rw [sepWorkerNorm_eq]; exact hid v⟩, ?_, ?_⟩
  · intro w patch wc k v hport hk hv
    have hmerged : onControl w.ctrlObj (some patch) k = some (JsVal.num (norm v)) :=
      onControl_present w.ctrlObj patch k _
        (normGains_gain patch k v (by rcases hk with h | h <;> simp [h]) hv)
    refine ⟨onControl w.ctrlObj (some patch), ?_, hmerged, ?_, ?_⟩
    · simp only [Worklet.onControl, hport, if_true]
    · intro hk1
      rw [hk1] at hmerged
      constructor
      · simp only [WorkerCtrl.onControl, hmerged, sepWorkerNorm_eq]
        exact hid v
      · simp only [Worklet.onControl, ControlState.ofObj, Obj.numOr, hmerged]
    · intro hk1
      rw [hk1] at hmerged
      constructor
      · simp only [WorkerCtrl.onControl, hmerged, sepWorkerNorm_eq]
        exact hid v
      · simp only [Worklet.onControl, ControlState.ofObj, Obj.numOr, hmerged]
  · intro wc o g h0 h2
    constructor
    · intro h
      simp only [WorkerCtrl.onControl, h, sepWorkerNorm_eq]
      exact norm_of_range g h0 h2
    · intro h
      simp only [WorkerCtrl.onControl, h, sepWorkerNorm_eq]
      exact norm_of_range g h0 h2

end IdempotenceTheorems

section HopCountTheorems
variable {α : Type} [LinearOrderedField α] {σ : Type}

/-- The window loop ends by a throw or with less than one window in `inBuf`. -/
theorem windowLoop_exit (M : JsMath α) (S : Session α σ) (s : WindowLoop α σ) :
    (windowLoop M S s).threw = true ∨ (windowLoop M S s).inBuf.length < 2 * BLOCK := by
  induction s using @windowLoop.induct α _ σ M S with
  | case1 s hg r hr =>
    rw [windowLoop_throw M S s hg r hr]
    exact Or.inl rfl
  | case2 s hg r acc hr ih =>
    rw [windowLoop_next M S s hg r acc hr]
    exact ih
  | case3 s hg =>
    rw [windowLoop_done M S s hg]
    exact Or.inr (Nat.lt_of_not_le hg)

/-- An invariant of the iterations the loop actually takes is an invariant of
the window loop. -/
theorem windowLoop_inv_run (M : JsMath α) (S : Session α σ) (P : WindowLoop α σ → Prop)
    (hnext : ∀ (s : WindowLoop α σ) (r : RunModel α σ) (acc : OlaState α),
      2 * BLOCK ≤ s.inBuf.length →
      processWindow M S s.state s.ioNames s.inBuf s.ola = (r, some acc) → P s →
      P (s.next r acc))
    (hthrow : ∀ (s : WindowLoop α σ) (r : RunModel α σ), 2 * BLOCK ≤ s.inBuf.length →
      processWindow M S s.state s.ioNames s.inBuf s.ola = (r, none) → P s →
      P { s with state := r.state, ioNames := r.ioNames, threw := true })
    (s : WindowLoop α σ) (h : P s) : P (windowLoop M S s) := by
  induction s using @windowLoop.induct α _ σ M S with
  | case1 s hg r hr =>
    rw [windowLoop_throw M S s hg r hr]
    exact hthrow s r hg hr h
  | case2 s hg r acc hr ih =>
    rw [windowLoop_next M S s hg r acc hr]
    exact ih (hnext s r acc hg hr h)
  | case3 s hg =>
    rw [windowLoop_done M S s hg]
    exact h

/-- With cached names `runModelStereo` returns an array and keeps names
cached. -/
theorem runModelCached_returns (M : JsMath α) (S : Session α σ) (st : σ) (names : IoNames)
    (L R : List α) :
    (∃ o, (runModelCached M S st names L R).out = some o) ∧
    (∃ n, (runModelCached M S st names L R).ioNames = some n) := by
  have hfin : ∀ (st1 : σ) (n : IoNames) (outputs : Outputs α),
      (∃ o, (runModelFinish M st1 n outputs L R).out = some o) ∧
      (∃ m, (runModelFinish M st1 n outputs L R).ioNames = some m) := by
    intro st1 n outputs
    unfold runModelFinish
    split
    · exact ⟨⟨_, rfl⟩, ⟨_, rfl⟩⟩
    · split_ifs
      · exact ⟨⟨_, rfl⟩, ⟨_, rfl⟩⟩
      · exact ⟨⟨_, rfl⟩, ⟨_, rfl⟩⟩
  rcases h1 : S.run st names.inName (L ++ R) with ⟨o1, st1⟩
  cases o1 with
  | some outputs =>
    simp only [runModelCached, h1]
    exact hfin _ _ _
  | none =>
    rcases h2 : S.run st1 "input_1" (L ++ R) with ⟨o2, st2⟩
    cases o2 with
    | some outputs =>
      simp only [runModelCached, h1, h2]
      exact hfin _ _ _
    | none =>
      simp only [runModelCached, h1, h2]
      exact ⟨⟨_, rfl⟩, ⟨_, rfl⟩⟩

/-- Once tensor names are cached the window loop never throws. -/
theorem windowLoop_cached (M : JsMath α) (S : Session α σ) (s : WindowLoop α σ)
    (hn : ∃ n, s.ioNames = some n) (ht : s.threw = false) :
    (windowLoop M S s).threw = false ∧ ∃ n, (windowLoop M S s).ioNames = some n := by
  refine windowLoop_inv_run M S (fun t => t.threw = false ∧ ∃ n, t.ioNames = some n)
    ?_ ?_ s ⟨ht, hn⟩
  · intro t r acc _ hr h
    obtain ⟨n, hn1⟩ := h.2
    refine ⟨rfl, ?_⟩
    have hr1 : r = runModelStereo M S t.state t.ioNames (windowL M t.inBuf)
        (windowR M t.inBuf) := by
      simp only [processWindow, Prod.mk.injEq] at hr
      exact hr.1.symm
    rw [hn1] at hr1
    simp only [WindowLoop.next, hr1, runModelStereo]
    exact (runModelCached_returns M S _ _ _ _).2
  · intro t r _ hr h
    obtain ⟨n, hn1⟩ := h.2
    exfalso
    obtain ⟨o, ho⟩ := (runModelCached_returns M S t.state n (windowL M t.inBuf)
      (windowR M t.inBuf)).1
    simp only [processWindow, hn1, runModelStereo, ho, Option.map_some', Prod.mk.injEq] at hr
    exact absurd hr.2 (by simp)

/-- The window loop counts hops: each collected fragment has `2 * HOP`
samples and stands for `2 * HOP` samples dropped from `inBuf`; the two stems
collect the same number of fragments. -/
theorem windowLoop_hops (M : JsMath α) (S : Session α σ) (s : WindowLoop α σ)
    (hv : s.outVoice = []) (hb : s.outBg = []) :
    (windowLoop M S s).outVoice.length * (2 * HOP) + (windowLoop M S s).inBuf.length
      = s.inBuf.length ∧
    (windowLoop M S s).outBg.length = (windowLoop M S s).outVoice.length ∧
    ((windowLoop M S s).outVoice.map List.length).sum
      = (windowLoop M S s).outVoice.length * (2 * HOP) ∧
    ((windowLoop M S s).outBg.map List.length).sum
      = (windowLoop M S s).outBg.length * (2 * HOP) := by
  have h1 : HOP = 2048 := by decide
  have h2 : BLOCK = 4096 := rfl
  refine windowLoop_inv M S
    (fun t => t.outVoice.length * (2 * HOP) + t.inBuf.length = s.inBuf.length ∧
      t.outBg.length = t.outVoice.length ∧
      (t.outVoice.map List.length).sum = t.outVoice.length * (2 * HOP) ∧
      (t.outBg.map List.length).sum = t.outBg.length * (2 * HOP))
    ?_ ?_ s ⟨by simp [hv], by simp [hv, hb], by simp [hv], by simp [hb]⟩
  · intro t r acc hg ht
    obtain ⟨t1, t2, t3, t4⟩ := ht
    simp only [WindowLoop.next, dropInputHop, List.length_drop, List.length_append,
      List.length_singleton, List.map_append, List.map_cons, List.map_nil, List.sum_append,
      List.sum_cons, List.sum_nil, hopFragment_length, Nat.add_zero]
    refine ⟨?_, by omega, ?_, ?_⟩
    · rw [Nat.add_mul]
      omega
    · rw [t3, Nat.add_mul]
      omega
    · rw [t4, Nat.add_mul]
      omega
  · intro t r _ ht
    exact ht

/-- When no other PROCESS handler runs while this one waits for the model: for
a ready worker and a PROCESS message handled to completion (the model call
does not throw, which is always so once tensor names are cached), with `len`
the length of `inBuf` after the chunk is appended: the loop, a total function,
shortens `inBuf` by `2 * HOP` per iteration, collects exactly
`max(0, floor((len - 2*BLOCK) / (2*HOP)) + 1)` hops per stem, leaves
`inBuf.length = len - hops * 2*HOP < 2*BLOCK`, and the handler posts one OUT
message holding `hops * 2*HOP` samples per stem when `hops > 0`, none
otherwise. -/
theorem serial_window_loop_hop_count (M : JsMath α) (S : Session α σ) (w : SepWorker α σ) (st : σ)
    (chunk : List α) (hs : w.session = some st) (hr : w.ready = true)
    (hcomp : (windowLoop M S
      { state := st, ioNames := w.ioNames, inBuf := w.inBuf ++ chunk, ola := w.ola,
        outVoice := [], outBg := [], threw := false }).threw = false) :
    (((windowLoop M S
      { state := st, ioNames := w.ioNames, inBuf := w.inBuf ++ chunk, ola := w.ola,
        outVoice := [], outBg := [], threw := false }).outVoice.length : ℤ)
      = max 0 ((((w.inBuf ++ chunk).length : ℤ) - 2 * (BLOCK : ℤ)) / (2 * (HOP : ℤ)) + 1)) ∧
    ((windowLoop M S
      { state := st, ioNames := w.ioNames, inBuf := w.inBuf ++ chunk, ola := w.ola,
        outVoice := [], outBg := [], threw := false }).outBg.length
      = (windowLoop M S
      { state := st, ioNames := w.ioNames, inBuf := w.inBuf ++ chunk, ola := w.ola,
        outVoice := [], outBg := [], threw := false }).outVoice.length) ∧
    ((w.onProcess M S chunk).1.inBuf.length < 2 * BLOCK) ∧
    ((w.onProcess M S chunk).1.inBuf.length + (windowLoop M S
      { state := st, ioNames := w.ioNames, inBuf := w.inBuf ++ chunk, ola := w.ola,
        outVoice := [], outBg := [], threw := false }).outVoice.length * (2 * HOP)
      = (w.inBuf ++ chunk).length) ∧
    ((windowLoop M S
      { state := st, ioNames := w.ioNames, inBuf := w.inBuf ++ chunk, ola := w.ola,
        outVoice := [], outBg := [], threw := false }).outVoice.length = 0 →
      (w.onProcess M S chunk).2 = none) ∧
    ((windowLoop M S
      { state := st, ioNames := w.ioNames, inBuf := w.inBuf ++ chunk, ola := w.ola,
        outVoice := [], outBg := [], threw := false }).outVoice.length ≠ 0 →
      ∃ v b, (w.onProcess M S chunk).2 = some (v, b) ∧
        v.length = (windowLoop M S
          { state := st, ioNames := w.ioNames, inBuf := w.inBuf ++ chunk, ola := w.ola,
            outVoice := [], outBg := [], threw := false }).outVoice.length * (2 * HOP) ∧
        b.length = (windowLoop M S
          { state := st, ioNames := w.ioNames, inBuf := w.inBuf ++ chunk, ola := w.ola,
            outVoice := [], outBg := [], threw := false }).outVoice.length * (2 * HOP)) ∧
    (∀ (s : WindowLoop α σ) (r : RunModel α σ) (acc : OlaState α),
      2 * BLOCK ≤ s.inBuf.length → (s.next r acc).inBuf.length + 2 * HOP = s.inBuf.length) ∧
    ((∃ n, w.ioNames = some n) → ∀ (c : List α), (windowLoop M S
      { state := st, ioNames := w.ioNames, inBuf := w.inBuf ++ c, ola := w.ola,
        outVoice := [], outBg := [], threw := false }).threw = false) := by
  have h1 : HOP = 2048 := by decide
  have h2 : BLOCK = 4096 := rfl
  obtain ⟨e1, e2⟩ := onProcess_ready M S w st chunk hs hr
  obtain ⟨c1, c2, c3, c4⟩ := windowLoop_hops M S
    { state := st, ioNames := w.ioNames, inBuf := w.inBuf ++ chunk, ola := w.ola,
      outVoice := [], outBg := [], threw := false } rfl rfl
  have hex := windowLoop_exit M S
    { state := st, ioNames := w.ioNames, inBuf := w.inBuf ++ chunk, ola := w.ola,
      outVoice := [], outBg := [], threw := false }
  rw [hcomp] at hex
  have hlt : (windowLoop M S
      { state := st, ioNames := w.ioNames, inBuf := w.inBuf ++ chunk, ola := w.ola,
        outVoice := [], outBg := [], threw := false }).inBuf.length < 2 * BLOCK := by
    rcases hex with h | h
    · cases h
    · exact h
  have c1k : (windowLoop M S
      { state := st, ioNames := w.ioNames, inBuf := w.inBuf ++ chunk, ola := w.ola,
        outVoice := [], outBg := [], threw := false }).outVoice.length * (2 * HOP)
      + (windowLoop M S
      { state := st, ioNames := w.ioNames, inBuf := w.inBuf ++ chunk, ola := w.ola,
        outVoice := [], outBg := [], threw := false }).inBuf.length
      = (w.inBuf ++ chunk).length := c1
  rw [e1, e2, hcomp]
  simp only [Bool.false_eq_true, if_false]
  refine ⟨?_, c2, hlt, by omega, ?_, ?_, ?_, ?_⟩
  · have hc1 := c1k
    have hlt2 := hlt
    have hm := (windowLoop_measure M S
      { state := st, ioNames := w.ioNames, inBuf := w.inBuf ++ chunk, ola := w.ola,
        outVoice := [], outBg := [], threw := false } rfl rfl).2.2
    have hm2 : (windowLoop M S
        { state := st, ioNames := w.ioNames, inBuf := w.inBuf ++ chunk, ola := w.ola,
          outVoice := [], outBg := [], threw := false }).outVoice.length = 0 ∨
        2 * BLOCK ≤ (windowLoop M S
        { state := st, ioNames := w.ioNames, inBuf := w.inBuf ++ chunk, ola := w.ola,
          outVoice := [], outBg := [], threw := false }).inBuf.length + 2 * HOP := by
      rcases hm with ⟨h0, _⟩ | ⟨h3, _⟩
      · exact Or.inl (by rw [h0]; rfl)
      · exact Or.inr h3
    rw [h1] at hc1
    rw [h2] at hlt2
    rw [h1, h2] at hm2
    simp only [h1, h2]
    push_cast
    omega
  · intro h0
    simp only [h0, ne_eq, not_true_eq_false, if_false]
  · intro hne
    simp only [hne, ne_eq, not_false_eq_true, if_true]
    refine ⟨_, _, rfl, ?_, ?_⟩
    · rw [List.length_flatten, c3]
    · rw [List.length_flatten, c4, c2]
  · intro s r acc hg
    simp only [WindowLoop.next, dropInputHop, List.length_drop]
    omega
  · intro hn c
    exact (windowLoop_cached M S _ hn rfl).1

end HopCountTheorems

section LockstepTheorems
variable {α : Type} [LinearOrderedField α] {σ : Type}

/-- Every OUT message carries two buffers of one length, a positive multiple
of `2 * HOP`. -/
theorem onProcess_out_lengths (M : JsMath α) (S : Session α σ) (w : SepWorker α σ)
    (chunk : List α) (v b : List α) (h : (w.onProcess M S chunk).2 = some (v, b)) :
    v.length = b.length ∧ ∃ k, 0 < k ∧ v.length = k * (2 * HOP) := by
  by_cases hnot : w.ready = false ∨ w.session = none
  · rw [onProcess_not_ready M S w chunk hnot] at h
    cases h
  · have hr : w.ready = true := by
      cases h : w.ready with
      | true => rfl
      | false => exact absurd (Or.inl h) hnot
    obtain ⟨st, hs⟩ : ∃ st, w.session = some st := by
      cases h : w.session with
      | none => exact absurd (Or.inr h) hnot
      | some st => exact ⟨st, rfl⟩
    obtain ⟨_, e2⟩ := onProcess_ready M S w st chunk hs hr
    obtain ⟨_, c2, c3, c4⟩ := windowLoop_hops M S
      { state := st, ioNames := w.ioNames, inBuf := w.inBuf ++ chunk, ola := w.ola,
        outVoice := [], outBg := [], threw := false } rfl rfl
    rw [e2] at h
    split_ifs at h with ht hl
    simp only [Option.some.injEq, Prod.mk.injEq] at h
    obtain ⟨hv, hb⟩ := h
    subst hv
    subst hb
    rw [List.length_flatten, List.length_flatten, c3, c4, c2]
    exact ⟨rfl, _, Nat.pos_of_ne_zero hl, rfl⟩

omit [LinearOrderedField α] in
/-- Two stems pushed together keep the queues in lockstep. -/
theorem onWorkerOut_lockstep (p : HybridProcessor α) (v b : List α) (hl : v.length = b.length)
    (hv : p.voiceQueue.WF) (hb : p.bgQueue.WF)
    (heq : framesBuffered p.voiceQueue = framesBuffered p.bgQueue) :
    (p.onWorkerOut (some v) (some b)).voiceQueue.WF ∧
    (p.onWorkerOut (some v) (some b)).bgQueue.WF ∧
    framesBuffered (p.onWorkerOut (some v) (some b)).voiceQueue
      = framesBuffered (p.onWorkerOut (some v) (some b)).bgQueue := by
  simp only [HybridProcessor.onWorkerOut]
  refine ⟨push_wf _ _ hv, push_wf _ _ hb, ?_⟩
  rw [framesBuffered_push _ _ hv, framesBuffered_push _ _ hb, heq, frames_eq, frames_eq, hl]

/-- One `process` call keeps the queues in lockstep, and the two
`consumeStereo` calls of the NEURAL branch return the same count. -/
theorem process_lockstep (M : JsMath α) (p : HybridProcessor α) (b : Bufs α)
    (hLo : b.Lo.length = b.Li.length)
    (hv : p.voiceQueue.WF) (hb : p.bgQueue.WF)
    (heq : framesBuffered p.voiceQueue = framesBuffered p.bgQueue) :
    (p.process M b).proc.voiceQueue.WF ∧ (p.process M b).proc.bgQueue.WF ∧
    framesBuffered (p.process M b).proc.voiceQueue
      = framesBuffered (p.process M b).proc.bgQueue ∧
    (p.voiceQueue.consumeStereo b.Lo b.Ro).filled
      = (p.bgQueue.consumeStereo (p.tmpArrays b.Li.length).1
          (p.tmpArrays b.Li.length).2).filled := by
  have hfv := (consumeStereo_filled_min p.voiceQueue b.Lo b.Ro).1
  have hfb := (consumeStereo_filled_min p.bgQueue (p.tmpArrays b.Li.length).1
    (p.tmpArrays b.Li.length).2).1
  rw [tmpArrays_length] at hfb
  rw [hLo] at hfv
  have hfeq : (p.voiceQueue.consumeStereo b.Lo b.Ro).filled
      = (p.bgQueue.consumeStereo (p.tmpArrays b.Li.length).1
          (p.tmpArrays b.Li.length).2).filled := by
    rw [hfv, hfb, heq]
  have hcv := consumeOuter_count b.Lo.length
    { buffers := p.voiceQueue.buffers, offset := p.voiceQueue.offset, outputL := b.Lo,
      outputR := b.Ro, filled := 0 }
  have hcb := consumeOuter_count (p.tmpArrays b.Li.length).1.length
    { buffers := p.bgQueue.buffers, offset := p.bgQueue.offset,
      outputL := (p.tmpArrays b.Li.length).1, outputR := (p.tmpArrays b.Li.length).2,
      filled := 0 }
  have hcv2 : (p.voiceQueue.consumeStereo b.Lo b.Ro).filled
      + framesBuffered (p.voiceQueue.consumeStereo b.Lo b.Ro).queue
      = 0 + framesBuffered p.voiceQueue := hcv
  have hcb2 : (p.bgQueue.consumeStereo (p.tmpArrays b.Li.length).1
        (p.tmpArrays b.Li.length).2).filled
      + framesBuffered (p.bgQueue.consumeStereo (p.tmpArrays b.Li.length).1
        (p.tmpArrays b.Li.length).2).queue
      = 0 + framesBuffered p.bgQueue := hcb
  have hwv : (p.voiceQueue.consumeStereo b.Lo b.Ro).queue.WF :=
    consumeOuter_wf b.Lo.length
      { buffers := p.voiceQueue.buffers, offset := p.voiceQueue.offset, outputL := b.Lo,
        outputR := b.Ro, filled := 0 } hv
  have hwb : (p.bgQueue.consumeStereo (p.tmpArrays b.Li.length).1
      (p.tmpArrays b.Li.length).2).queue.WF :=
    consumeOuter_wf (p.tmpArrays b.Li.length).1.length
      { buffers := p.bgQueue.buffers, offset := p.bgQueue.offset,
        outputL := (p.tmpArrays b.Li.length).1, outputR := (p.tmpArrays b.Li.length).2,
        filled := 0 } hb
  have hqeq : framesBuffered (p.voiceQueue.consumeStereo b.Lo b.Ro).queue
      = framesBuffered (p.bgQueue.consumeStereo (p.tmpArrays b.Li.length).1
        (p.tmpArrays b.Li.length).2).queue := by
    omega
  refine ⟨?_, ?_, ?_, hfeq⟩
  · simp only [HybridProcessor.process]
    split_ifs
    · exact hwv
    · exact hwv
    · exact hv
  · simp only [HybridProcessor.process]
    split_ifs
    · exact hwb
    · exact hwb
    · exact hb
  · simp only [HybridProcessor.process]
    split_ifs
    · exact hqeq
    · exact hqeq
    · exact heq

/-- One pipeline event keeps the queues in lockstep. -/
theorem step_lockstep (M : JsMath α) (S : Session α σ) (sys : Pipeline α σ)
    (ev : PipelineEvent α)
    (hq : ∀ b, ev = PipelineEvent.quantum b → b.Lo.length = b.Li.length)
    (hv : sys.worklet.proc.voiceQueue.WF) (hb : sys.worklet.proc.bgQueue.WF)
    (heq : framesBuffered sys.worklet.proc.voiceQueue
      = framesBuffered sys.worklet.proc.bgQueue) :
    (sys.step M S ev).1.worklet.proc.voiceQueue.WF ∧
    (sys.step M S ev).1.worklet.proc.bgQueue.WF ∧
    framesBuffered (sys.step M S ev).1.worklet.proc.voiceQueue
      = framesBuffered (sys.step M S ev).1.worklet.proc.bgQueue := by
  cases ev with
  | control patch =>
    have hk := worklet_onControl_keeps sys.worklet patch
    simp only [Pipeline.step]
    rw [hk.1, hk.2.1]
    exact ⟨hv, hb, heq⟩
  | quantum b =>
    obtain ⟨p1, p2, p3, _⟩ := process_lockstep M sys.worklet.proc b (hq b rfl) hv hb heq
    simp only [Pipeline.step]
    cases hp : (sys.worklet.proc.process M b).posted with
    | none => exact ⟨p1, p2, p3⟩
    | some inter =>
      dsimp only
      cases ho : (sys.worker.onProcess M S inter).2 with
      | none => exact ⟨p1, p2, p3⟩
      | some out =>
        obtain ⟨v, g⟩ := out
        have hl := (onProcess_out_lengths M S sys.worker inter v g ho).1
        exact onWorkerOut_lockstep _ v g hl p1 p2 p3

/-- A history of pipeline events keeps the queues in lockstep. -/
theorem run_lockstep (M : JsMath α) (S : Session α σ) (evs : List (PipelineEvent α))
    (sys : Pipeline α σ)
    (hq : ∀ b, PipelineEvent.quantum b ∈ evs → b.Lo.length = b.Li.length)
    (hv : sys.worklet.proc.voiceQueue.WF) (hb : sys.worklet.proc.bgQueue.WF)
    (heq : framesBuffered sys.worklet.proc.voiceQueue
      = framesBuffered sys.worklet.proc.bgQueue) :
    (sys.run M S evs).worklet.proc.voiceQueue.WF ∧
    (sys.run M S evs).worklet.proc.bgQueue.WF ∧
    framesBuffered (sys.run M S evs).worklet.proc.voiceQueue
      = framesBuffered (sys.run M S evs).worklet.proc.bgQueue := by
  induction evs generalizing sys with
  | nil => exact ⟨hv, hb, heq⟩
  | cons ev evs ih =>
    obtain ⟨s1, s2, s3⟩ := step_lockstep M S sys ev
      (fun b hb1 => hq b (by rw [hb1]; exact List.mem_cons_self _ _)) hv hb heq
    have h := ih (sys.step M S ev).1 (fun b hb1 => hq b (List.mem_cons_of_mem _ hb1)) s1 s2 s3
    simp only [Pipeline.run, List.foldl_cons] at h ⊢
    exact h

omit [LinearOrderedField α] in
theorem new_queue_wf : (InterleavedQueue.new : InterleavedQueue α).WF := by
  constructor
  · intro _
    rfl
  · intro buf rest h
    cases h

/-- C27 (stem queues stay in lockstep): every OUT message the worker posts
carries voice and bg buffers of the same length, a positive multiple of
`2 * HOP` samples; hence, for a pipeline that starts with both stem queues
empty, after every history of CONTROL messages and rendered quanta (output
arrays of the input's length) the two queues hold the same number of frames,
and in the next quantum `consumeStereo` returns the same count for both
stems. -/
theorem stem_queues_lockstep (M : JsMath α) (S : Session α σ) (sys : Pipeline α σ)
    (hv : sys.worklet.proc.voiceQueue = InterleavedQueue.new)
    (hb : sys.worklet.proc.bgQueue = InterleavedQueue.new)
    (evs : List (PipelineEvent α))
    (hq : ∀ b, PipelineEvent.quantum b ∈ evs → b.Lo.length = b.Li.length) :
    (∀ (w : SepWorker α σ) (chunk v b : List α), (w.onProcess M S chunk).2 = some (v, b) →
      v.length = b.length ∧ ∃ k, 0 < k ∧ v.length = k * (2 * HOP)) ∧
    framesBuffered (sys.run M S evs).worklet.proc.voiceQueue
      = framesBuffered (sys.run M S evs).worklet.proc.bgQueue ∧
    (∀ (b : Bufs α), b.Lo.length = b.Li.length →
      ((sys.run M S evs).worklet.proc.voiceQueue.consumeStereo b.Lo b.Ro).filled
        = ((sys.run M S evs).worklet.proc.bgQueue.consumeStereo
            ((sys.run M S evs).worklet.proc.tmpArrays b.Li.length).1
            ((sys.run M S evs).worklet.proc.tmpArrays b.Li.length).2).filled) := by
  obtain ⟨r1, r2, r3⟩ := run_lockstep M S evs sys hq (by rw [hv]; exact new_queue_wf)
    (by rw [hb]; exact new_queue_wf) (by rw [hv, hb])
  refine ⟨fun w chunk v b h => onProcess_out_lengths M S w chunk v b h, r3, ?_⟩
  intro b hLo
  exact (process_lockstep M _ b hLo r1 r2 r3).2.2.2

/-- C27, a concrete instance: a new worklet with a worker port in NEURAL mode
and a worker that is not ready, after one quantum. -/
theorem stem_queues_lockstep_witness :
    framesBuffered (Pipeline.run JsMath.sample
        ({ run := (fun st _ _ => (none, st)) } : Session ℚ Unit)
        { worklet := (Worklet.new : Worklet ℚ).onAttachWorker.1,
          worker := (SepWorker.new : SepWorker ℚ Unit) }
        [PipelineEvent.quantum
           { Li := [1 / 2, 1 / 4], Ri := some [1 / 2, 1 / 3], Lo := [0, 0], Ro := [0, 0] }]
      ).worklet.proc.voiceQueue
      = framesBuffered (Pipeline.run JsMath.sample
        ({ run := (fun st _ _ => (none, st)) } : Session ℚ Unit)
        { worklet := (Worklet.new : Worklet ℚ).onAttachWorker.1,
          worker := (SepWorker.new : SepWorker ℚ Unit) }
        [PipelineEvent.quantum
           { Li := [1 / 2, 1 / 4], Ri := some [1 / 2, 1 / 3], Lo := [0, 0], Ro := [0, 0] }]
      ).worklet.proc.bgQueue :=
  (stem_queues_lockstep JsMath.sample ({ run := (fun st _ _ => (none, st)) } : Session ℚ Unit)
    { worklet := (Worklet.new : Worklet ℚ).onAttachWorker.1,
      worker := (SepWorker.new : SepWorker ℚ Unit) } rfl rfl
    [PipelineEvent.quantum
       { Li := [1 / 2, 1 / 4], Ri := some [1 / 2, 1 / 3], Lo := [0, 0], Ro := [0, 0] }]
    (by
      intro b hb
      simp only [List.mem_singleton, PipelineEvent.quantum.injEq] at hb
      rw [hb]
      rfl)).2.1

end LockstepTheorems

section SymmetryTheorems

theorem sqrt_356409 : Real.sqrt 356409 = 597 := by
  rw [show (356409 : ℝ) = 597 ^ 2 by norm_num]
  exact Real.sqrt_sq (by norm_num)

theorem sqrt_16000000 : Real.sqrt 16000000 = 4000 := by
  rw [show (16000000 : ℝ) = 4000 ^ 2 by norm_num]
  exact Real.sqrt_sq (by norm_num)

/-- The method `_clamp` is the identity on `[-1, 1]`. -/
theorem clamp_of_range {α : Type} [LinearOrderedField α] (x : α) (h1 : -1 ≤ x) (h2 : x ≤ 1) :
    clamp x = x := by
  unfold clamp
  rw [if_neg (not_lt.mpr h1), if_neg (not_lt.mpr h2)]

/-- Two successive `_presence` calls on one sample give different values
unless the sample equals the filter state (or the coefficient is 0 or 1): the
one filter `presHP` is stepped by each call. -/
theorem presence_twice {α : Type} [LinearOrderedField α] (s : InlineSeparator α) (x : α)
    (ha0 : s.presHP.lp.a ≠ 0) (ha1 : s.presHP.lp.a ≠ 1) (hx : x ≠ s.presHP.lp.z) :
    (s.presence x).2 ≠ ((s.presence x).1.presence x).2 := by
  simp only [InlineSeparator.presence, OnePoleHP.step, OnePoleLP.step]
  intro h
  have h2 : (0.15 : α) * (s.presHP.lp.a * ((1 - s.presHP.lp.a) * (x - s.presHP.lp.z))) = 0 := by
    linear_combination h
  have h3 : (0.15 : α) ≠ 0 := by norm_num
  rcases mul_eq_zero.mp h2 with h4 | h4
  · exact h3 h4
  · rcases mul_eq_zero.mp h4 with h5 | h5
    · exact ha0 h5
    · rcases mul_eq_zero.mp h5 with h6 | h6
      · exact ha1 (by linear_combination (-1 : α) * h6)
      · exact hx (by linear_combination h6)

/-- The first block of one frame `L = R = [1]` under the default control
record, from a new separator, with the real square root and power. -/
theorem processBlock_unit_frame :
    ((InlineSeparator.new : InlineSeparator ℝ).processBlock
      ({ sqrt := Real.sqrt, pow := (fun x y => x ^ y), cos := Real.cos, pi := Real.pi } : JsMath ℝ)
      { Li := [1], Ri := some [1], Lo := [0], Ro := [0] } ControlState.default).bufs
    = { Li := [3403 / 4000], Ri := some [3403 / 4000],
        Lo := [clamp (51 / 8000 * (684759 / 4000000 * (10 : ℝ) ^ ((1 : ℝ) / 8))
          + (1 - 3 / 4 * (51 / 8000 : ℝ) ^ ((8 : ℝ) / 5)) * (3403 / 4000))],
        Ro := [clamp (51 / 8000 * (34150191 / 200000000 * (10 : ℝ) ^ ((1 : ℝ) / 8))
          + (1 - 3 / 4 * (51 / 8000 : ℝ) ^ ((8 : ℝ) / 5)) * (3403 / 4000))] } := by
  simp [InlineSeparator.processBlock, pass2Step, proxyMix, effBgOf, duckAtten, bGainOf, vGainOf,
      InlineSeparator.presence, vadUpdate, pass1Step, tonalTrim, Envelope.step, OnePoleHP.step,
      OnePoleLP.step, InlineSeparator.new, OnePoleHP.new,
      OnePoleLP.new, Envelope.new, ControlState.default, Bufs.R, Bufs.setIn, List.range_succ]
  norm_num [sqrt_356409, sqrt_16000000, abs_of_pos, min_def]

/-- C30 (what the code does): `_presence` steps the one filter `presHP` for
the left sample and then again for the right sample, so the two boosted voice
samples of a frame differ even when the channels are identical.  For the block
`L = R = [1]` (distinct buffers), a new separator (equal left and right
background filter states) and the default control record, `processBlock`
writes `Lo[0] > Ro[0]`. -/
theorem presence_breaks_channel_symmetry :
    (∀ (s : InlineSeparator ℝ) (x : ℝ), s.presHP.lp.a ≠ 0 → s.presHP.lp.a ≠ 1 →
      x ≠ s.presHP.lp.z → (s.presence x).2 ≠ ((s.presence x).1.presence x).2) ∧
    ((InlineSeparator.new : InlineSeparator ℝ).processBlock
      ({ sqrt := Real.sqrt, pow := (fun x y => x ^ y), cos := Real.cos, pi := Real.pi } : JsMath ℝ)
      { Li := [1], Ri := some [1], Lo := [0], Ro := [0] } ControlState.default).bufs.Ro.getD 0 0
    < ((InlineSeparator.new : InlineSeparator ℝ).processBlock
      ({ sqrt := Real.sqrt, pow := (fun x y => x ^ y), cos := Real.cos, pi := Real.pi } : JsMath ℝ)
      { Li := [1], Ri := some [1], Lo := [0], Ro := [0] } ControlState.default).bufs.Lo.getD 0 0 := by
  refine ⟨presence_twice, ?_⟩
  rw [processBlock_unit_frame]
  have hP0 : (0 : ℝ) < (10 : ℝ) ^ ((1 : ℝ) / 8) := Real.rpow_pos_of_pos (by norm_num) _
  have hP1 : (10 : ℝ) ^ ((1 : ℝ) / 8) ≤ 10 := by
    have h := Real.rpow_le_rpow_of_exponent_le (show (1 : ℝ) ≤ 10 by norm_num)
      (show (1 : ℝ) / 8 ≤ 1 by norm_num)
    rwa [Real.rpow_one] at h
  have hQ0 : (0 : ℝ) ≤ (51 / 8000 : ℝ) ^ ((8 : ℝ) / 5) := Real.rpow_nonneg (by norm_num) _
  have hQ1 : (51 / 8000 : ℝ) ^ ((8 : ℝ) / 5) ≤ 1 :=
    Real.rpow_le_one (by norm_num) (by norm_num) (by norm_num)
  generalize (10 : ℝ) ^ ((1 : ℝ) / 8) = P at hP0 hP1 ⊢
  generalize (51 / 8000 : ℝ) ^ ((8 : ℝ) / 5) = Q at hQ0 hQ1 ⊢
  show (List.getD [clamp (51 / 8000 * (34150191 / 200000000 * P)
      + (1 - 3 / 4 * Q) * (3403 / 4000))] 0 0 : ℝ)
    < List.getD [clamp (51 / 8000 * (684759 / 4000000 * P)
      + (1 - 3 / 4 * Q) * (3403 / 4000))] 0 0
  rw [List.getD_cons_zero, List.getD_cons_zero,
    clamp_of_range _ (by linarith) (by linarith), clamp_of_range _ (by linarith) (by linarith)]
  linarith

end SymmetryTheorems

section MasterGainTheorems
variable {α : Type} [LinearOrderedField α]

theorem popupGain_range (x : α) : 0 ≤ popupGain x ∧ popupGain x ≤ 2 := by
  unfold popupGain
  constructor
  · exact div_nonneg (le_max_left _ _) (by norm_num)
  · rw [div_le_iff₀ (by norm_num : (0 : α) < 100)]
    exact max_le (by norm_num) (le_trans (min_le_left _ _) (by norm_num))

/-- C18 as stated fails: the offscreen page clamps the master gain to `[0, 2]`
and never divides by 100.  A CONTROL_UPDATE carrying `masterGain = 150` sets
`postGain.gain.value` to `2`, while `norm(150) = 1.5`. -/
theorem master_gain_normalised_counterexample :
    ¬ (∀ (g : Option (Obj ℚ)) (msg : Obj ℚ) (m postGain : ℚ),
        msg "masterGain" = some (JsVal.num m) →
        (offscreenControlUpdate g (some msg) postGain).2 = norm (JsVal.num m)) := by
  intro h
  have h1 := h none (Obj.ofList [("masterGain", JsVal.num 150)]) 150 1
    (by simp [Obj.ofList, Obj.set])
  have h2 : (offscreenControlUpdate none
      (some (Obj.ofList [("masterGain", JsVal.num (150 : ℚ))])) 1).2 = 2 := by
    simp only [offscreenControlUpdate, Obj.spread, Obj.ofList, Obj.set, Option.getD,
      List.foldl, if_true]
    norm_num
  have h3 : norm (JsVal.num (150 : ℚ)) = 3 / 2 := by
    simp only [norm]; norm_num
  rw [h2, h3] at h1
  norm_num at h1

/-- C18 (amended): a CONTROL_UPDATE carrying a numeric `masterGain = m` sets
`postGain.gain.value` to `m` clamped to `[0, 2]`, with no percentage step
(`150` yields `2`); this is `norm(m)` whenever `m <= 4`, and in particular
for every value the popup sends, `max(0, min(200, x)) / 100` for a slider
reading `x`, which lies in `[0, 2]` and is applied unchanged. -/
theorem master_gain_clamped_at_application (g : Option (Obj α)) (postGain : α) :
    (∀ (msg : Obj α) (m : α), msg "masterGain" = some (JsVal.num m) →
      (offscreenControlUpdate g (some msg) postGain).2 = max 0 (min 2 m)) ∧
    (offscreenControlUpdate g (some (Obj.ofList [("masterGain", JsVal.num 150)])) postGain).2
      = 2 ∧
    (∀ (msg : Obj α) (m : α), msg "masterGain" = some (JsVal.num m) → m ≤ 4 →
      (offscreenControlUpdate g (some msg) postGain).2 = norm (JsVal.num m)) ∧
    (∀ (msg : Obj α) (x : α), msg "masterGain" = some (JsVal.num (popupGain x)) →
      (offscreenControlUpdate g (some msg) postGain).2 = norm (JsVal.num (popupGain x)) ∧
      (offscreenControlUpdate g (some msg) postGain).2 = popupGain x) := by
  have gen : ∀ (msg : Obj α) (m : α), msg "masterGain" = some (JsVal.num m) →
      (offscreenControlUpdate g (some msg) postGain).2 = max 0 (min 2 m) := by
    intro msg m h
    simp [offscreenControlUpdate, Obj.spread, h]
  have h150 : (Obj.ofList [("masterGain", JsVal.num 150)] : Obj α) "masterGain"
      = some (JsVal.num 150) := by
    simp [Obj.ofList, Obj.set]
  have ha : (offscreenControlUpdate g (some (Obj.ofList [("masterGain", JsVal.num 150)]))
      postGain).2 = 2 := by
    rw [gen _ 150 h150]; norm_num
  have hle : ∀ (msg : Obj α) (m : α), msg "masterGain" = some (JsVal.num m) → m ≤ 4 →
      (offscreenControlUpdate g (some msg) postGain).2 = norm (JsVal.num m) := by
    intro msg m h hm
    rw [gen msg m h]
    simp [norm, not_lt.mpr hm]
  refine ⟨gen, ha, hle, ?_⟩
  intro msg x h
  obtain ⟨p0, p2⟩ := popupGain_range x
  refine ⟨hle msg _ h (le_trans p2 (by norm_num)), ?_⟩
  rw [gen msg _ h, min_eq_right p2, max_eq_right p0]

/-- C18 (amended), a concrete instance: the popup slider at `150` sends
`masterGain = 1.5`, and `1.5` is the gain applied. -/
theorem master_gain_clamped_at_application_witness :
    (offscreenControlUpdate none
      (some (Obj.ofList [("masterGain", JsVal.num (popupGain (150 : ℚ)))])) 1).2
      = popupGain 150 :=
  ((master_gain_clamped_at_application (none : Option (Obj ℚ)) 1).2.2.2
    (Obj.ofList [("masterGain", JsVal.num (popupGain (150 : ℚ)))]) 150
    (by simp [Obj.ofList, Obj.set])).2

end MasterGainTheorems

section SampleLemmas
variable {α : Type} [LinearOrderedField α]

/-- The sample `processBlock` leaves at position `i`, as the mix of the voice
term and the background term of iteration `i`. -/
theorem processBlock_sample (M : JsMath α) (sep : InlineSeparator α) (b : Bufs α)
    (ctrl : ControlState α) (hq : b.Quantum) (i : Nat) (hi : i < b.Li.length) :
    (sep.processBlock M b ctrl).bufs.Lo.getD i 0
      = clamp (vGainOf ctrl
            * (wSmoothOf M sep b ctrl * (pass2Voice M ctrl (pass2At M sep b ctrl i) i).1)
          + effBgOf M ctrl (wSmoothOf M sep b ctrl)
            * (pass2Bg ctrl (pass2At M sep b ctrl i) i).1) ∧
    (sep.processBlock M b ctrl).bufs.Ro.getD i 0
      = clamp (vGainOf ctrl
            * (wSmoothOf M sep b ctrl * (pass2Voice M ctrl (pass2At M sep b ctrl i) i).2)
          + effBgOf M ctrl (wSmoothOf M sep b ctrl)
            * (pass2Bg ctrl (pass2At M sep b ctrl i) i).2) := by
  obtain ⟨hLo, hRo, _⟩ := hq
  have hl := pass1_lengths ctrl
    ({ sep := sep, eSum := 0, zc := 0, prev := 0, bufs := b } : Pass1 α) b.Li.length
  have key := pass2_getD M ctrl (wSmoothOf M sep b ctrl)
    { sep := (vadUpdate M (pass1Of sep b ctrl).sep (pass1Of sep b ctrl).eSum
        (pass1Of sep b ctrl).zc b.Li.length).1,
      bufs := (pass1Of sep b ctrl).bufs } b.Li.length
    (by rw [← hLo]; exact hl.1) (by rw [← hRo]; exact hl.2.1) i hi
  have hpb : sep.processBlock M b ctrl
      = (List.range b.Li.length).foldl (pass2Step M ctrl (wSmoothOf M sep b ctrl))
          { sep := (vadUpdate M (pass1Of sep b ctrl).sep (pass1Of sep b ctrl).eSum
              (pass1Of sep b ctrl).zc b.Li.length).1,
            bufs := (pass1Of sep b ctrl).bufs } := rfl
  rw [hpb, key.1, key.2]
  exact ⟨rfl, rfl⟩

/-- The NEURAL mix of a quantum in which both queues deliver `N` frames, per
sample, in terms of the pending frames of the two queues. -/
theorem process_neural_sample (M : JsMath α) (p : HybridProcessor α) (b : Bufs α)
    (hq : b.Quantum) (hport : p.workerPort = true) (hmode : p.ctrl.aiMode = "onnx")
    (hv : b.Li.length ≤ framesBuffered p.voiceQueue)
    (hb : b.Li.length ≤ framesBuffered p.bgQueue)
    (htmp : ∀ t, p.tmpBg = some t → t.2.length = t.1.length) (i : Nat)
    (hi : i < b.Li.length) :
    (p.process M b).bufs.Lo.getD i 0
      = neuralMix p.ctrl ((pendingFrames p.voiceQueue).getD i (0, 0)).1
          ((pendingFrames p.bgQueue).getD i (0, 0)).1 ∧
    (p.process M b).bufs.Ro.getD i 0
      = neuralMix p.ctrl ((pendingFrames p.voiceQueue).getD i (0, 0)).2
          ((pendingFrames p.bgQueue).getD i (0, 0)).2 := by
  obtain ⟨hLo, hRo, _⟩ := hq
  have ht1 := tmpArrays_length p b.Li.length
  have ht2 := tmpArrays_length_snd p b.Li.length htmp
  have hfv : (p.voiceQueue.consumeStereo b.Lo b.Ro).filled = b.Li.length := by
    rw [(consumeStereo_filled_min p.voiceQueue b.Lo b.Ro).1, hLo]
    exact min_eq_left hv
  have hfb : (p.bgQueue.consumeStereo (p.tmpArrays b.Li.length).1
      (p.tmpArrays b.Li.length).2).filled = b.Li.length := by
    rw [(consumeStereo_filled_min p.bgQueue _ _).1, ht1]
    exact min_eq_left hb
  obtain ⟨cv1, _⟩ := consumeStereo_frames p.voiceQueue b.Lo b.Ro (by rw [hLo, hRo])
    (by rw [hfv, hLo])
  obtain ⟨cb1, _⟩ := consumeStereo_frames p.bgQueue (p.tmpArrays b.Li.length).1
    (p.tmpArrays b.Li.length).2 (by rw [ht1, ht2]) (by rw [hfb, ht1])
  have hlv := consumeStereo_lengths p.voiceQueue b.Lo b.Ro
  rw [hLo] at cv1
  rw [ht1] at cb1
  simp only [HybridProcessor.process, if_pos (And.intro hport hmode),
    if_pos (And.intro hfv hfb)]
  obtain ⟨m1, m2⟩ := neuralMix_loop_getD p.ctrl
    (p.bgQueue.consumeStereo (p.tmpArrays b.Li.length).1 (p.tmpArrays b.Li.length).2).outputL
    (p.bgQueue.consumeStereo (p.tmpArrays b.Li.length).1 (p.tmpArrays b.Li.length).2).outputR
    ((p.voiceQueue.consumeStereo b.Lo b.Ro).outputL, (p.voiceQueue.consumeStereo b.Lo b.Ro).outputR)
    b.Li.length (by rw [hlv.1, hLo]) (by rw [hlv.2, hRo]) i hi
  rw [m1, m2, (cv1 i hi).1, (cv1 i hi).2, (cb1 i hi).1, (cb1 i hi).2]
  exact ⟨rfl, rfl⟩

/-- Outside a NEURAL quantum in which both queues deliver `N` frames, `process`
leaves what `processBlock` leaves. -/
theorem process_is_processBlock (M : JsMath α) (p : HybridProcessor α) (b : Bufs α)
    (hq : b.Quantum)
    (h : ¬ (p.workerPort = true ∧ p.ctrl.aiMode = "onnx") ∨
      framesBuffered p.voiceQueue < b.Li.length ∨ framesBuffered p.bgQueue < b.Li.length) :
    (p.process M b).bufs = (p.inline.processBlock M b p.ctrl).bufs := by
  by_cases hn : p.workerPort = true ∧ p.ctrl.aiMode = "onnx"
  · rcases h with h | h
    · exact absurd hn h
    · exact (process_underrun M p b hq hn.1 hn.2 h).1
  · exact (process_proxy M p b hn).1

end SampleLemmas

section MuteSampleTheorems
variable {α : Type} [LinearOrderedField α]

/-- C3 (mute correctness), on what is written to the output block.  PROXY:
the sample `processBlock` leaves at position `i` of either channel is
`clamp(voice term + background term)` with voice term
`vGain * (wSmooth * v)` and background term `effBg * b`; with `muteVoice` set
the voice term is `0` and the sample is the clamped background term, with
`muteBg` set the background term is `0` and the sample is the clamped voice
term, for every block, gain and voice-activity state; and `process` leaves
exactly these samples whenever it does not take the NEURAL mix.  NEURAL: in a
quantum in which both queues deliver `N` frames the sample is voice term plus
background term of the frames consumed; with `muteVoice` set it is the
background term alone, with `muteBg` set the voice term alone.  With both
mutes set every sample `processBlock` and `process` write is `0`, in either
mode, for a mono or stereo input, and whatever the queues hold. -/
theorem mute_correctness (M : JsMath α) (ctrl : ControlState α) :
    (∀ (sep : InlineSeparator α) (b : Bufs α), b.Quantum → ∀ i, i < b.Li.length →
      ((sep.processBlock M b ctrl).bufs.Lo.getD i 0
          = clamp (vGainOf ctrl
                * (wSmoothOf M sep b ctrl * (pass2Voice M ctrl (pass2At M sep b ctrl i) i).1)
              + effBgOf M ctrl (wSmoothOf M sep b ctrl)
                * (pass2Bg ctrl (pass2At M sep b ctrl i) i).1) ∧
        (sep.processBlock M b ctrl).bufs.Ro.getD i 0
          = clamp (vGainOf ctrl
                * (wSmoothOf M sep b ctrl * (pass2Voice M ctrl (pass2At M sep b ctrl i) i).2)
              + effBgOf M ctrl (wSmoothOf M sep b ctrl)
                * (pass2Bg ctrl (pass2At M sep b ctrl i) i).2)) ∧
      (ctrl.muteVoice = true →
        vGainOf ctrl
          * (wSmoothOf M sep b ctrl * (pass2Voice M ctrl (pass2At M sep b ctrl i) i).1) = 0 ∧
        vGainOf ctrl
          * (wSmoothOf M sep b ctrl * (pass2Voice M ctrl (pass2At M sep b ctrl i) i).2) = 0 ∧
        (sep.processBlock M b ctrl).bufs.Lo.getD i 0
          = clamp (effBgOf M ctrl (wSmoothOf M sep b ctrl)
              * (pass2Bg ctrl (pass2At M sep b ctrl i) i).1) ∧
        (sep.processBlock M b ctrl).bufs.Ro.getD i 0
          = clamp (effBgOf M ctrl (wSmoothOf M sep b ctrl)
              * (pass2Bg ctrl (pass2At M sep b ctrl i) i).2)) ∧
      (ctrl.muteBg = true →
        effBgOf M ctrl (wSmoothOf M sep b ctrl)
          * (pass2Bg ctrl (pass2At M sep b ctrl i) i).1 = 0 ∧
        effBgOf M ctrl (wSmoothOf M sep b ctrl)
          * (pass2Bg ctrl (pass2At M sep b ctrl i) i).2 = 0 ∧
        (sep.processBlock M b ctrl).bufs.Lo.getD i 0
          = clamp (vGainOf ctrl
              * (wSmoothOf M sep b ctrl * (pass2Voice M ctrl (pass2At M sep b ctrl i) i).1)) ∧
        (sep.processBlock M b ctrl).bufs.Ro.getD i 0
          = clamp (vGainOf ctrl
              * (wSmoothOf M sep b ctrl
                * (pass2Voice M ctrl (pass2At M sep b ctrl i) i).2)))) ∧
    (∀ (p : HybridProcessor α) (b : Bufs α), p.ctrl = ctrl → b.Quantum →
      (¬ (p.workerPort = true ∧ p.ctrl.aiMode = "onnx") ∨
        framesBuffered p.voiceQueue < b.Li.length ∨ framesBuffered p.bgQueue < b.Li.length) →
      (p.process M b).bufs = (p.inline.processBlock M b ctrl).bufs) ∧
    (∀ (p : HybridProcessor α) (b : Bufs α), p.ctrl = ctrl → b.Quantum →
      p.workerPort = true → p.ctrl.aiMode = "onnx" →
      b.Li.length ≤ framesBuffered p.voiceQueue → b.Li.length ≤ framesBuffered p.bgQueue →
      (∀ t, p.tmpBg = some t → t.2.length = t.1.length) →
      ∀ i, i < b.Li.length →
        ((p.process M b).bufs.Lo.getD i 0
            = (if ctrl.muteVoice then 0
                else ctrl.voiceGain * ((pendingFrames p.voiceQueue).getD i (0, 0)).1)
              + (if ctrl.muteBg then 0
                else ctrl.bgGain * ((pendingFrames p.bgQueue).getD i (0, 0)).1) ∧
          (p.process M b).bufs.Ro.getD i 0
            = (if ctrl.muteVoice then 0
                else ctrl.voiceGain * ((pendingFrames p.voiceQueue).getD i (0, 0)).2)
              + (if ctrl.muteBg then 0
                else ctrl.bgGain * ((pendingFrames p.bgQueue).getD i (0, 0)).2)) ∧
        (ctrl.muteVoice = true →
          (p.process M b).bufs.Lo.getD i 0
            = (if ctrl.muteBg then 0
                else ctrl.bgGain * ((pendingFrames p.bgQueue).getD i (0, 0)).1) ∧
          (p.process M b).bufs.Ro.getD i 0
            = (if ctrl.muteBg then 0
                else ctrl.bgGain * ((pendingFrames p.bgQueue).getD i (0, 0)).2)) ∧
        (ctrl.muteBg = true →
          (p.process M b).bufs.Lo.getD i 0
            = (if ctrl.muteVoice then 0
                else ctrl.voiceGain * ((pendingFrames p.voiceQueue).getD i (0, 0)).1) ∧
          (p.process M b).bufs.Ro.getD i 0
            = (if ctrl.muteVoice then 0
                else ctrl.voiceGain * ((pendingFrames p.voiceQueue).getD i (0, 0)).2))) ∧
    (ctrl.muteVoice = true → ctrl.muteBg = true →
      ∀ (p : HybridProcessor α) (b : Bufs α), p.ctrl = ctrl → b.Quantum →
        (p.inline.processBlock M b ctrl).bufs.Lo = List.replicate b.Li.length 0 ∧
        (p.inline.processBlock M b ctrl).bufs.Ro = List.replicate b.Li.length 0 ∧
        (p.process M b).bufs.Lo = List.replicate b.Li.length 0 ∧
        (p.process M b).bufs.Ro = List.replicate b.Li.length 0) := by
  refine ⟨?_, ?_, ?_, ?_⟩
  · intro sep b hq i hi
    obtain ⟨e1, e2⟩ := processBlock_sample M sep b ctrl hq i hi
    refine ⟨⟨e1, e2⟩, fun hv => ?_, fun hb => ?_⟩
    · have hz : vGainOf ctrl = 0 := by simp [vGainOf, hv]
      refine ⟨by rw [hz, zero_mul], by rw [hz, zero_mul], ?_, ?_⟩
      · rw [e1, hz, zero_mul, zero_add]
      · rw [e2, hz, zero_mul, zero_add]
    · have hz : effBgOf M ctrl (wSmoothOf M sep b ctrl) = 0 := by simp [effBgOf, bGainOf, hb]
      refine ⟨by rw [hz, zero_mul], by rw [hz, zero_mul], ?_, ?_⟩
      · rw [e1, hz, zero_mul, add_zero]
      · rw [e2, hz, zero_mul, add_zero]
  · intro p b hp hq h
    rw [← hp]
    exact process_is_processBlock M p b hq h
  · intro p b hp hq hport hmode hv hb htmp i hi
    obtain ⟨e1, e2⟩ := process_neural_sample M p b hq hport hmode hv hb htmp i hi
    rw [hp] at e1 e2
    refine ⟨⟨e1, e2⟩, fun hmv => ?_, fun hmb => ?_⟩
    · rw [e1, e2]
      simp only [neuralMix, hmv, if_true, zero_add, and_self]
    · rw [e1, e2]
      simp only [neuralMix, hmb, if_true, add_zero, and_self]
  · intro hv hb p b hp hq
    obtain ⟨hLo, hRo, _⟩ := hq
    subst hp
    have hpb := processBlock_muted M p.inline p.ctrl b hv hb hLo hRo
    refine ⟨hpb.1, hpb.2, ?_⟩
    by_cases hn : p.workerPort = true ∧ p.ctrl.aiMode = "onnx"
    · have hlen := consumeStereo_lengths p.voiceQueue b.Lo b.Ro
      by_cases hfull : (p.voiceQueue.consumeStereo b.Lo b.Ro).filled = b.Li.length ∧
          (p.bgQueue.consumeStereo (p.tmpArrays b.Li.length).1
            (p.tmpArrays b.Li.length).2).filled = b.Li.length
      · simp only [HybridProcessor.process, if_pos hn, if_pos hfull]
        exact neuralMix_loop_muted p.ctrl _ _ _ b.Li.length hv hb
          (by rw [hlen.1, hLo]) (by rw [hlen.2, hRo])
      · simp only [HybridProcessor.process, if_pos hn, if_neg hfull]
        have := processBlock_muted M p.inline p.ctrl
          { b with Lo := (p.voiceQueue.consumeStereo b.Lo b.Ro).outputL.map (fun _ => 0),
                   Ro := (p.voiceQueue.consumeStereo b.Lo b.Ro).outputR.map (fun _ => 0) }
          hv hb (by simp only [List.length_map, hlen.1, hLo])
          (by simp only [List.length_map, hlen.2, hRo])
        exact this
    · rw [(process_proxy M p b hn).1]
      exact hpb

/-- C3, concrete instances.  A NEURAL quantum of one frame with `muteVoice`
set, the voice queue holding the frame `(1, 2)` and the background queue the
frame `(3, 4)`: the left output sample is the background term alone.  A
PROXY quantum of two frames with both mutes set: the output is zero. -/
theorem mute_correctness_witness :
    ((({ HybridProcessor.new with
          ctrl := { ControlState.default with muteVoice := true, aiMode := "onnx" },
          workerPort := true,
          voiceQueue := { buffers := [[1, 2]], offset := 0 },
          bgQueue := { buffers := [[3, 4]], offset := 0 } } :
        HybridProcessor ℚ).process JsMath.sample
      { Li := [1 / 2], Ri := none, Lo := [0], Ro := [0] }).bufs.Lo.getD 0 0
      = (if ({ ControlState.default with muteVoice := true, aiMode := "onnx" } :
            ControlState ℚ).muteBg then 0
          else ({ ControlState.default with muteVoice := true, aiMode := "onnx" } :
            ControlState ℚ).bgGain
            * ((pendingFrames ({ buffers := [[3, 4]], offset := 0 } :
                InterleavedQueue ℚ)).getD 0 (0, 0)).1)) ∧
    (({ HybridProcessor.new with
          ctrl := { ControlState.default with muteVoice := true, muteBg := true } } :
        HybridProcessor ℚ).process JsMath.sample
      { Li := [1 / 2, 1 / 4], Ri := some [1 / 2, 1 / 3], Lo := [0, 0], Ro := [0, 0] }).bufs.Lo
      = [0, 0] :=
  ⟨(((mute_correctness JsMath.sample
      ({ ControlState.default with muteVoice := true, aiMode := "onnx" } :
        ControlState ℚ)).2.2.1
      { HybridProcessor.new with
          ctrl := { ControlState.default with muteVoice := true, aiMode := "onnx" },
          workerPort := true,
          voiceQueue := { buffers := [[1, 2]], offset := 0 },
          bgQueue := { buffers := [[3, 4]], offset := 0 } }
      { Li := [1 / 2], Ri := none, Lo := [0], Ro := [0] }
      rfl ⟨rfl, rfl, rfl⟩ rfl rfl (by decide) (by decide)
      (fun t ht => by cases ht) 0 (by decide)).2.1 rfl).1,
   ((mute_correctness JsMath.sample
      { ControlState.default with muteVoice := true, muteBg := true }).2.2.2 rfl rfl
    { HybridProcessor.new with
      ctrl := { ControlState.default with muteVoice := true, muteBg := true } }
    { Li := [1 / 2, 1 / 4], Ri := some [1 / 2, 1 / 3], Lo := [0, 0], Ro := [0, 0] }
    rfl ⟨rfl, rfl, rfl⟩).2.2.1⟩

end MuteSampleTheorems

section HotSwitchTheorems
variable {α : Type} [LinearOrderedField α] {σ : Type}

/-- A CONTROL patch that carries a string `aiMode` sets the mode to it. -/
theorem worklet_onControl_mode (w : Worklet α) (patch : Obj α) (m : String)
    (h : patch "aiMode" = some (JsVal.str m)) :
    (w.onControl (some patch)).1.proc.ctrl.aiMode = m := by
  have hst := onControl_raw w.ctrlObj patch "aiMode" _ (by decide) (by decide) (by decide) h
  simp only [Worklet.onControl, ControlState.ofObj, Obj.strOr, hst]

/-- C12 as stated fails: the CONTROL handler never resets the stem queues.  A
worklet gets its worker port attached and the patch `{ aiMode: "onnx" }`, then
an OUT message with the stems `[1, 2]` and `[3, 4]`, which are pushed on the
two queues, then the patch `{ aiMode: "proxy" }`; the patch
`{ aiMode: "onnx" }` now changes the mode from proxy to onnx, and both
fragments are still queued when NEURAL is entered. -/
theorem mode_switch_reset_counterexample :
    ¬ (∀ (w : Worklet ℚ) (patch : Obj ℚ),
        (w.proc.ctrl.aiMode = "proxy" ∧ (w.onControl (some patch)).1.proc.ctrl.aiMode = "onnx") ∨
        (w.proc.ctrl.aiMode = "onnx" ∧ (w.onControl (some patch)).1.proc.ctrl.aiMode = "proxy") →
        (w.onControl (some patch)).1.proc.voiceQueue.buffers = [] ∧
        (w.onControl (some patch)).1.proc.bgQueue.buffers = []) := by
  intro h
  have h1 := h
    (({ ((Worklet.new : Worklet ℚ).onAttachWorker.1.onControl
          (some (Obj.ofList [("aiMode", JsVal.str "onnx")]))).1 with
        proc := (((Worklet.new : Worklet ℚ).onAttachWorker.1.onControl
          (some (Obj.ofList [("aiMode", JsVal.str "onnx")]))).1.proc.onWorkerOut
            (some [1, 2]) (some [3, 4])) } : Worklet ℚ).onControl
      (some (Obj.ofList [("aiMode", JsVal.str "proxy")]))).1
    (Obj.ofList [("aiMode", JsVal.str "onnx")])
    (Or.inl ⟨worklet_onControl_mode _ _ "proxy" (by simp [Obj.ofList, Obj.set]),
      worklet_onControl_mode _ _ "onnx" (by simp [Obj.ofList, Obj.set])⟩)
  have h2 := h1.1
  rw [(worklet_onControl_keeps _ _).1, (worklet_onControl_keeps _ _).1] at h2
  simp [HybridProcessor.onWorkerOut, InterleavedQueue.push, Worklet.onControl,
    Worklet.onAttachWorker, Worklet.new, HybridProcessor.new, InterleavedQueue.new] at h2

/-- C12 (amended): a CONTROL patch, whether or not it changes the mode, leaves
the stem queues, the separator state and the worker's input accumulation and
overlap-add accumulators exactly as they were (the mode switch is hot, nothing
is reset); a quantum rendered in PROXY mode does not consume from the stem
queues either; and the first quantum rendered after a patch that leaves the
mode at `"onnx"`, with a worker port attached and at least `N` frames in each
queue, emits the NEURAL mix of the oldest `N` frames the two queues held
before the patch. -/
theorem mode_switch_keeps_state (M : JsMath α) (w : Worklet α) (wk : SepWorker α σ)
    (control : Option (Obj α)) :
    ((w.onControl control).1.proc.voiceQueue = w.proc.voiceQueue ∧
      (w.onControl control).1.proc.bgQueue = w.proc.bgQueue ∧
      (w.onControl control).1.proc.inline = w.proc.inline) ∧
    ((wk.onControl control).inBuf = wk.inBuf ∧ (wk.onControl control).ola = wk.ola) ∧
    (∀ (p : HybridProcessor α) (b : Bufs α), p.ctrl.aiMode ≠ "onnx" →
      (p.process M b).proc.voiceQueue = p.voiceQueue ∧
      (p.process M b).proc.bgQueue = p.bgQueue) ∧
    (∀ (b : Bufs α), b.Quantum → w.proc.workerPort = true →
      (w.onControl control).1.proc.ctrl.aiMode = "onnx" →
      b.Li.length ≤ framesBuffered w.proc.voiceQueue →
      b.Li.length ≤ framesBuffered w.proc.bgQueue →
      (∀ t, w.proc.tmpBg = some t → t.2.length = t.1.length) →
      ∀ i, i < b.Li.length →
        ((w.onControl control).1.proc.process M b).bufs.Lo.getD i 0
          = neuralMix (w.onControl control).1.proc.ctrl
              ((pendingFrames w.proc.voiceQueue).getD i (0, 0)).1
              ((pendingFrames w.proc.bgQueue).getD i (0, 0)).1 ∧
        ((w.onControl control).1.proc.process M b).bufs.Ro.getD i 0
          = neuralMix (w.onControl control).1.proc.ctrl
              ((pendingFrames w.proc.voiceQueue).getD i (0, 0)).2
              ((pendingFrames w.proc.bgQueue).getD i (0, 0)).2) := by
  have h1 := worklet_onControl_keeps w control
  have h2 := worker_onControl_keeps wk control
  refine ⟨⟨h1.1, h1.2.1, h1.2.2.1⟩, ⟨h2.1, h2.2.1⟩, ?_, ?_⟩
  · intro p b hp
    have h3 := process_proxy_keeps_queues M p b (fun hc => hp hc.2)
    exact ⟨h3.1, h3.2.1⟩
  · intro b hq hport hmode hv hb htmp i hi
    obtain ⟨k1, k2, _, k4, k5⟩ := h1
    have key := process_neural_sample M (w.onControl control).1.proc b hq
      (by rw [k5]; exact hport) hmode (by rw [k1]; exact hv) (by rw [k2]; exact hb)
      (by rw [k4]; exact htmp) i hi
    rw [k1, k2] at key
    exact key

/-- C12 (amended), a concrete instance: a worklet in PROXY mode with a worker
port attached, whose queues hold the fragments `[1, 2]` and `[3, 4]`, gets the
patch `{ aiMode: "onnx" }`; the next quantum of one frame emits the mix of the
frames `(1, 2)` and `(3, 4)` queued before the switch. -/
theorem mode_switch_keeps_state_witness :
    (((({ ctrlObj := initialCtrl,
          proc := { HybridProcessor.new with
            workerPort := true,
            voiceQueue := { buffers := [[1, 2]], offset := 0 },
            bgQueue := { buffers := [[3, 4]], offset := 0 } } } : Worklet ℚ).onControl
        (some (Obj.ofList [("aiMode", JsVal.str "onnx")]))).1.proc.process JsMath.sample
      { Li := [1 / 2], Ri := none, Lo := [0], Ro := [0] }).bufs.Lo.getD 0 0
      = neuralMix
          (({ ctrlObj := initialCtrl,
              proc := { HybridProcessor.new with
                workerPort := true,
                voiceQueue := { buffers := [[1, 2]], offset := 0 },
                bgQueue := { buffers := [[3, 4]], offset := 0 } } } : Worklet ℚ).onControl
            (some (Obj.ofList [("aiMode", JsVal.str "onnx")]))).1.proc.ctrl
          ((pendingFrames ({ buffers := [[1, 2]], offset := 0 } :
            InterleavedQueue ℚ)).getD 0 (0, 0)).1
          ((pendingFrames ({ buffers := [[3, 4]], offset := 0 } :
            InterleavedQueue ℚ)).getD 0 (0, 0)).1) :=
  ((mode_switch_keeps_state JsMath.sample
      ({ ctrlObj := initialCtrl,
         proc := { HybridProcessor.new with
           workerPort := true,
           voiceQueue := { buffers := [[1, 2]], offset := 0 },
           bgQueue := { buffers := [[3, 4]], offset := 0 } } } : Worklet ℚ)
      (SepWorker.new : SepWorker ℚ Unit)
      (some (Obj.ofList [("aiMode", JsVal.str "onnx")]))).2.2.2
    { Li := [1 / 2], Ri := none, Lo := [0], Ro := [0] } ⟨rfl, rfl, rfl⟩ rfl
    (worklet_onControl_mode _ _ "onnx" (by simp [Obj.ofList, Obj.set]))
    (by decide) (by decide) (fun t ht => by cases ht) 0 (by decide)).1

end HotSwitchTheorems

section AsyncLemmas
variable {α : Type} [LinearOrderedField α]

theorem arrive_wait (M : JsMath α) (w : AsyncWorker α) (c : List α)
    (h : w.inBuf.length + c.length < 2 * BLOCK) :
    w.arrive M c = { w with inBuf := w.inBuf ++ c } := by
  unfold AsyncWorker.arrive AsyncWorker.loopTest
  rw [if_neg (by simp only [List.length_append]; omega)]
  simp

theorem arrive_suspend (M : JsMath α) (w : AsyncWorker α) (c : List α)
    (h : 2 * BLOCK ≤ w.inBuf.length + c.length) :
    w.arrive M c
      = { w with
          inBuf := w.inBuf ++ c,
          suspended := w.suspended ++
            [{ L := windowL M (w.inBuf ++ c), R := windowR M (w.inBuf ++ c), outVoice := [],
               outBg := [] }] } := by
  unfold AsyncWorker.arrive AsyncWorker.loopTest
  rw [if_pos (by simp only [List.length_append]; omega)]

/-- The oldest suspended handler resumes, collects a hop and leaves the loop:
it posts what it collected. -/
theorem resolve_head_post (M : JsMath α) (inBuf : List α) (ola : OlaState α) (s : Suspended α)
    (rest : List (Suspended α)) (posted : List (List α × List α)) (voice : List α)
    (h1 : 2 * HOP ≤ inBuf.length) (h2 : inBuf.length < 2 * BLOCK + 2 * HOP) :
    AsyncWorker.resolve M
        { inBuf := inBuf, ola := ola, suspended := s :: rest, posted := posted } 0 voice
      = { inBuf := dropInputHop inBuf
          ola := slideOla (accumulate s.L s.R voice ola)
          suspended := rest
          posted := posted ++
            [((s.outVoice ++ [hopFragment (accumulate s.L s.R voice ola).olaVoiceL
                (accumulate s.L s.R voice ola).olaVoiceR]).flatten,
              (s.outBg ++ [hopFragment (accumulate s.L s.R voice ola).olaBgL
                (accumulate s.L s.R voice ola).olaBgR]).flatten)] } := by
  unfold AsyncWorker.resolve AsyncWorker.loopTest
  simp only [List.getElem?_cons_zero, List.eraseIdx_cons_zero]
  rw [if_neg (by omega), if_neg (by simp only [dropInputHop, List.length_drop]; omega),
    if_pos (by simp)]

/-- The oldest suspended handler resumes, collects a hop and finds another
full window: it suspends again, behind the other suspended handlers. -/
theorem resolve_head_suspend (M : JsMath α) (inBuf : List α) (ola : OlaState α)
    (s : Suspended α) (rest : List (Suspended α)) (posted : List (List α × List α))
    (voice : List α) (h : 2 * BLOCK + 2 * HOP ≤ inBuf.length) :
    AsyncWorker.resolve M
        { inBuf := inBuf, ola := ola, suspended := s :: rest, posted := posted } 0 voice
      = { inBuf := dropInputHop inBuf
          ola := slideOla (accumulate s.L s.R voice ola)
          suspended := rest ++
            [{ L := windowL M (dropInputHop inBuf), R := windowR M (dropInputHop inBuf),
               outVoice := s.outVoice ++ [hopFragment (accumulate s.L s.R voice ola).olaVoiceL
                 (accumulate s.L s.R voice ola).olaVoiceR],
               outBg := s.outBg ++ [hopFragment (accumulate s.L s.R voice ola).olaBgL
                 (accumulate s.L s.R voice ola).olaBgR] }]
          posted := posted } := by
  unfold AsyncWorker.resolve AsyncWorker.loopTest
  simp only [List.getElem?_cons_zero, List.eraseIdx_cons_zero]
  rw [if_neg (by omega), if_pos (by simp only [dropInputHop, List.length_drop]; omega)]

/-- Chunks that do not complete a window are appended to `inBuf` and nothing
else happens. -/
theorem run_arrivals_wait (M : JsMath α) (pre : List (List α)) :
    ∀ w : AsyncWorker α, w.inBuf.length + (pre.map List.length).sum < 2 * BLOCK →
      w.run M (pre.map HandlerEvent.arrive) = { w with inBuf := w.inBuf ++ pre.flatten } := by
  induction pre with
  | nil =>
    intro w _
    simp [AsyncWorker.run]
  | cons c cs ih =>
    intro w h
    simp only [List.map_cons, List.sum_cons] at h
    have e1 := arrive_wait M w c (by omega)
    have e2 := ih { w with inBuf := w.inBuf ++ c }
      (by simp only [List.length_append]; omega)
    simp only [AsyncWorker.run, List.map_cons, List.foldl_cons, AsyncWorker.step] at e2 ⊢
    rw [e1, e2]
    simp

theorem run_append (M : JsMath α) (w : AsyncWorker α) (e1 e2 : List (HandlerEvent α)) :
    w.run M (e1 ++ e2) = (w.run M e1).run M e2 := by
  simp only [AsyncWorker.run, List.foldl_append]

theorem frames_hop {β : Type} (f : List β) (h : f.length = 2 * HOP) : frames f = HOP := by
  rw [frames_eq, h]
  omega

/-- One window, two handlers: a chunk completes the first window and a
handler suspends at the model call; a second chunk arrives meanwhile, its
handler takes the same window and suspends too; both model calls resolve.
Each handler posts one hop. -/
theorem two_handlers_one_window (M : JsMath α) (w : AsyncWorker α) (c1 c2 v1 v2 : List α)
    (hs : w.suspended = []) (hp : w.posted = [])
    (hfull : w.inBuf.length + c1.length = 2 * BLOCK) (hc2 : c2.length < 2 * HOP) :
    (w.run M [HandlerEvent.arrive c1, HandlerEvent.arrive c2, HandlerEvent.resolve 0 v1,
      HandlerEvent.resolve 0 v2]).suspended = [] ∧
    (w.run M [HandlerEvent.arrive c1, HandlerEvent.arrive c2, HandlerEvent.resolve 0 v1,
      HandlerEvent.resolve 0 v2]).inBuf.length = c2.length ∧
    ∃ m1 m2 : List α × List α,
      (w.run M [HandlerEvent.arrive c1, HandlerEvent.arrive c2, HandlerEvent.resolve 0 v1,
        HandlerEvent.resolve 0 v2]).posted = [m1, m2] ∧
      m1.1.length = 2 * HOP ∧ m1.2.length = 2 * HOP ∧
      m2.1.length = 2 * HOP ∧ m2.2.length = 2 * HOP := by
  have h1 : HOP = 2048 := by decide
  have h2 : BLOCK = 4096 := rfl
  obtain ⟨inBuf, ola, susp, posted⟩ := w
  simp only at hs hp hfull
  subst hs
  subst hp
  simp only [AsyncWorker.run, List.foldl_cons, List.foldl_nil, AsyncWorker.step]
  rw [arrive_suspend M _ c1 (by simp only; omega)]
  rw [arrive_suspend M _ c2 (by simp only [List.length_append]; omega)]
  simp only [List.nil_append, List.singleton_append]
  rw [resolve_head_post M _ _ _ _ _ v1 (by simp only [List.length_append]; omega)
    (by simp only [List.length_append]; omega)]
  rw [resolve_head_post M _ _ _ _ _ v2
    (by simp only [dropInputHop, List.length_drop, List.length_append]; omega)
    (by simp only [dropInputHop, List.length_drop, List.length_append]; omega)]
  refine ⟨rfl, ?_, _, _, rfl, ?_, ?_, ?_, ?_⟩
  · simp only [dropInputHop, List.length_drop, List.length_append]; omega
  all_goals
    simp only [List.nil_append, List.flatten_cons, List.flatten_nil, List.append_nil,
      hopFragment_length]

/-- Two windows, two handlers: a chunk completes the first window and its
handler suspends; a second chunk of at least a hop arrives meanwhile and its
handler suspends on the same window; the first call resolves and the first
handler, finding a second full window, suspends again; the second call
resolves and the second handler, finding less than a window, posts one hop;
the third call resolves and the first handler posts two hops. -/
theorem two_handlers_two_windows (M : JsMath α) (w : AsyncWorker α) (c1 c2 v1 v2 v3 : List α)
    (hs : w.suspended = []) (hp : w.posted = [])
    (hfull : w.inBuf.length + c1.length = 2 * BLOCK) (hc2 : 2 * HOP ≤ c2.length)
    (hc2b : c2.length < 2 * BLOCK) :
    ∃ (mB mA : List α × List α) (a : Suspended α),
      (w.run M [HandlerEvent.arrive c1, HandlerEvent.arrive c2, HandlerEvent.resolve 0 v1,
        HandlerEvent.resolve 0 v2]).posted = [mB] ∧
      (w.run M [HandlerEvent.arrive c1, HandlerEvent.arrive c2, HandlerEvent.resolve 0 v1,
        HandlerEvent.resolve 0 v2]).suspended = [a] ∧
      a.outVoice.length = 1 ∧ a.outBg.length = 1 ∧
      mB.1.length = 2 * HOP ∧ mB.2.length = 2 * HOP ∧
      (w.run M [HandlerEvent.arrive c1, HandlerEvent.arrive c2, HandlerEvent.resolve 0 v1,
        HandlerEvent.resolve 0 v2, HandlerEvent.resolve 0 v3]).posted = [mB, mA] ∧
      (w.run M [HandlerEvent.arrive c1, HandlerEvent.arrive c2, HandlerEvent.resolve 0 v1,
        HandlerEvent.resolve 0 v2, HandlerEvent.resolve 0 v3]).suspended = [] ∧
      mA.1.length = 2 * (2 * HOP) ∧ mA.2.length = 2 * (2 * HOP) ∧
      (w.run M [HandlerEvent.arrive c1, HandlerEvent.arrive c2, HandlerEvent.resolve 0 v1,
        HandlerEvent.resolve 0 v2, HandlerEvent.resolve 0 v3]).inBuf.length
        = c2.length - 2 * HOP := by
  have h1 : HOP = 2048 := by decide
  have h2 : BLOCK = 4096 := rfl
  obtain ⟨inBuf, ola, susp, posted⟩ := w
  simp only at hs hp hfull
  subst hs
  subst hp
  simp only [AsyncWorker.run, List.foldl_cons, List.foldl_nil, AsyncWorker.step]
  rw [arrive_suspend M _ c1 (by simp only; omega)]
  rw [arrive_suspend M _ c2 (by simp only [List.length_append]; omega)]
  simp only [List.nil_append, List.singleton_append]
  rw [resolve_head_suspend M _ _ _ _ _ v1 (by simp only [List.length_append]; omega)]
  simp only [List.nil_append, List.singleton_append]
  rw [resolve_head_post M _ _ _ _ _ v2
    (by simp only [dropInputHop, List.length_drop, List.length_append]; omega)
    (by simp only [dropInputHop, List.length_drop, List.length_append]; omega)]
  rw [resolve_head_post M _ _ _ _ _ v3
    (by simp only [dropInputHop, List.length_drop, List.length_append]; omega)
    (by simp only [dropInputHop, List.length_drop, List.length_append]; omega)]
  refine ⟨_, _, _, rfl, rfl, ?_, ?_, ?_, ?_, rfl, rfl, ?_, ?_, ?_⟩
  · simp only [List.nil_append, List.length_singleton]
  · simp only [List.nil_append, List.length_singleton]
  · simp only [List.nil_append, List.flatten_cons, List.flatten_nil, List.append_nil,
      hopFragment_length]
  · simp only [List.nil_append, List.flatten_cons, List.flatten_nil, List.append_nil,
      hopFragment_length]
  · simp only [List.nil_append, List.singleton_append, List.flatten_cons, List.flatten_nil,
      List.append_nil, List.length_append, hopFragment_length]
    omega
  · simp only [List.nil_append, List.singleton_append, List.flatten_cons, List.flatten_nil,
      List.append_nil, List.length_append, hopFragment_length]
    omega
  · simp only [dropInputHop, List.length_drop, List.length_append]
    omega

end AsyncLemmas

section OverlapTheorems
variable {α : Type} [LinearOrderedField α]

/-- C17 against the code: PROCESS handlers that overlap at the model call break
the latency bound.  Chunks of even length arrive at a fresh ready worker; the
chunk `c1` completes the first window (`2 * BLOCK` samples) and its handler
suspends at `await runModelStereo`; one more chunk `c2`, shorter than a hop,
arrives before the model answers, and its handler takes the same window and
suspends too; then both calls resolve.  Each handler posts a hop, so
`BLOCK` frames per stem are emitted, while fewer than `BLOCK + HOP` frames
have been received: more than frames received minus `BLOCK - HOP`. -/
theorem overlapping_handlers_exceed_latency_bound (M : JsMath α) (pre : List (List α))
    (c1 c2 v1 v2 : List α) (heven : ∀ c ∈ pre ++ [c1, c2], c.length % 2 = 0)
    (hfull : (pre.map List.length).sum + c1.length = 2 * BLOCK) (hc1 : 0 < c1.length)
    (hc2 : c2.length < 2 * HOP) :
    ((AsyncWorker.new.run M (pre.map HandlerEvent.arrive ++
        [HandlerEvent.arrive c1, HandlerEvent.arrive c2, HandlerEvent.resolve 0 v1,
         HandlerEvent.resolve 0 v2])).suspended = []) ∧
    (((AsyncWorker.new.run M (pre.map HandlerEvent.arrive ++
        [HandlerEvent.arrive c1, HandlerEvent.arrive c2, HandlerEvent.resolve 0 v1,
         HandlerEvent.resolve 0 v2])).posted.map (fun o => frames o.1)).sum = BLOCK) ∧
    (((AsyncWorker.new.run M (pre.map HandlerEvent.arrive ++
        [HandlerEvent.arrive c1, HandlerEvent.arrive c2, HandlerEvent.resolve 0 v1,
         HandlerEvent.resolve 0 v2])).posted.map (fun o => frames o.2)).sum = BLOCK) ∧
    (((pre ++ [c1, c2]).map frames).sum < BLOCK + HOP) ∧
    ¬ (((AsyncWorker.new.run M (pre.map HandlerEvent.arrive ++
          [HandlerEvent.arrive c1, HandlerEvent.arrive c2, HandlerEvent.resolve 0 v1,
           HandlerEvent.resolve 0 v2])).posted.map (fun o => frames o.1)).sum
        ≤ ((pre ++ [c1, c2]).map frames).sum - (BLOCK - HOP)) ∧
    ¬ (((AsyncWorker.new.run M (pre.map HandlerEvent.arrive ++
          [HandlerEvent.arrive c1, HandlerEvent.arrive c2, HandlerEvent.resolve 0 v1,
           HandlerEvent.resolve 0 v2])).posted.map (fun o => frames o.2)).sum
        ≤ ((pre ++ [c1, c2]).map frames).sum - (BLOCK - HOP)) := by
  have h1 : HOP = 2048 := by decide
  have h2 : BLOCK = 4096 := rfl
  have hnew : (AsyncWorker.new : AsyncWorker α).inBuf.length = 0 := rfl
  rw [run_append, run_arrivals_wait M pre AsyncWorker.new (by rw [hnew]; omega)]
  obtain ⟨k1, _, m1, m2, k3, l1, l2, l3, l4⟩ := two_handlers_one_window M
    { (AsyncWorker.new : AsyncWorker α) with
      inBuf := (AsyncWorker.new : AsyncWorker α).inBuf ++ pre.flatten } c1 c2 v1 v2 rfl rfl
    (by
      simp only [List.length_append, List.length_flatten, hnew]
      omega) hc2
  have hsum := sum_length_even (pre ++ [c1, c2]) heven
  simp only [List.map_append, List.sum_append, List.map_cons, List.map_nil, List.sum_cons,
    List.sum_nil] at hsum ⊢
  have e1 : ([m1, m2].map (fun o => frames o.1)).sum = BLOCK := by
    simp only [List.map_cons, List.map_nil, List.sum_cons, List.sum_nil, frames_hop _ l1,
      frames_hop _ l3]
    omega
  have e2 : ([m1, m2].map (fun o => frames o.2)).sum = BLOCK := by
    simp only [List.map_cons, List.map_nil, List.sum_cons, List.sum_nil, frames_hop _ l2,
      frames_hop _ l4]
    omega
  rw [k1, k3, e1, e2]
  refine ⟨rfl, rfl, rfl, by omega, by omega, by omega⟩

/-- C17 against the code, a concrete instance: 33 chunks of 128 frames; the
32nd completes the first window, the 33rd arrives while the model runs.
`4096` frames are emitted per stem for `4224` received. -/
theorem overlapping_handlers_exceed_latency_bound_witness :
    (((AsyncWorker.new : AsyncWorker ℚ).run JsMath.sample
        ((List.replicate 31 (List.replicate 256 1)).map HandlerEvent.arrive ++
          [HandlerEvent.arrive (List.replicate 256 1),
           HandlerEvent.arrive (List.replicate 256 1),
           HandlerEvent.resolve 0 [], HandlerEvent.resolve 0 []])).posted.map
        (fun o => frames o.1)).sum = BLOCK ∧
    ((List.replicate 31 (List.replicate 256 (1 : ℚ)) ++
        [List.replicate 256 1, List.replicate 256 1]).map frames).sum < BLOCK + HOP :=
  ⟨(overlapping_handlers_exceed_latency_bound JsMath.sample
      (List.replicate 31 (List.replicate 256 (1 : ℚ))) (List.replicate 256 1)
      (List.replicate 256 1) [] []
      (by
        intro c hc
        simp only [List.mem_append, List.mem_replicate, List.mem_cons, List.mem_singleton,
          List.not_mem_nil, or_false] at hc
        rcases hc with ⟨_, hc⟩ | hc | hc <;> rw [hc, List.length_replicate])
      (by
        simp only [List.map_replicate, List.sum_replicate, List.length_replicate,
          smul_eq_mul]
        decide)
      (by rw [List.length_replicate]; decide)
      (by rw [List.length_replicate]; decide)).2.1,
   (overlapping_handlers_exceed_latency_bound JsMath.sample
      (List.replicate 31 (List.replicate 256 (1 : ℚ))) (List.replicate 256 1)
      (List.replicate 256 1) [] []
      (by
        intro c hc
        simp only [List.mem_append, List.mem_replicate, List.mem_cons, List.mem_singleton,
          List.not_mem_nil, or_false] at hc
        rcases hc with ⟨_, hc⟩ | hc | hc <;> rw [hc, List.length_replicate])
      (by
        simp only [List.map_replicate, List.sum_replicate, List.length_replicate,
          smul_eq_mul]
        decide)
      (by rw [List.length_replicate]; decide)
      (by rw [List.length_replicate]; decide)).2.2.2.1⟩

/-- C28 against the code: with PROCESS handlers that overlap at the model call
the number of hops a handler emits is not the one its own `inBuf` length
gives.  At a fresh ready worker the chunk `c1` completes the first window
(`len = 2 * BLOCK`, one hop by the formula) and its handler suspends at
`await runModelStereo`; a chunk `c2` of at least a hop and less than a window
arrives meanwhile (`len = 2 * BLOCK + c2.length`, two hops by the formula) and
its handler suspends too.  The first handler resumes, drops a hop, finds a
second window and suspends again; the second handler resumes and posts one
hop, not two, while the first is still suspended holding one fragment; the
first handler resumes and posts two hops, not one.  Every handler has run to
its end and `inBuf` is left shorter than a window. -/
theorem overlapping_handlers_miss_hop_count (M : JsMath α) (pre : List (List α))
    (c1 c2 v1 v2 v3 : List α)
    (hfull : (pre.map List.length).sum + c1.length = 2 * BLOCK) (hc1 : 0 < c1.length)
    (hc2 : 2 * HOP ≤ c2.length) (hc2b : c2.length < 2 * BLOCK) :
    (max 0 (((((pre.map List.length).sum + c1.length : Nat) : ℤ) - 2 * (BLOCK : ℤ))
        / (2 * (HOP : ℤ)) + 1) = 1) ∧
    (max 0 (((((pre.map List.length).sum + c1.length + c2.length : Nat) : ℤ) - 2 * (BLOCK : ℤ))
        / (2 * (HOP : ℤ)) + 1) = 2) ∧
    ∃ (mB mA : List α × List α) (a : Suspended α),
      (AsyncWorker.new.run M (pre.map HandlerEvent.arrive ++
        [HandlerEvent.arrive c1, HandlerEvent.arrive c2, HandlerEvent.resolve 0 v1,
         HandlerEvent.resolve 0 v2])).posted = [mB] ∧
      (AsyncWorker.new.run M (pre.map HandlerEvent.arrive ++
        [HandlerEvent.arrive c1, HandlerEvent.arrive c2, HandlerEvent.resolve 0 v1,
         HandlerEvent.resolve 0 v2])).suspended = [a] ∧
      a.outVoice.length = 1 ∧ a.outBg.length = 1 ∧
      mB.1.length = 1 * (2 * HOP) ∧ mB.2.length = 1 * (2 * HOP) ∧
      (AsyncWorker.new.run M (pre.map HandlerEvent.arrive ++
        [HandlerEvent.arrive c1, HandlerEvent.arrive c2, HandlerEvent.resolve 0 v1,
         HandlerEvent.resolve 0 v2, HandlerEvent.resolve 0 v3])).posted = [mB, mA] ∧
      (AsyncWorker.new.run M (pre.map HandlerEvent.arrive ++
        [HandlerEvent.arrive c1, HandlerEvent.arrive c2, HandlerEvent.resolve 0 v1,
         HandlerEvent.resolve 0 v2, HandlerEvent.resolve 0 v3])).suspended = [] ∧
      mA.1.length = 2 * (2 * HOP) ∧ mA.2.length = 2 * (2 * HOP) ∧
      (AsyncWorker.new.run M (pre.map HandlerEvent.arrive ++
        [HandlerEvent.arrive c1, HandlerEvent.arrive c2, HandlerEvent.resolve 0 v1,
         HandlerEvent.resolve 0 v2, HandlerEvent.resolve 0 v3])).inBuf.length < 2 * BLOCK := by
  have h1 : HOP = 2048 := by decide
  have h2 : BLOCK = 4096 := rfl
  have hnew : (AsyncWorker.new : AsyncWorker α).inBuf.length = 0 := rfl
  refine ⟨?_, ?_, ?_⟩
  · rw [hfull, h1, h2]
    norm_num
  · rw [h1, h2]
    have e : (((pre.map List.length).sum + c1.length + c2.length : Nat) : ℤ)
        = 8192 + (c2.length : ℤ) := by
      rw [hfull, h2]
      push_cast
      norm_num
    rw [e]
    have q : ((8192 : ℤ) + (c2.length : ℤ) - 2 * ((4096 : Nat) : ℤ)) / (2 * ((2048 : Nat) : ℤ))
        = 1 := by
      omega
    rw [q]
    norm_num
  · rw [run_append, run_append,
      run_arrivals_wait M pre AsyncWorker.new (by rw [hnew]; omega)]
    obtain ⟨mB, mA, a, k1, k2, k3, k4, k5, k6, k7, k8, k9, k10, k11⟩ :=
      two_handlers_two_windows M
        { (AsyncWorker.new : AsyncWorker α) with
          inBuf := (AsyncWorker.new : AsyncWorker α).inBuf ++ pre.flatten } c1 c2 v1 v2 v3
        rfl rfl
        (by
          simp only [List.length_append, List.length_flatten, hnew]
          omega) hc2 hc2b
    refine ⟨mB, mA, a, k1, k2, k3, k4, by omega, by omega, k7, k8, k9, k10, ?_⟩
    rw [k11]
    omega

/-- C28 against the code, a concrete instance: a chunk of a full window, then
a chunk of one hop while the model runs; the model answers with an empty
array each time. -/
theorem overlapping_handlers_miss_hop_count_witness :
    ∃ (mB mA : List ℚ × List ℚ) (a : Suspended ℚ),
      ((AsyncWorker.new : AsyncWorker ℚ).run JsMath.sample
        (([] : List (List ℚ)).map HandlerEvent.arrive ++
          [HandlerEvent.arrive (List.replicate (2 * BLOCK) 1),
           HandlerEvent.arrive (List.replicate (2 * HOP) 1), HandlerEvent.resolve 0 [],
           HandlerEvent.resolve 0 []])).posted = [mB] ∧
      ((AsyncWorker.new : AsyncWorker ℚ).run JsMath.sample
        (([] : List (List ℚ)).map HandlerEvent.arrive ++
          [HandlerEvent.arrive (List.replicate (2 * BLOCK) 1),
           HandlerEvent.arrive (List.replicate (2 * HOP) 1), HandlerEvent.resolve 0 [],
           HandlerEvent.resolve 0 []])).suspended = [a] ∧
      a.outVoice.length = 1 ∧ a.outBg.length = 1 ∧
      mB.1.length = 1 * (2 * HOP) ∧ mB.2.length = 1 * (2 * HOP) ∧
      ((AsyncWorker.new : AsyncWorker ℚ).run JsMath.sample
        (([] : List (List ℚ)).map HandlerEvent.arrive ++
          [HandlerEvent.arrive (List.replicate (2 * BLOCK) 1),
           HandlerEvent.arrive (List.replicate (2 * HOP) 1), HandlerEvent.resolve 0 [],
           HandlerEvent.resolve 0 [], HandlerEvent.resolve 0 []])).posted = [mB, mA] ∧
      ((AsyncWorker.new : AsyncWorker ℚ).run JsMath.sample
        (([] : List (List ℚ)).map HandlerEvent.arrive ++
          [HandlerEvent.arrive (List.replicate (2 * BLOCK) 1),
           HandlerEvent.arrive (List.replicate (2 * HOP) 1), HandlerEvent.resolve 0 [],
           HandlerEvent.resolve 0 [], HandlerEvent.resolve 0 []])).suspended = [] ∧
      mA.1.length = 2 * (2 * HOP) ∧ mA.2.length = 2 * (2 * HOP) ∧
      ((AsyncWorker.new : AsyncWorker ℚ).run JsMath.sample
        (([] : List (List ℚ)).map HandlerEvent.arrive ++
          [HandlerEvent.arrive (List.replicate (2 * BLOCK) 1),
           HandlerEvent.arrive (List.replicate (2 * HOP) 1), HandlerEvent.resolve 0 [],
           HandlerEvent.resolve 0 [], HandlerEvent.resolve 0 []])).inBuf.length < 2 * BLOCK :=
  (overlapping_handlers_miss_hop_count JsMath.sample [] (List.replicate (2 * BLOCK) (1 : ℚ))
    (List.replicate (2 * HOP) 1) [] [] []
    (by rw [List.length_replicate]; rfl)
    (by rw [List.length_replicate]; decide)
    (by rw [List.length_replicate])
    (by rw [List.length_replicate]; decide)).2.2

end OverlapTheorems

section UnityMixLemmas
variable {α : Type} [LinearOrderedField α]

end UnityMixLemmas

section UnityMixTheorems
variable {α : Type} [LinearOrderedField α]

end UnityMixTheorems

end AudioEngine
